import Mathlib

/-!
# Configuration-as-code: settings download, delete-file loading, duplicate detection

A shallow embedding of

* `pkg/download/settings/settings.go` (the Settings 2.0 downloader),
* the delete-file loader exercised by `pkg/delete/delete_loader_test.go` (the loader itself is
  not among the sources and is modelled from its tests and the specification),
* the duplicate-coordinate check exercised by `pkg/project/v2/project_loader_test.go` (likewise
  modelled),
* the choice of downloaders exercised by `cmd/monaco/download/download_configs_test.go`
  (likewise modelled),
* the dependency graph builder, the deployment sorter and the deployment executor of sections
  4.1 to 4.3 of the specification (modelled from the specification, which is their only
  description among the sources),

together with theorems about them.

Conventions of the embedding.

* A Go slice is a `List`; the `nil` slice and the empty slice are both `[]`.
* A Go `map[string]V` is a `GoMap V`: an association list with pairwise different keys, kept
  in order of first insertion. Only `get?`, `keys` and `len` are meaningful, the order is not.
* A Go `error` is a `GoError` carrying its message; a `nil` error is `none`.
* Calls to the remote client are recorded in a list of `ClientCall`s.
-/

set_option autoImplicit false

namespace Monaco

/-! ## Go runtime values -/

/-- A Go `error`, identified by its message. -/
structure GoError where
  msg : String
deriving DecidableEq, Repr

/-- A Go `map[string]V`, as an association list with pairwise different keys. -/
abbrev GoMap (V : Type) := List (String × V)

namespace GoMap

variable {V : Type}

/-- Lookup `m[k]`, with `none` for a missing key. -/
def get? : GoMap V → String → Option V
  | [], _ => none
  | (k', v) :: rest, k => if k' = k then some v else get? rest k

/-- Assignment `m[k] = v`: overwrites the entry of an existing key, adds the key otherwise. -/
def set : GoMap V → String → V → GoMap V
  | [], k, v => [(k, v)]
  | (k', v') :: rest, k, v => if k' = k then (k, v) :: rest else (k', v') :: set rest k v

/-- The keys of the map. -/
def keys (m : GoMap V) : List String := m.map (fun kv => kv.1)

/-- Go `len(m)`. -/
def len (m : GoMap V) : Nat := m.length

end GoMap

/-- Go `strings.Contains(s, sub)` as a proposition: `sub` occurs in `s`. -/
def StrContains (s sub : String) : Prop := ∃ pre post : String, s = pre ++ sub ++ post

/-! ## Package `coordinate` -/

namespace coordinate

/-- Modelled from the spec: the `coordinate.Coordinate` struct is declared outside the sources;
it is the triple of section 3, with the field names of `settings.go` lines 185-189
(`project_loader_test.go` still writes `Api` for `Type` and `Config` for `ConfigId`). -/
structure Coordinate where
  Project : String
  Type_ : String
  ConfigId : String
deriving DecidableEq, Repr

end coordinate

/-! ## Package `config` -/

namespace config

/-- Modelled from the spec: the `config.SettingsType` struct is declared outside the sources;
the fields are those of `settings.go` lines 190-193. -/
structure SettingsType where
  SchemaId : String
  SchemaVersion : String
deriving DecidableEq, Repr

/-- Modelled from the spec: the `config.Type` interface is declared outside the sources. The spec
(section 3) lists its variants: classic-api, settings-schema, automation, bucket; `unset` is the
`nil` interface value of a zero `Config`. -/
inductive ConfigType where
  | unset
  | ClassicApiType (Api : String)
  | Settings (t : SettingsType)
  | AutomationType (Resource : String)
  | BucketType
deriving DecidableEq, Repr

/-- Modelled from the spec: the `value.ValueParameter` struct is declared outside the sources;
the field is that of `settings.go` line 195. -/
structure ValueParameter where
  Value : String
deriving DecidableEq, Repr

/-- Modelled from the spec: the `parameter.Parameter` interface is declared outside the sources.
The spec (section 3) lists the variants `value`, `environment-variable` and `reference`
(aggregates are not needed here). -/
inductive Parameter where
  | value (p : ValueParameter)
  | environment (Name : String)
  | reference (target : coordinate.Coordinate) (property : String)
deriving DecidableEq, Repr

/-- Modelled from the spec: the template built by `template.NewInMemoryTemplate(id, content)`,
declared outside the sources; it keeps both arguments. -/
structure InMemoryTemplate where
  id : String
  content : String
deriving DecidableEq, Repr

/-- Modelled from the spec: the `config.Config` struct is declared outside the sources; the
fields are those assigned in `settings.go` lines 183-199 (section 3 of the spec lists the same).
`Template` is an interface value, `none` being `nil`. -/
structure Config where
  Template : Option InMemoryTemplate
  Coordinate : coordinate.Coordinate
  Type_ : ConfigType
  Parameters : GoMap Parameter
  Skip : Bool
  OriginObjectId : String
deriving DecidableEq, Repr

end config

/-! ## Package `dtclient` (the parts `settings.go` reads) -/

namespace dtclient

/-- Modelled from the spec: an element of `dtclient.SchemaList`, declared outside the sources;
`settings.go` reads its `SchemaId`. -/
structure Schema where
  SchemaId : String
deriving DecidableEq, Repr

/-- Modelled from the spec: the struct behind `DownloadSettingsObject.ModificationInfo`, declared
outside the sources; the fields are those `settings.go` line 163 reads. -/
structure SettingsModificationInfo where
  Modifiable : Bool
  ModifiablePaths : List String
deriving DecidableEq, Repr

/-- Modelled from the spec: the `dtclient.DownloadSettingsObject` struct is declared outside the
sources; the fields are those `settings.go` reads. `Value` is the raw JSON text and
`ModificationInfo` a pointer (`none` is `nil`). -/
structure DownloadSettingsObject where
  SchemaVersion : String
  SchemaId : String
  ObjectId : String
  Scope : String
  Value : String
  ModificationInfo : Option SettingsModificationInfo
deriving DecidableEq, Repr

/-- Modelled from the spec: the `dtclient.SettingsClient` interface is declared outside the
sources. A client is what the remote answers to `ListSchemas()` and to
`ListSettings(ctx, schema, opts)`, the two methods `settings.go` calls. -/
structure SettingsClient where
  ListSchemas : Except GoError (List Schema)
  ListSettings : String → Except GoError (List DownloadSettingsObject)

/-- A call made to the client. -/
inductive ClientCall where
  | ListSchemas
  | ListSettings (schema : String)
deriving DecidableEq, Repr

end dtclient

/-! ## Package `settings` -/

namespace settings

open config coordinate dtclient

/-- Modelled from the spec: a decoded JSON value, the `interface{}` of `encoding/json`. -/
inductive Json where
  | null
  | bool (b : Bool)
  | num (n : Int)
  | str (s : String)
  | arr (items : List Json)
  | obj (fields : List (String × Json))

/-- The target of `json.Unmarshal` in `convertAllObjects`: a `map[string]interface{}`. -/
abbrev JsonObject := List (String × Json)

/-- Modelled from the spec: the library functions, the feature flags and the constant that
`settings.go` uses but does not define, taken as parameters. -/
structure Env where
  /-- The flag `featureflags.DownloadFilter().Enabled()`. -/
  DownloadFilter : Bool
  /-- The flag `featureflags.DownloadFilterSettings().Enabled()`. -/
  DownloadFilterSettings : Bool
  /-- The flag `featureflags.DownloadFilterSettingsUnmodifiable().Enabled()`. -/
  DownloadFilterSettingsUnmodifiable : Bool
  /-- The call `json.Unmarshal(value, &contentUnmarshalled)`; `none` when it returns an error. -/
  Unmarshal : String → Option JsonObject
  /-- The function `jsonutils.MarshalIndent`. -/
  MarshalIndent : String → String
  /-- The function `idutils.GenerateUUIDFromString`. -/
  GenerateUUIDFromString : String → String
  /-- The constant `config.ScopeParameter`. -/
  ScopeParameter : String

/-- The `Downloader` struct. `filters s content` is `d.filters.Get(s).ShouldDiscard(content)`. -/
structure Downloader where
  client : SettingsClient
  filters : String → JsonObject → Bool × String

/-- What a download function hands back: the Go pair `(v2.ConfigsPerType, error)`, `none` being
`nil`, and the client calls it made. The `ListSettings` calls of `download` stand in the order
in which their goroutines are started; the order in which they reach the client is up to the
scheduler, so only the content of that part of the list is meaningful, not its order. -/
structure Outcome where
  result : Option (GoMap (List Config))
  err : Option GoError
  calls : List ClientCall
deriving DecidableEq, Repr

/-- The function `shouldFilterSettings` (lines 205-207). -/
def shouldFilterSettings (env : Env) : Bool :=
  env.DownloadFilter && env.DownloadFilterSettings

/-- The function `shouldFilterUnmodifiableSettings` (lines 209-211). -/
def shouldFilterUnmodifiableSettings (env : Env) : Bool :=
  shouldFilterSettings env && env.DownloadFilterSettingsUnmodifiable

/-- The config built from one settings object (lines 180-199). -/
def newConfig (env : Env) (projectName : String) (o : DownloadSettingsObject) : Config :=
  let indentedJson := env.MarshalIndent o.Value
  let configId := env.GenerateUUIDFromString o.ObjectId
  { Template := some { id := configId, content := indentedJson }
    Coordinate := { Project := projectName, Type_ := o.SchemaId, ConfigId := configId }
    Type_ := ConfigType.Settings { SchemaId := o.SchemaId, SchemaVersion := o.SchemaVersion }
    Parameters := [(env.ScopeParameter, Parameter.value { Value := o.Scope })]
    Skip := false
    OriginObjectId := o.ObjectId }

/-- The loop of `convertAllObjects` (lines 161-201) with `result` as accumulator: `continue`
goes on with the same `result`, the `return result` of line 172 stops the loop. -/
def convertLoop (d : Downloader) (env : Env) (projectName : String) :
    List Config → List DownloadSettingsObject → List Config
  | result, [] => result
  | result, o :: rest =>
    if shouldFilterUnmodifiableSettings env
        && (match o.ModificationInfo with
            | none => false
            | some mi => !mi.Modifiable && mi.ModifiablePaths.length == 0) then
      convertLoop d env projectName result rest
    else
      match env.Unmarshal o.Value with
      | none => result
      | some contentUnmarshalled =>
        if shouldFilterSettings env && (d.filters o.SchemaId contentUnmarshalled).1 then
          convertLoop d env projectName result rest
        else
          convertLoop d env projectName (result ++ [newConfig env projectName o]) rest

/-- The method `Downloader.convertAllObjects` (lines 159-203). -/
def convertAllObjects (d : Downloader) (env : Env) (objects : List DownloadSettingsObject)
    (projectName : String) : List Config :=
  convertLoop d env projectName [] objects

/-- The method `Downloader.download` (lines 113-157). One goroutine per schema lists the settings of its
schema and stores the converted objects under the schema's key. Each goroutine writes its own
key only, under the mutex, so the entries of the result do not depend on the interleaving; the
goroutines are run here in the order of `schemas`, the order in which the loop of line 118
starts them. The recorded `ListSettings` calls are therefore listed in start order: which call
reaches the client first is decided by the scheduler and not fixed by the code. A failed
listing is logged and leaves the map untouched. -/
def download (d : Downloader) (env : Env) (schemas : List String) (projectName : String) :
    GoMap (List Config) × List ClientCall :=
  schemas.foldl
    (fun acc s =>
      match d.client.ListSettings s with
      | .error _ => (acc.1, acc.2 ++ [ClientCall.ListSettings s])
      | .ok objects =>
        (GoMap.set acc.1 s (convertAllObjects d env objects projectName),
          acc.2 ++ [ClientCall.ListSettings s]))
    ([], [])

/-- The function `validateSpecificSchemas` (lines 213-234), with the client calls it made. `knownSchemas` is
a set of schema ids. -/
def validateSpecificSchemas (c : SettingsClient) (schemas : List String) :
    (Bool × List String) × List ClientCall :=
  if schemas.length = 0 then
    ((true, []), [])
  else
    match c.ListSchemas with
    | .error _ => ((false, schemas), [ClientCall.ListSchemas])
    | .ok schemaList =>
      let knownSchemas := schemaList.map (fun s => s.SchemaId)
      let unknownSchemas := schemas.filter (fun s => !knownSchemas.contains s)
      ((unknownSchemas.length == 0, unknownSchemas), [ClientCall.ListSchemas])

/-- The method `Downloader.downloadAll` (lines 83-100). -/
def downloadAll (d : Downloader) (env : Env) (projectName : String) : Outcome :=
  match d.client.ListSchemas with
  | .error err => { result := none, err := some err, calls := [ClientCall.ListSchemas] }
  | .ok schemas =>
    let ids := schemas.map (fun i => i.SchemaId)
    let r := download d env ids projectName
    { result := some r.1, err := none, calls := ClientCall.ListSchemas :: r.2 }

/-- The error of `downloadSpecific` (line 104). -/
def unknownSchemasError (unknownSchemas : List String) : GoError :=
  { msg := "requested settings-schema(s) '" ++ ",".intercalate unknownSchemas
      ++ "' are not known" }

/-- The method `Downloader.downloadSpecific` (lines 102-111). -/
def downloadSpecific (d : Downloader) (env : Env) (projectName : String)
    (schemaIDs : List String) : Outcome :=
  let v := validateSpecificSchemas d.client schemaIDs
  if !v.1.1 then
    { result := none, err := some (unknownSchemasError v.1.2), calls := v.2 }
  else
    let r := download d env schemaIDs projectName
    { result := some r.1, err := none, calls := v.2 ++ r.2 }

/-- The method `Downloader.Download` (lines 72-81). -/
def Download (d : Downloader) (env : Env) (projectName : String)
    (schemaIDs : List SettingsType) : Outcome :=
  if schemaIDs.length = 0 then
    downloadAll d env projectName
  else
    let schemas := schemaIDs.map (fun s => s.SchemaId)
    downloadSpecific d env projectName schemas

/-- The requested schema ids that are not among the listed ones. -/
def unknownAmong (schemaList : List Schema) (schemas : List String) : List String :=
  schemas.filter (fun s => !(schemaList.map (fun x => x.SchemaId)).contains s)

/-! ### Values of the download tests -/

/-- An environment with every feature flag on, in which only the text `{}` unmarshals. -/
def testEnv : Env where
  DownloadFilter := true
  DownloadFilterSettings := true
  DownloadFilterSettingsUnmodifiable := true
  Unmarshal := fun s => if s = "{}" then some [] else none
  MarshalIndent := fun s => s
  GenerateUUIDFromString := fun s => "uuid-" ++ s
  ScopeParameter := "scope"

/-- The mock client of `TestDownloadConfigsExitsEarlyForUnknownSettingsSchema`. -/
def someSchemaClient : SettingsClient where
  ListSchemas := .ok [{ SchemaId := "builtin:some.schema" }]
  ListSettings := fun _ => .ok []

/-- The mock client of `TestDownloadConfigsBehaviour`, "Specific Settings". -/
def magicSecretClient : SettingsClient where
  ListSchemas := .ok [{ SchemaId := "builtin:magic.secret" }]
  ListSettings := fun _ => .ok []

/-- A downloader over a client, with filters that discard nothing. -/
def testDownloader (c : SettingsClient) : Downloader where
  client := c
  filters := fun _ _ => (false, "")

end settings

/-! ## Package `delete` (the delete-file loader) -/

namespace pointer

/-- Modelled from the spec: the `pointer.DeletePointer` struct is declared outside the sources;
the fields are those the loader tests compare, the triple of section 4.4. -/
structure DeletePointer where
  Project : String
  Type_ : String
  Identifier : String
deriving DecidableEq, Repr

end pointer

namespace persistence

/-- Modelled from the spec: the full-format entry of a delete file, declared outside the sources.
The YAML keys `project`, `type`, `name` and `id` are those of the test
`TestLoadEntriesToDelete` ("Loads Full Format"); an absent key is the empty string. -/
structure DeleteEntry where
  Project : String
  Type_ : String
  ConfigName : String
  ConfigId : String
deriving DecidableEq, Repr

/-- Modelled from the spec: an element of `FileDefinition.DeleteEntries`, a `[]interface{}` whose
elements the tests give as a string (short format `type/identifier`) or as a mapping (full
format). -/
inductive Entry where
  | short (entry : String)
  | full (entry : DeleteEntry)
deriving DecidableEq, Repr

/-- Modelled from the spec: the `persistence.FileDefinition` struct is declared outside the
sources; the field is that of `TestParseDeleteFileDefinitions`. -/
structure FileDefinition where
  DeleteEntries : List Entry
deriving DecidableEq, Repr

end persistence

namespace delete

open pointer persistence

/-- Modelled from the spec: the `loaderContext` struct is declared outside the sources; the
tests build it from `knownApis`, a set of API names. -/
structure loaderContext where
  knownApis : List String
deriving DecidableEq, Repr

/-- Modelled from the spec: the constant `deleteDelimiter` is declared outside the sources; the
tests (and the YAML of `TestLoadEntriesToDelete`) put it between type and identifier. -/
def deleteDelimiter : String := "/"

/-- Modelled from the spec: the delimiter as a character. In UTF-8 the byte of `/` occurs in no other character, so
splitting a string at this character is splitting its bytes at the delimiter. -/
def delimiterChar : Char := '/'

/-- Modelled from the spec: splits a string at the first delimiter into what is before and what
is after it; `none` when the delimiter does not occur. -/
def splitAtDelimiter : List Char → Option (List Char × List Char)
  | [] => none
  | c :: cs =>
    if c = delimiterChar then some ([], cs)
    else
      match splitAtDelimiter cs with
      | none => none
      | some (t, n) => some (c :: t, n)

/-- Modelled from the spec: the error of an entry that cannot be parsed; it records the index of
the entry. The function that builds it is not part of the sources. -/
def deleteEntryParserError (index : Nat) (reason : String) : GoError :=
  { msg := "invalid delete entry at index " ++ toString index ++ ": " ++ reason }

/-- Modelled from the spec: `parseDeleteEntry` is not part of the sources, its tests are
(`delete_loader_test.go` lines 31-98 and 171-290). A short-format entry without the delimiter is
an error; otherwise it is split at the first delimiter into type and identifier, whether or not
the type is a known API. A full-format entry of a known API gives the pointer of its type and
name, without project; any other full-format entry gives the pointer of its project, type and
id. -/
def parseDeleteEntry (ctx : loaderContext) (index : Nat) (entry : Entry) :
    Except GoError DeletePointer :=
  match entry with
  | Entry.short str =>
    match splitAtDelimiter str.data with
    | none =>
      Except.error (deleteEntryParserError index
        ("invalid format. doesn't contain " ++ deleteDelimiter))
    | some (t, n) =>
      Except.ok { Project := "", Type_ := String.mk t, Identifier := String.mk n }
  | Entry.full e =>
    if ctx.knownApis.contains e.Type_ then
      Except.ok { Project := "", Type_ := e.Type_, Identifier := e.ConfigName }
    else
      Except.ok { Project := e.Project, Type_ := e.Type_, Identifier := e.ConfigId }

/-- Modelled from the spec: Go `result[k] = append(result[k], p)` on a map of slices, the
grouping step of `parseDeleteFileDefinition`. -/
def appendAt (result : GoMap (List DeletePointer)) (k : String) (p : DeletePointer) :
    GoMap (List DeletePointer) :=
  GoMap.set result k ((GoMap.get? result k).getD [] ++ [p])

/-- Modelled from the spec: the loop of `parseDeleteFileDefinition` over the entries, from index
`index` on, with the map and the errors collected so far. -/
def parseLoop (ctx : loaderContext) :
    Nat → GoMap (List DeletePointer) → List GoError → List Entry →
      GoMap (List DeletePointer) × List GoError
  | _, result, errs, [] => (result, errs)
  | index, result, errs, e :: rest =>
    match parseDeleteEntry ctx index e with
    | Except.error err => parseLoop ctx (index + 1) result (errs ++ [err]) rest
    | Except.ok p => parseLoop ctx (index + 1) (appendAt result p.Type_ p) errs rest

/-- Modelled from the spec: `parseDeleteFileDefinition` is not part of the sources, its tests are
(`delete_loader_test.go` lines 100-169). Every entry is parsed; the pointers are collected per
type in a map and the errors in a list; when there is any error the map handed back is empty
(test `TestParseDeleteFileDefinitionsWithInvalidDefinition`). -/
def parseDeleteFileDefinition (ctx : loaderContext) (definition : FileDefinition) :
    GoMap (List DeletePointer) × List GoError :=
  let r := parseLoop ctx 0 [] [] definition.DeleteEntries
  if r.2.length = 0 then (r.1, []) else ([], r.2)

/-- The pointer of an entry that parses, `none` for an entry that does not. -/
def parsedPointer (ctx : loaderContext) (entry : Entry) : Option DeletePointer :=
  match parseDeleteEntry ctx 0 entry with
  | Except.ok p => some p
  | Except.error _ => none

/-- The context of the loader tests: the known APIs are `management-zone` and `auto-tag`. -/
def testContext : loaderContext := { knownApis := ["management-zone", "auto-tag"] }

/-- The definition of `TestParseDeleteFileDefinitions`. -/
def testDefinition : FileDefinition :=
  { DeleteEntries := [Entry.short "auto-tag/test entity/entry",
      Entry.short "management-zone/test entity/entry"] }

end delete

/-! ## Package `v2` (the project loader) -/

namespace v2

open config coordinate

/-- Modelled from the spec: the loop of `findDuplicatedConfigIdentifiers`; `coordinates` is the
set of Coordinates seen so far and `duplicates` the configs reported so far. -/
def findLoop : List Coordinate → List Config → List Config → List Config
  | _, duplicates, [] => duplicates
  | coordinates, duplicates, c :: rest =>
    if coordinates.contains c.Coordinate then
      findLoop (c.Coordinate :: coordinates) (duplicates ++ [c]) rest
    else
      findLoop (c.Coordinate :: coordinates) duplicates rest

/-- Modelled from the spec: `findDuplicatedConfigIdentifiers` is not part of the sources, its
test is (`project_loader_test.go` lines 31-103). Following the invariant of section 3, "no two
Configs share a Coordinate", it goes through the configs once, remembers every Coordinate (the
triple of project, type and id) it has seen and reports each config whose Coordinate was seen
before. -/
def findDuplicatedConfigIdentifiers (configs : List Config) : List Config :=
  findLoop [] [] configs

/-- The claim's words: the configs, in input order, whose Coordinate equals the Coordinate of a
config at an earlier position of the input. -/
def repeatsOfEarlier (configs : List Config) : List Config :=
  ((configs.enum.filter
    (fun ic => decide (ic.2.Coordinate ∈ (configs.take ic.1).map (fun c => c.Coordinate)))).map
    (fun ic => ic.2))

/-- A config with nothing but a Coordinate, as in `Test_findDuplicatedConfigIdentifiers`. -/
def configAt (project type id : String) : Config :=
  { Template := none
    Coordinate := { Project := project, Type_ := type, ConfigId := id }
    Type_ := ConfigType.unset
    Parameters := []
    Skip := false
    OriginObjectId := "" }

end v2

/-! ## More values of the download tests -/

namespace settings

open dtclient

/-- A client whose `ListSchemas` call fails. -/
def failingSchemasClient : SettingsClient where
  ListSchemas := .error { msg := "listing schemas failed" }
  ListSettings := fun _ => .ok []

end settings

/-! ## More values of the delete-loader tests -/

namespace delete

open pointer persistence

/-- The pointer of a full-format entry in the claim's words: type and name without project for
a known API, project, type and id otherwise. -/
def fullEntryPointer (ctx : loaderContext) (e : DeleteEntry) : DeletePointer :=
  if ctx.knownApis.contains e.Type_ then
    { Project := "", Type_ := e.Type_, Identifier := e.ConfigName }
  else
    { Project := e.Project, Type_ := e.Type_, Identifier := e.ConfigId }

/-- The definition of `TestLoadEntriesToDelete`, "Loads Mixed Format". -/
def mixedDefinition : FileDefinition :=
  { DeleteEntries := [Entry.short "management-zone/test entity/entities",
      Entry.full { Project := "some-project", Type_ := "builtin:auto.tagging",
                   ConfigName := "", ConfigId := "my-tag" }] }

/-- The definition of `TestLoadEntriesToDelete`, "Loads Full Format". -/
def fullDefinition : FileDefinition :=
  { DeleteEntries := [Entry.full { Project := "myProject", Type_ := "management-zone",
                                   ConfigName := "test entity/entities", ConfigId := "" },
      Entry.full { Project := "some-project", Type_ := "builtin:auto.tagging",
                   ConfigName := "", ConfigId := "my-tag" }] }

end delete

/-! ## Package `download` of `cmd/monaco` (which downloaders a download runs) -/

namespace download

open config

/-- Modelled from the spec: the `downloadConfigsOptions` struct is declared outside the sources;
the fields are those the tests of `download_configs_test.go` set. `projectName` and `oAuth`
(whether `auth.OAuth` is not `nil`) are the two fields of the embedded `downloadOptionsShared`
that matter for which downloader runs. -/
structure downloadConfigsOptions where
  projectName : String
  oAuth : Bool
  specificAPIs : List String
  specificSchemas : List String
  onlyAPIs : Bool
  onlySettings : Bool
  onlyAutomation : Bool
deriving DecidableEq, Repr

/-- The zero value of `downloadConfigsOptions`. -/
def noOptions : downloadConfigsOptions :=
  { projectName := "", oAuth := false, specificAPIs := [], specificSchemas := [],
    onlyAPIs := false, onlySettings := false, onlyAutomation := false }

/-- Modelled from the spec: `shouldDownloadSettings` is not part of the sources, its test is
(`Test_shouldDownloadSettings`, lines 294-372, and the row "only automations requested" of
`TestDownload_Options`). Settings are downloaded unless only automations or only APIs are
asked for, or specific APIs are named without any specific schema. -/
def shouldDownloadSettings (opts : downloadConfigsOptions) : Bool :=
  !opts.onlyAutomation && !opts.onlyAPIs
    && (opts.specificAPIs.length == 0 || opts.specificSchemas.length > 0)

/-- Modelled from the spec: `shouldDownloadConfigs` is not part of the sources; the mirror image
of `shouldDownloadSettings`, after the rows of `TestDownload_Options`. Classic API configs are
downloaded unless only automations or only settings are asked for, or specific schemas are
named without any specific API. -/
def shouldDownloadConfigs (opts : downloadConfigsOptions) : Bool :=
  !opts.onlyAutomation && !opts.onlySettings
    && (opts.specificSchemas.length == 0 || opts.specificAPIs.length > 0)

/-- Modelled from the spec: `shouldDownloadAutomationResources` is not part of the sources;
after the rows of `TestDownload_Options`, automations are downloaded unless the download is
limited to settings or to classic API configs. -/
def shouldDownloadAutomationResources (opts : downloadConfigsOptions) : Bool :=
  !opts.onlySettings && opts.specificSchemas.length == 0
    && !opts.onlyAPIs && opts.specificAPIs.length == 0

/-- Modelled from the spec: `shouldDownloadBuckets` is not part of the sources; after the rows of
`TestDownload_Options`, buckets are downloaded unless the download is limited to settings, to
classic API configs or to automations. -/
def shouldDownloadBuckets (opts : downloadConfigsOptions) : Bool :=
  !opts.onlySettings && opts.specificSchemas.length == 0
    && !opts.onlyAPIs && opts.specificAPIs.length == 0 && !opts.onlyAutomation

/-- The four kinds of downloader in `downloaders`. -/
inductive DownloaderKind where
  | classic
  | settings
  | automation
  | bucket
deriving DecidableEq, Repr

/-- Modelled from the spec: the `downloaders` value is declared outside the sources. Each
downloader is what its `Download(projectName, types...)` hands back for a project name and the
names of the requested types: the Go pair `(v2.ConfigsPerType, error)`. -/
structure downloaders where
  Classic : String → List String → Option (GoMap (List Config)) × Option GoError
  Settings : String → List String → Option (GoMap (List Config)) × Option GoError
  Automation : String → Option (GoMap (List Config)) × Option GoError
  Bucket : String → Option (GoMap (List Config)) × Option GoError

/-- Modelled from the spec: Go `copyConfigs(dest, src)`, which appends the configs of every type
of `src` to the configs of that type in `dest`. -/
def copyConfigs (dest : GoMap (List Config)) : Option (GoMap (List Config)) → GoMap (List Config)
  | none => dest
  | some src =>
    src.foldl (fun acc kv => GoMap.set acc kv.1 ((GoMap.get? acc kv.1).getD [] ++ kv.2)) dest

/-- The state of `downloadConfigs` between two downloaders: the configs collected so far, the
error that ended the download (if any) and the downloaders called so far. -/
structure Progress where
  configs : GoMap (List Config)
  err : Option GoError
  called : List DownloaderKind
deriving DecidableEq, Repr

/-- One step of `downloadConfigs`: unless an earlier step returned an error, call the downloader
`run` of kind `kind` and copy its configs, or stop with its error. -/
def step (p : Progress) (kind : DownloaderKind)
    (run : Option (GoMap (List Config)) × Option GoError) : Progress :=
  match p.err with
  | some _ => p
  | none =>
    match run.2 with
    | some err => { configs := p.configs, err := some err, called := p.called ++ [kind] }
    | none =>
      { configs := copyConfigs p.configs run.1, err := none, called := p.called ++ [kind] }

/-- The error of a download of automations only without OAuth credentials (test
`TestDownloadConfigs_OnlyAutomationWithoutAutomationCredentials`). -/
def noOAuthError : GoError :=
  { msg := "can't download automation resources: no OAuth credentials configured" }

/-- Modelled from the spec: the first stage of `downloadConfigs`, the classic API configs. -/
def afterClassic (ds : downloaders) (opts : downloadConfigsOptions) : Progress :=
  if shouldDownloadConfigs opts then
    step { configs := [], err := none, called := [] } DownloaderKind.classic
      (ds.Classic opts.projectName opts.specificAPIs)
  else { configs := [], err := none, called := [] }

/-- Modelled from the spec: the second stage of `downloadConfigs`, the settings. -/
def afterSettings (ds : downloaders) (opts : downloadConfigsOptions) : Progress :=
  if shouldDownloadSettings opts then
    step (afterClassic ds opts) DownloaderKind.settings
      (ds.Settings opts.projectName opts.specificSchemas)
  else afterClassic ds opts

/-- Modelled from the spec: the third stage of `downloadConfigs`, the automations. They need
OAuth credentials; asking for automations only without them is an error, otherwise they are
left out. -/
def afterAutomation (ds : downloaders) (opts : downloadConfigsOptions) : Progress :=
  if shouldDownloadAutomationResources opts then
    if opts.oAuth then
      step (afterSettings ds opts) DownloaderKind.automation (ds.Automation opts.projectName)
    else if opts.onlyAutomation then
      match (afterSettings ds opts).err with
      | some _ => afterSettings ds opts
      | none =>
        { configs := (afterSettings ds opts).configs, err := some noOAuthError,
          called := (afterSettings ds opts).called }
    else afterSettings ds opts
  else afterSettings ds opts

/-- Modelled from the spec: `downloadConfigs` is not part of the sources, its tests are
(`TestDownload_Options`, `TestDownloadConfigsBehaviour`). It runs, in this order, the classic,
settings, automation and bucket downloaders, each one only if its `shouldDownload...` function
allows it; the automation and bucket downloaders need OAuth credentials in addition. The first
error ends the download. This is the last stage, the buckets. -/
def downloadConfigs (ds : downloaders) (opts : downloadConfigsOptions) : Progress :=
  if shouldDownloadBuckets opts then
    if opts.oAuth then
      step (afterAutomation ds opts) DownloaderKind.bucket (ds.Bucket opts.projectName)
    else afterAutomation ds opts
  else afterAutomation ds opts

/-- The downloaders of `TestDownload_Options`: each hands back `(nil, nil)`. -/
def assertDownloaders : downloaders where
  Classic := fun _ _ => (none, none)
  Settings := fun _ _ => (none, none)
  Automation := fun _ => (none, none)
  Bucket := fun _ => (none, none)

end download

/-! ## Package `v2`: reporting duplicates when projects are loaded -/

namespace coordinate

/-- Modelled from the spec: the string form `project:type:id` of a Coordinate (sections 3 and
4.2), the Go method `Coordinate.String()`, declared outside the sources. -/
def coordinateString (c : Coordinate) : String :=
  c.Project ++ ":" ++ c.Type_ ++ ":" ++ c.ConfigId

end coordinate

namespace v2

open config coordinate

/-- Modelled from the spec: the error reported for a duplicate config; by section 3 it carries
the full Coordinate string. The function that builds it is not part of the sources. -/
def newDuplicateConfigIdentifierError (c : Config) : GoError :=
  { msg := "Config IDs need to be unique to project/type, found duplicate "
      ++ coordinateString c.Coordinate }

/-- Modelled from the spec: `LoadProjects` is not part of the sources, its tests are
(`project_loader_test.go` lines 105-242). Reading the project files is left out: `found` is the
list of configs read from the files of the projects for one environment, in reading order. The
duplicate check reports one error for every config that `findDuplicatedConfigIdentifiers`
returns, and with any error nothing is loaded. -/
def LoadProjects (found : List Config) : List Config × List GoError :=
  let errors := (findDuplicatedConfigIdentifiers found).map newDuplicateConfigIdentifierError
  if errors.length = 0 then (found, []) else ([], errors)

/-- The Coordinates that occur more than once among the configs, each listed once. -/
def duplicatedCoordinates (configs : List Config) : List Coordinate :=
  ((configs.map (fun c => c.Coordinate)).dedup).filter
    (fun x => decide (2 ≤ configs.countP (fun c => c.Coordinate = x)))

/-- The configs of `TestLoadProjects_ContainsCoordinateWhenReturningErrorForDuplicates`: two
alerting profiles `OVERLAP` (in two files) and two dashboards `DASH_OVERLAP` (in one file). -/
def overlappingConfigs : List Config :=
  [configAt "project" "alerting-profile" "OVERLAP",
    configAt "project" "alerting-profile" "OVERLAP",
    configAt "project" "dashboard" "DASH_OVERLAP",
    configAt "project" "dashboard" "DASH_OVERLAP"]

end v2

/-! ## The dependency graph builder (section 4.1 of the specification) -/

namespace graph

open config coordinate

/-- Modelled from the spec: a Reference (section 3), the pair of a Coordinate and a property,
meaning the resolved value of the property on the Config with that Coordinate. -/
structure Reference where
  Coordinate : coordinate.Coordinate
  Property : String
deriving DecidableEq, Repr

/-- Modelled from the spec: the References a Parameter declares (section 3, `References()`):
a reference parameter declares the Reference it points to, a value and an environment-variable
parameter declare none. -/
def parameterReferences : Parameter → List Reference
  | Parameter.reference target property => [{ Coordinate := target, Property := property }]
  | Parameter.value _ => []
  | Parameter.environment _ => []

/-- Modelled from the spec: the outgoing References of a Config, "the union of references
declared by all its Parameters" (section 3). -/
def References (c : Config) : List Reference :=
  c.Parameters.flatMap (fun kv => parameterReferences kv.2)

/-- Modelled from the spec: the Dependency Graph of one environment (section 3) with its
"reverse index from Coordinate to Config" (section 4.1). An edge `(A, B)` means that `A` must
be applied before `B`, because `B` has a Reference to `A`. -/
structure DependencyGraph where
  vertices : List Coordinate
  edges : List (Coordinate × Coordinate)
  configs : List Config
deriving DecidableEq, Repr

/-- Modelled from the spec: the errors of graph construction (sections 4.1 and 7): an undefined
reference, reported with source and target Coordinate, and a cycle, reported as the ordered
list of the Coordinates forming the loop. -/
inductive GraphError where
  | undefinedReference (source target : Coordinate)
  | cycle (loop : List Coordinate)
deriving DecidableEq, Repr

/-- Modelled from the spec: the message of a graph construction error. -/
def GraphError.message : GraphError → String
  | GraphError.undefinedReference source target =>
    "undefined reference: " ++ coordinateString source ++ " references "
      ++ coordinateString target
  | GraphError.cycle loop =>
    "dependency cycle: " ++ " -> ".intercalate (loop.map coordinateString)

/-- Modelled from the spec: the undefined references of one Config: its References to
Coordinates absent from the Config Set (section 4.1). -/
def undefinedReferences (coordinates : List Coordinate) (c : Config) : List GraphError :=
  (References c).filterMap
    (fun r =>
      if coordinates.contains r.Coordinate then none
      else some (GraphError.undefinedReference c.Coordinate r.Coordinate))

/-- Modelled from the spec: the edges of one Config: "for each Reference whose Coordinate exists
in the same environment's Config Set, add edge reference-target → config" (section 4.1). -/
def configEdges (coordinates : List Coordinate) (c : Config) : List (Coordinate × Coordinate) :=
  (References c).filterMap
    (fun r =>
      if coordinates.contains r.Coordinate then some (r.Coordinate, c.Coordinate) else none)

/-- The Coordinates a vertex depends on: the sources of the edges into it. -/
def dependencies (edges : List (Coordinate × Coordinate)) (v : Coordinate) : List Coordinate :=
  (edges.filter (fun e => e.2 = v)).map (fun e => e.1)

/-- Modelled from the spec: the loop found when the traversal, standing at the in-progress
vertices `path` (most recent first), meets the in-progress vertex `v` again: `v` and the
vertices entered after it, in the order they were entered. Each depends on the next and the
last one on `v`. -/
def cycleOf (path : List Coordinate) (v : Coordinate) : List Coordinate :=
  v :: (path.takeWhile (fun u => u ≠ v)).reverse

/-- Modelled from the spec: the depth-first traversal with three-color marking of section 4.1.
A vertex in `done` is finished, a vertex in `path` is in progress, any other is unvisited.
Visiting an in-progress vertex is a cycle, reported as `cycleOf`. The traversal follows the
dependencies of a vertex; `fuel` bounds its depth, and running out of fuel (which does not
happen when `fuel` is the number of vertices) is reported as an empty loop. The result is the
finished vertices, or the loop. -/
def visit (edges : List (Coordinate × Coordinate)) :
    Nat → List Coordinate → List Coordinate → Coordinate →
      Except (List Coordinate) (List Coordinate)
  | fuel, path, done, v =>
    if done.contains v then Except.ok done
    else if path.contains v then Except.error (cycleOf path v)
    else
      match fuel with
      | 0 => Except.error []
      | fuel + 1 =>
        match (dependencies edges v).foldlM
            (fun d w => visit edges fuel (v :: path) d w) done with
        | Except.error loop => Except.error loop
        | Except.ok finished => Except.ok (v :: finished)

/-- Modelled from the spec: cycle detection over the whole graph: the traversal is started from
every vertex in turn. -/
def findCycle (vertices : List Coordinate) (edges : List (Coordinate × Coordinate)) :
    Option (List Coordinate) :=
  match vertices.foldlM (fun d v => visit edges vertices.length [] d v) [] with
  | Except.error loop => some loop
  | Except.ok _ => none

/-- Modelled from the spec: the Dependency Graph Builder of section 4.1. Input: the Configs of
one environment's Config Set. It collects the undefined references of every Config and the
edges of every Config, and looks for a cycle (a Config that references itself is a cycle of
length one). With any error there is no graph. -/
def buildDependencyGraph (configs : List Config) : Except (List GraphError) DependencyGraph :=
  let coordinates := configs.map (fun c => c.Coordinate)
  let edges := configs.flatMap (configEdges coordinates)
  let errors := configs.flatMap (undefinedReferences coordinates)
    ++ (match findCycle coordinates edges with
        | some loop => [GraphError.cycle loop]
        | none => [])
  if errors.length = 0 then
    Except.ok { vertices := coordinates, edges := edges, configs := configs }
  else Except.error errors

/-- A Config with a Coordinate and reference parameters to the given Coordinates (property
`id`), as in the example of section 8. -/
def configWithReferences (project type id : String) (targets : List Coordinate) : Config :=
  { Template := none
    Coordinate := { Project := project, Type_ := type, ConfigId := id }
    Type_ := ConfigType.unset
    Parameters := targets.map (fun t => ("ref-" ++ coordinateString t, Parameter.reference t "id"))
    Skip := false
    OriginObjectId := "" }

end graph

/-! ### Notions used to state what the builder guarantees -/

namespace graph

open config coordinate

/-- Within the Config Set, the Config at `a` has a Reference to the Config at `b`. -/
def refersTo (configs : List Config) (a b : Coordinate) : Prop :=
  ∃ c ∈ configs, c.Coordinate = a ∧ b ∈ configs.map (fun c => c.Coordinate) ∧
    ∃ r ∈ References c, r.Coordinate = b

/-- In terms of edges: `a` depends on `b` when `(b, a)` is an edge. -/
def dependsOn (edges : List (Coordinate × Coordinate)) (a b : Coordinate) : Prop :=
  (b, a) ∈ edges

/-- A non-empty list of Coordinates is a loop of the relation `r` when each element is related
to the next one and the last element to the first. -/
def IsLoop (r : Coordinate → Coordinate → Prop) (loop : List Coordinate) : Prop :=
  loop ≠ [] ∧ List.Chain' r loop ∧ ∀ a ∈ loop.getLast?, ∀ b ∈ loop.head?, r a b

/-- The finished vertices of a traversal, latest first: every vertex was finished after all its
dependencies. -/
def Finished (edges : List (Coordinate × Coordinate)) : List Coordinate → Prop
  | [] => True
  | x :: rest => (∀ w, (w, x) ∈ edges → w ∈ rest) ∧ Finished edges rest

/-- The Config Set of the cycle example of section 8: `A` references `B` and `B` references
`A`. -/
def cycleExample : List Config :=
  [configWithReferences "p" "management-zone" "A"
      [{ Project := "p", Type_ := "policy", ConfigId := "B" }],
    configWithReferences "p" "policy" "B"
      [{ Project := "p", Type_ := "management-zone", ConfigId := "A" }]]

/-- A Config Set with one Config, which references a Coordinate that is not in the set. -/
def danglingExample : List Config :=
  [configWithReferences "p" "policy" "pol1"
    [{ Project := "p", Type_ := "management-zone", ConfigId := "mz1" }]]

end graph

/-! ## The deployment sorter (section 4.2 of the specification) -/

namespace sorter

open config coordinate graph

/-- Lexicographic order on lists of code points. -/
def lexLe : List Nat → List Nat → Bool
  | [], _ => true
  | _ :: _, [] => false
  | a :: as, b :: bs => if a < b then true else if b < a then false else lexLe as bs

/-- The sort key of a Coordinate: the code points of its string form `project:type:id`.
Comparing the keys lexicographically is comparing the strings as Go does (byte by byte, which
on UTF-8 text is code point by code point). -/
def sortKey (c : Coordinate) : List Nat :=
  (coordinateString c).data.map Char.toNat

/-- Modelled from the spec: the tie-break order of section 4.2, "Coordinate's string form
`project:type:id` ascending". -/
def stringLe (a b : Coordinate) : Prop := lexLe (sortKey a) (sortKey b) = true

/-- The tie-break order is decidable. -/
instance stringLeDecidable : DecidableRel stringLe :=
  fun a b => inferInstanceAs (Decidable (lexLe (sortKey a) (sortKey b) = true))

/-- Modelled from the spec: a vertex has zero indegree among the remaining vertices when no
edge leads from a remaining vertex into it (section 4.2). -/
def zeroIndegree (edges : List (Coordinate × Coordinate)) (remaining : List Coordinate)
    (v : Coordinate) : Bool :=
  edges.all (fun e => !(decide (e.2 = v) && remaining.contains e.1))

/-- Modelled from the spec: one extraction round, "all currently-zero-indegree vertices". -/
def nextWave (edges : List (Coordinate × Coordinate)) (remaining : List Coordinate) :
    List Coordinate :=
  remaining.filter (zeroIndegree edges remaining)

/-- Modelled from the spec: "repeated extraction of all currently-zero-indegree vertices (Kahn's
algorithm generalized to levels) — each extraction round is one wave", every wave sorted by
the tie-break order with a stable sort. A round that extracts nothing while vertices remain is
the defensive cycle check: the residual vertices are the error. `fuel` bounds the number of
rounds; the number of vertices is enough. -/
def sortWaves (edges : List (Coordinate × Coordinate)) :
    Nat → List Coordinate → Except (List Coordinate) (List (List Coordinate))
  | _, [] => Except.ok []
  | 0, r :: rs => Except.error (r :: rs)
  | fuel + 1, r :: rs =>
    if (nextWave edges (r :: rs)).isEmpty then Except.error (r :: rs)
    else
      match sortWaves edges fuel
          ((r :: rs).filter (fun v => !(nextWave edges (r :: rs)).contains v)) with
      | Except.error residual => Except.error residual
      | Except.ok waves =>
        Except.ok ((nextWave edges (r :: rs)).insertionSort stringLe :: waves)

/-- Modelled from the spec: the Deployment Sorter of section 4.2. Input: a Dependency Graph.
Output: the ordered sequence of waves, or the residual vertices of a cycle. -/
def sortIntoWaves (g : DependencyGraph) : Except (List Coordinate) (List (List Coordinate)) :=
  sortWaves g.edges g.vertices.length g.vertices

/-- The index of the first wave that holds the Coordinate. -/
def waveIndex : List (List Coordinate) → Coordinate → Nat
  | [], _ => 0
  | w :: ws, v => if w.contains v then 0 else waveIndex ws v + 1

/-- A graph is acyclic when no vertex reaches itself along edges. -/
def Acyclic (g : DependencyGraph) : Prop :=
  ∀ v, ¬ Relation.TransGen (fun a b => (a, b) ∈ g.edges) v v

/-- The example of section 8: the management zone `mz1` without references and the policy
`pol1` that references it. -/
def policyExample : List Config :=
  [configWithReferences "p" "policy" "pol1"
      [{ Project := "p", Type_ := "management-zone", ConfigId := "mz1" }],
    configWithReferences "p" "management-zone" "mz1" []]

/-- The graph of the example of section 8. -/
def policyGraph : DependencyGraph :=
  { vertices := [{ Project := "p", Type_ := "policy", ConfigId := "pol1" },
      { Project := "p", Type_ := "management-zone", ConfigId := "mz1" }]
    edges := [({ Project := "p", Type_ := "management-zone", ConfigId := "mz1" },
      { Project := "p", Type_ := "policy", ConfigId := "pol1" })]
    configs := policyExample }

end sorter

/-! ### Graphs used to probe the sorter -/

namespace sorter

open config coordinate graph

/-- Two Coordinates with the same string form `a:b:c:d`, and a third one, without edges. -/
def collidingGraph : DependencyGraph :=
  { vertices := [{ Project := "a:b", Type_ := "c", ConfigId := "d" },
      { Project := "a", Type_ := "b:c", ConfigId := "d" },
      { Project := "a", Type_ := "a", ConfigId := "a" }]
    edges := []
    configs := [] }

/-- The graph `collidingGraph` with its vertices listed in another order. -/
def collidingGraphReordered : DependencyGraph :=
  { vertices := [{ Project := "a", Type_ := "b:c", ConfigId := "d" },
      { Project := "a:b", Type_ := "c", ConfigId := "d" },
      { Project := "a", Type_ := "a", ConfigId := "a" }]
    edges := []
    configs := [] }

/-- The graph `policyGraph` with its vertices listed in the other order. -/
def policyGraphReordered : DependencyGraph :=
  { vertices := [{ Project := "p", Type_ := "management-zone", ConfigId := "mz1" },
      { Project := "p", Type_ := "policy", ConfigId := "pol1" }]
    edges := [({ Project := "p", Type_ := "management-zone", ConfigId := "mz1" },
      { Project := "p", Type_ := "policy", ConfigId := "pol1" })]
    configs := policyExample }

end sorter

/-! ## The deployment executor (section 4.3 of the specification) -/

namespace deploy

open config coordinate graph

/-- Modelled from the spec: the outcome of one Config (sections 4.3 and 4.5): deployed with its
remote identifier, failed with its error, or skipped. -/
inductive DeployResult where
  | deployed (id : String)
  | failed (err : GoError)
  | skipped
deriving DecidableEq, Repr

/-- Modelled from the spec: the Resolution Context (section 3), the resolved values of this run
keyed by Reference. -/
abbrev ResolutionContext := List (Reference × String)

/-- The resolved value of a Reference, if there is one. -/
def lookupValue : ResolutionContext → Reference → Option String
  | [], _ => none
  | (k, v) :: rest, r => if k = r then some v else lookupValue rest r

/-- Modelled from the spec: the state of a run for one environment: the outcomes recorded so
far, in the order they were recorded, and the Resolution Context. -/
structure State where
  results : List (Coordinate × DeployResult)
  context : ResolutionContext
deriving DecidableEq, Repr

/-- The outcome recorded for a Coordinate, if there is one. -/
def resultOf : List (Coordinate × DeployResult) → Coordinate → Option DeployResult
  | [], _ => none
  | (k, v) :: rest, x => if k = x then some v else resultOf rest x

/-- Modelled from the spec: `Resolve(context)` of a Parameter (section 3): a value resolves to
itself, an environment variable to its value in the process environment, a reference to the
value the context holds for it; a missing environment variable or an unresolved reference is
an error. -/
def resolveParameter (env : String → Option String) (ctx : ResolutionContext) :
    Parameter → Except GoError String
  | Parameter.value p => Except.ok p.Value
  | Parameter.environment name =>
    match env name with
    | some v => Except.ok v
    | none => Except.error { msg := "environment variable " ++ name ++ " is not set" }
  | Parameter.reference target property =>
    match lookupValue ctx { Coordinate := target, Property := property } with
    | some v => Except.ok v
    | none =>
      Except.error { msg := "unresolved reference to " ++ coordinateString target }

/-- Modelled from the spec: resolving every Parameter of a Config; the first failure fails the
Config (section 4.3). -/
def resolveParameters (env : String → Option String) (ctx : ResolutionContext) :
    GoMap Parameter → Except GoError (List (String × String))
  | [] => Except.ok []
  | (name, p) :: rest =>
    match resolveParameter env ctx p with
    | Except.error err => Except.error err
    | Except.ok v =>
      match resolveParameters env ctx rest with
      | Except.error err => Except.error err
      | Except.ok vs => Except.ok ((name, v) :: vs)

/-- Modelled from the spec: the API Client capability (section 6), reduced to the idempotent
create-or-update of a Config with its resolved parameters, which hands back the remote
identifier or an error. -/
structure Client where
  Upsert : Config → List (String × String) → Except GoError String

/-- Whether the outcome is `deployed`. -/
def isDeployed : Option DeployResult → Bool
  | some (DeployResult.deployed _) => true
  | _ => false

/-- Modelled from the spec: every Config this one references has been deployed. -/
def dependenciesDeployed (results : List (Coordinate × DeployResult)) (c : Config) : Bool :=
  (References c).all (fun r => isDeployed (resultOf results r.Coordinate))

/-- Modelled from the spec: the contract per Config of section 4.3, against the state at the
start of the Config's wave. A Config with the Skip flag is skipped, and so is one with a
dependency that was not deployed (transitive skip); otherwise its parameters are resolved and
the client is called, and any error fails the Config. It hands back the outcome and the values
to write into the Resolution Context: on success the remote identifier (property `id`) and the
resolved parameters. -/
def deployConfig (env : String → Option String) (client : Client) (st : State) (c : Config) :
    DeployResult × ResolutionContext :=
  if c.Skip then (DeployResult.skipped, [])
  else if !dependenciesDeployed st.results c then (DeployResult.skipped, [])
  else
    match resolveParameters env st.context c.Parameters with
    | Except.error err => (DeployResult.failed err, [])
    | Except.ok values =>
      match client.Upsert c values with
      | Except.error err => (DeployResult.failed err, [])
      | Except.ok id =>
        (DeployResult.deployed id,
          ({ Coordinate := c.Coordinate, Property := "id" }, id)
            :: values.map (fun nv => ({ Coordinate := c.Coordinate, Property := nv.1 }, nv.2)))

/-- The reverse index of the graph: the Config at a Coordinate. -/
def findConfig : List Config → Coordinate → Option Config
  | [], _ => none
  | c :: rest, x => if c.Coordinate = x then some c else findConfig rest x

/-- Modelled from the spec: one wave (sections 4.3 and 5). Its Configs are applied concurrently;
every one of them reads the state as it is at the start of the wave, and the outcomes and
values of the whole wave are written when all have finished, so the result does not depend on
the interleaving. -/
def deployWave (env : String → Option String) (client : Client) (configs : List Config)
    (st : State) (wave : List Coordinate) : State :=
  let outcomes := wave.filterMap
    (fun x => (findConfig configs x).map (fun c => (x, deployConfig env client st c)))
  { results := st.results ++ outcomes.map (fun o => (o.1, o.2.1))
    context := st.context ++ outcomes.flatMap (fun o => o.2.2) }

/-- Modelled from the spec: the Deployment Executor of section 4.3: the waves are applied
strictly one after the other, starting from an empty state. -/
def deployWaves (env : String → Option String) (client : Client) (configs : List Config)
    (waves : List (List Coordinate)) : State :=
  waves.foldl (deployWave env client configs) { results := [], context := [] }

/-- Modelled from the spec: a deployment of one environment's Config Set: the graph is built,
sorted into waves, and the waves are executed. A structural error (section 7) means nothing is
deployed. -/
def deployConfigs (env : String → Option String) (client : Client) (configs : List Config) :
    Except (List GraphError) State :=
  match buildDependencyGraph configs with
  | Except.error errs => Except.error errs
  | Except.ok g =>
    match sorter.sortIntoWaves g with
    | Except.error residual => Except.error [GraphError.cycle residual]
    | Except.ok waves => Except.ok (deployWaves env client g.configs waves)

/-- A client whose call fails for the Config `mz1` and succeeds for every other Config. -/
def failingForMz1 : Client where
  Upsert := fun c _ =>
    if c.Coordinate.ConfigId = "mz1" then Except.error { msg := "remote call failed" }
    else Except.ok ("id-of-" ++ c.Coordinate.ConfigId)

/-- A client whose call always succeeds. -/
def succeedingClient : Client where
  Upsert := fun c _ => Except.ok ("id-of-" ++ c.Coordinate.ConfigId)

end deploy

/-! ## The loop of `convertAllObjects`, object by object -/

namespace settings

open config coordinate dtclient

/-- The number of objects that leave the loop of `convertAllObjects` at the `continue` of
line 165, logged as "Unmodifiable default setting": the loop of lines 161-201 with a counter
in place of `result`. -/
def unmodifiableSkips (env : Env) : List DownloadSettingsObject → Nat
  | [] => 0
  | o :: rest =>
    if shouldFilterUnmodifiableSettings env
        && (match o.ModificationInfo with
            | none => false
            | some mi => !mi.Modifiable && mi.ModifiablePaths.length == 0) then
      unmodifiableSkips env rest + 1
    else
      match env.Unmarshal o.Value with
      | none => 0
      | some _ => unmodifiableSkips env rest

/-- The number of objects that leave the loop of `convertAllObjects` at the `continue` of
line 177, discarded by the filter of their schema. -/
def filterSkips (d : Downloader) (env : Env) : List DownloadSettingsObject → Nat
  | [] => 0
  | o :: rest =>
    if shouldFilterUnmodifiableSettings env
        && (match o.ModificationInfo with
            | none => false
            | some mi => !mi.Modifiable && mi.ModifiablePaths.length == 0) then
      filterSkips d env rest
    else
      match env.Unmarshal o.Value with
      | none => 0
      | some contentUnmarshalled =>
        if shouldFilterSettings env && (d.filters o.SchemaId contentUnmarshalled).1 then
          filterSkips d env rest + 1
        else
          filterSkips d env rest

/-- The number of objects the loop of `convertAllObjects` never converts because of the
`return result` of line 172: the object whose value does not unmarshal and all objects after
it. -/
def droppedAtError (env : Env) : List DownloadSettingsObject → Nat
  | [] => 0
  | o :: rest =>
    if shouldFilterUnmodifiableSettings env
        && (match o.ModificationInfo with
            | none => false
            | some mi => !mi.Modifiable && mi.ModifiablePaths.length == 0) then
      droppedAtError env rest
    else
      match env.Unmarshal o.Value with
      | none => (o :: rest).length
      | some _ => droppedAtError env rest

/-- The number that line 150 of `download` logs as "Skipped persisting %d unmodifiable
setting(s)": `len(objects)-len(cfgs)`. -/
def skippedLogged (d : Downloader) (env : Env) (objects : List DownloadSettingsObject)
    (projectName : String) : Nat :=
  objects.length - (convertAllObjects d env objects projectName).length

/-! ### The loop in the words of the specification -/

/-- In the words of the specification: the object is discarded as unmodifiable, that is, the
three flags are on, its `ModificationInfo` is present, `Modifiable` is false and
`ModifiablePaths` is empty. -/
def discardedAsUnmodifiable (env : Env) (o : DownloadSettingsObject) : Bool :=
  (env.DownloadFilter && env.DownloadFilterSettings && env.DownloadFilterSettingsUnmodifiable)
    && (match o.ModificationInfo with
        | none => false
        | some mi => !mi.Modifiable && mi.ModifiablePaths.isEmpty)

/-- In the words of the specification: the object's `Value` fails to unmarshal as a JSON
object. -/
def failsToUnmarshal (env : Env) (o : DownloadSettingsObject) : Bool :=
  (env.Unmarshal o.Value).isNone

/-- In the words of the specification: settings filtering is on and the filter of the object's
schema answers that the unmarshalled value is to be discarded. -/
def discardedByFilter (d : Downloader) (env : Env) (o : DownloadSettingsObject) : Bool :=
  shouldFilterSettings env
    && (match env.Unmarshal o.Value with
        | none => false
        | some content => (d.filters o.SchemaId content).1)

/-- In the words of the specification: the objects that precede the first object that is not
discarded as unmodifiable and whose `Value` fails to unmarshal. -/
def beforeFirstFailure (env : Env) (objects : List DownloadSettingsObject) :
    List DownloadSettingsObject :=
  objects.takeWhile (fun o => discardedAsUnmodifiable env o || !failsToUnmarshal env o)

/-- In the words of the specification: the surviving objects, the objects before the first
failure that neither rule discards, in input order. -/
def survivors (d : Downloader) (env : Env) (objects : List DownloadSettingsObject) :
    List DownloadSettingsObject :=
  (beforeFirstFailure env objects).filter
    (fun o => !discardedAsUnmodifiable env o && !discardedByFilter d env o)

/-! ### More values of the download tests -/

/-- A settings object of the schema `builtin:some.schema`. -/
def settingsObject (objectId value : String) (info : Option SettingsModificationInfo) :
    DownloadSettingsObject where
  SchemaVersion := "1.0"
  SchemaId := "builtin:some.schema"
  ObjectId := objectId
  Scope := "environment"
  Value := value
  ModificationInfo := info

/-- The modification info of an unmodifiable default setting. -/
def unmodifiableInfo : SettingsModificationInfo where
  Modifiable := false
  ModifiablePaths := []

/-- A downloader over a client, with filters that discard every object. -/
def discardingDownloader (c : SettingsClient) : Downloader where
  client := c
  filters := fun _ _ => (true, "default setting")

/-- A client that knows two schemas: it lists two objects for `builtin:some.schema` and fails
to list the settings of every other schema. -/
def twoObjectsClient : SettingsClient where
  ListSchemas := .ok [{ SchemaId := "builtin:some.schema" }, { SchemaId := "builtin:broken" }]
  ListSettings := fun s =>
    if s = "builtin:some.schema" then
      .ok [settingsObject "oid1" "{}" none, settingsObject "oid2" "{}" none]
    else .error { msg := "listing settings failed" }

end settings

/-! ## An environment with settings filtering off -/

namespace settings

/-- The environment `testEnv` with the flag `DownloadFilterSettings` off. -/
def filterOffEnv : Env := { testEnv with DownloadFilterSettings := false }

end settings

end Monaco

/-! # Theorems -/

namespace Monaco

/-! ## The settings downloader -/

namespace settings

open config coordinate dtclient

theorem mem_unknownAmong {schemaList : List Schema} {schemas : List String} {s : String} :
    s ∈ unknownAmong schemaList schemas ↔
      s ∈ schemas ∧ s ∉ schemaList.map (fun x => x.SchemaId) := by
  simp [unknownAmong]

theorem validateSpecificSchemas_ok (c : SettingsClient) (schemas : List String)
    (schemaList : List Schema) (hne : schemas ≠ []) (hlist : c.ListSchemas = .ok schemaList) :
    validateSpecificSchemas c schemas =
      (((unknownAmong schemaList schemas).length == 0, unknownAmong schemaList schemas),
        [ClientCall.ListSchemas]) := by
  have hlen : ¬ schemas.length = 0 := by
    intro h
    exact hne (List.length_eq_zero.mp h)
  simp only [validateSpecificSchemas, hlen, if_false, hlist, unknownAmong]

theorem unknownSchemasError_msg_not_known (unknown : List String) :
    StrContains (unknownSchemasError unknown).msg "not known" := by
  refine ⟨"requested settings-schema(s) '" ++ ",".intercalate unknown ++ "' are ", "", ?_⟩
  simp only [unknownSchemasError, String.append_empty, String.append_assoc]
  rfl

theorem unknownSchemasError_msg_ids (unknown : List String) :
    StrContains (unknownSchemasError unknown).msg (",".intercalate unknown) :=
  ⟨"requested settings-schema(s) '", "' are not known", rfl⟩

theorem download_calls (d : Downloader) (env : Env) (schemas : List String)
    (projectName : String) :
    (download d env schemas projectName).2 = schemas.map ClientCall.ListSettings := by
  unfold download
  suffices h : ∀ (acc : GoMap (List Config) × List ClientCall),
      (schemas.foldl
        (fun acc s =>
          match d.client.ListSettings s with
          | .error _ => (acc.1, acc.2 ++ [ClientCall.ListSettings s])
          | .ok objects =>
            (GoMap.set acc.1 s (convertAllObjects d env objects projectName),
              acc.2 ++ [ClientCall.ListSettings s]))
        acc).2 = acc.2 ++ schemas.map ClientCall.ListSettings by
    simpa using h ([], [])
  induction schemas with
  | nil => intro acc; simp
  | cons s rest ih =>
    intro acc
    rw [List.foldl_cons, ih]
    cases d.client.ListSettings s <;> simp

/-- Claim C1. When the schemas are listed successfully and at least one requested schema id is
not among them, `Download` returns a nil result and an error whose message contains "not known"
and the comma-joined unknown schema ids, and it makes no `ListSettings` call at all. -/
theorem C1_download_unknown_schema_fails (d : Downloader) (env : Env) (projectName : String)
    (schemaIDs : List SettingsType) (schemaList : List Schema)
    (hlist : d.client.ListSchemas = .ok schemaList)
    (hunknown : ∃ t ∈ schemaIDs, t.SchemaId ∉ schemaList.map (fun x => x.SchemaId)) :
    (Download d env projectName schemaIDs).result = none ∧
    (∃ e, (Download d env projectName schemaIDs).err = some e ∧
      StrContains e.msg "not known" ∧
      StrContains e.msg
        (",".intercalate (unknownAmong schemaList (schemaIDs.map (fun t => t.SchemaId))))) ∧
    (∀ s, ClientCall.ListSettings s ∉ (Download d env projectName schemaIDs).calls) := by
  obtain ⟨t, ht, htn⟩ := hunknown
  have hne : schemaIDs.map (fun t => t.SchemaId) ≠ [] := by
    intro h
    rw [List.map_eq_nil_iff] at h
    rw [h] at ht
    exact List.not_mem_nil _ ht
  have hlen : ¬ schemaIDs.length = 0 := by
    intro h
    rw [List.length_eq_zero.mp h] at ht
    exact List.not_mem_nil _ ht
  have hmem : t.SchemaId ∈ unknownAmong schemaList (schemaIDs.map (fun t => t.SchemaId)) :=
    mem_unknownAmong.mpr ⟨List.mem_map_of_mem _ ht, htn⟩
  have hpos : ((unknownAmong schemaList (schemaIDs.map (fun t => t.SchemaId))).length == 0)
      = false := by
    cases hu : unknownAmong schemaList (schemaIDs.map (fun t => t.SchemaId)) with
    | nil => rw [hu] at hmem; exact absurd hmem (List.not_mem_nil _)
    | cons a l => rfl
  have hD : Download d env projectName schemaIDs =
      { result := none
        err := some (unknownSchemasError
          (unknownAmong schemaList (schemaIDs.map (fun t => t.SchemaId))))
        calls := [ClientCall.ListSchemas] } := by
    simp only [Download, hlen, if_false, downloadSpecific,
      validateSpecificSchemas_ok d.client _ schemaList hne hlist, hpos]
    rfl
  rw [hD]
  refine ⟨rfl, ⟨_, rfl, unknownSchemasError_msg_not_known _, unknownSchemasError_msg_ids _⟩, ?_⟩
  intro s hs
  simp at hs

theorem convertLoop_eq_append (d : Downloader) (env : Env) (projectName : String)
    (objects : List DownloadSettingsObject) :
    ∀ result : List Config, ∃ kept : List DownloadSettingsObject,
      kept.Sublist objects ∧
      convertLoop d env projectName result objects
        = result ++ kept.map (newConfig env projectName) := by
  induction objects with
  | nil => intro result; exact ⟨[], List.Sublist.refl _, by simp [convertLoop]⟩
  | cons o rest ih =>
    intro result
    unfold convertLoop
    split
    · obtain ⟨kept, hsub, heq⟩ := ih result
      exact ⟨kept, List.Sublist.cons _ hsub, heq⟩
    · split
      · exact ⟨[], List.nil_sublist _, by simp⟩
      · split
        · obtain ⟨kept, hsub, heq⟩ := ih result
          exact ⟨kept, List.Sublist.cons _ hsub, heq⟩
        · obtain ⟨kept, hsub, heq⟩ := ih (result ++ [newConfig env projectName o])
          exact ⟨o :: kept, List.Sublist.cons₂ _ hsub, by simp [heq]⟩

theorem convertAllObjects_eq_map (d : Downloader) (env : Env)
    (objects : List DownloadSettingsObject) (projectName : String) :
    ∃ kept : List DownloadSettingsObject, kept.Sublist objects ∧
      convertAllObjects d env objects projectName = kept.map (newConfig env projectName) := by
  obtain ⟨kept, hsub, heq⟩ := convertLoop_eq_append d env projectName objects []
  exact ⟨kept, hsub, by simpa [convertAllObjects] using heq⟩

theorem forall₂_map_newConfig (env : Env) (projectName : String)
    (R : Config → DownloadSettingsObject → Prop)
    (hR : ∀ o, R (newConfig env projectName o) o) (kept : List DownloadSettingsObject) :
    List.Forall₂ R (kept.map (newConfig env projectName)) kept := by
  induction kept with
  | nil => exact List.Forall₂.nil
  | cons o rest ih => exact List.Forall₂.cons (hR o) ih

/-- Claim C2. The configs returned by `convertAllObjects` pair off, in order, with a sublist of
the input objects (the objects that were kept), and each config has as `OriginObjectId` the
`ObjectId` of its object, for every object list and project name. -/
theorem C2_convertAllObjects_originObjectId (d : Downloader) (env : Env)
    (objects : List DownloadSettingsObject) (projectName : String) :
    ∃ kept : List DownloadSettingsObject, kept.Sublist objects ∧
      List.Forall₂ (fun c o => c.OriginObjectId = o.ObjectId)
        (convertAllObjects d env objects projectName) kept := by
  obtain ⟨kept, hsub, heq⟩ := convertAllObjects_eq_map d env objects projectName
  refine ⟨kept, hsub, ?_⟩
  rw [heq]
  exact forall₂_map_newConfig env projectName _ (fun _ => rfl) kept

/-- Claim C3. The configs returned by `convertAllObjects` for project `p` pair off, in order,
with a sublist of the input objects, and the config of object `o` has the Coordinate
`(p, o.SchemaId, GenerateUUIDFromString o.ObjectId)`, the type
`SettingsType (o.SchemaId, o.SchemaVersion)` and a template whose id is the Coordinate's
`ConfigId`. -/
theorem C3_convertAllObjects_coordinate (d : Downloader) (env : Env)
    (objects : List DownloadSettingsObject) (projectName : String) :
    ∃ kept : List DownloadSettingsObject, kept.Sublist objects ∧
      List.Forall₂
        (fun c o =>
          c.Coordinate =
            { Project := projectName, Type_ := o.SchemaId,
              ConfigId := env.GenerateUUIDFromString o.ObjectId } ∧
          c.Type_ = ConfigType.Settings
            { SchemaId := o.SchemaId, SchemaVersion := o.SchemaVersion } ∧
          c.Template.map (fun t => t.id) = some c.Coordinate.ConfigId)
        (convertAllObjects d env objects projectName) kept := by
  obtain ⟨kept, hsub, heq⟩ := convertAllObjects_eq_map d env objects projectName
  refine ⟨kept, hsub, ?_⟩
  rw [heq]
  exact forall₂_map_newConfig env projectName _ (fun _ => ⟨rfl, rfl, rfl⟩) kept

theorem downloadAll_calls (d : Downloader) (env : Env) (projectName : String) :
    (downloadAll d env projectName).calls =
      match d.client.ListSchemas with
      | .error _ => [ClientCall.ListSchemas]
      | .ok schemas =>
        ClientCall.ListSchemas :: schemas.map (fun i => ClientCall.ListSettings i.SchemaId) := by
  unfold downloadAll
  cases d.client.ListSchemas with
  | error e => rfl
  | ok schemas => simp [download_calls]

theorem downloadSpecific_calls_subset (d : Downloader) (env : Env) (projectName : String)
    (schemaIDs : List String) (s : String)
    (h : ClientCall.ListSettings s ∈ (downloadSpecific d env projectName schemaIDs).calls) :
    s ∈ schemaIDs := by
  unfold downloadSpecific at h
  have hv : ∀ c ∈ (validateSpecificSchemas d.client schemaIDs).2, c = ClientCall.ListSchemas := by
    intro c hc
    unfold validateSpecificSchemas at hc
    split at hc
    · simp at hc
    · split at hc <;> simpa using hc
  simp only at h
  by_cases hb : (!(validateSpecificSchemas d.client schemaIDs).1.1) = true
  · rw [if_pos hb] at h
    have := hv _ h
    cases this
  · rw [if_neg hb] at h
    simp only [download_calls, List.mem_append, List.mem_map] at h
    rcases h with h | ⟨x, hx, hxs⟩
    · have := hv _ h
      cases this
    · cases hxs
      exact hx

theorem download_nonempty_eq (d : Downloader) (env : Env) (projectName : String)
    (t : SettingsType) (ts : List SettingsType) :
    Download d env projectName (t :: ts)
      = downloadSpecific d env projectName ((t :: ts).map (fun x => x.SchemaId)) := by
  simp [Download]

/-- The witness of claim C1: the request of the test
`TestDownloadConfigsExitsEarlyForUnknownSettingsSchema`. -/
theorem C1_download_unknown_schema_fails_witness :
    (Download (testDownloader someSchemaClient) testEnv "project"
      [{ SchemaId := "UNKOWN SCHEMA", SchemaVersion := "" }]).result = none ∧
    (∃ e, (Download (testDownloader someSchemaClient) testEnv "project"
        [{ SchemaId := "UNKOWN SCHEMA", SchemaVersion := "" }]).err = some e ∧
      StrContains e.msg "not known" ∧
      StrContains e.msg
        (",".intercalate (unknownAmong [{ SchemaId := "builtin:some.schema" }]
          ([({ SchemaId := "UNKOWN SCHEMA", SchemaVersion := "" } : SettingsType)].map
            (fun t => t.SchemaId))))) ∧
    (∀ s, ClientCall.ListSettings s ∉
      (Download (testDownloader someSchemaClient) testEnv "project"
        [{ SchemaId := "UNKOWN SCHEMA", SchemaVersion := "" }]).calls) :=
  C1_download_unknown_schema_fails (testDownloader someSchemaClient) testEnv "project"
    [{ SchemaId := "UNKOWN SCHEMA", SchemaVersion := "" }]
    [{ SchemaId := "builtin:some.schema" }] rfl
    ⟨{ SchemaId := "UNKOWN SCHEMA", SchemaVersion := "" }, by simp, by decide⟩

/-- Claim C4. `Download` without schema ids is `downloadAll`; with a non-empty list of settings
types it is `downloadSpecific` on their schema ids, in the given order. A `ListSettings` call is
only ever made for a requested schema id (or, without a request, for a listed schema), and when
every requested id is listed the calls are one `ListSchemas`, made first, and then one
`ListSettings` per requested id; these come from concurrent goroutines, so they are the
requested ones up to order. -/
theorem C4_download_dispatch (d : Downloader) (env : Env) (projectName : String) :
    Download d env projectName [] = downloadAll d env projectName ∧
    (∀ (t : SettingsType) (ts : List SettingsType),
      Download d env projectName (t :: ts)
        = downloadSpecific d env projectName ((t :: ts).map (fun x => x.SchemaId))) ∧
    (∀ (ts : List SettingsType) (s : String),
      ClientCall.ListSettings s ∈ (Download d env projectName ts).calls →
        (ts ≠ [] → s ∈ ts.map (fun x => x.SchemaId)) ∧
        (ts = [] → ∃ schemaList, d.client.ListSchemas = .ok schemaList ∧
          s ∈ schemaList.map (fun x => x.SchemaId))) ∧
    (∀ (t : SettingsType) (ts : List SettingsType) (schemaList : List Schema),
      d.client.ListSchemas = .ok schemaList →
      (∀ x ∈ t :: ts, x.SchemaId ∈ schemaList.map (fun i => i.SchemaId)) →
        ∃ settingsCalls : List ClientCall,
          (Download d env projectName (t :: ts)).calls
            = ClientCall.ListSchemas :: settingsCalls
          ∧ settingsCalls.Perm
              ((t :: ts).map (fun x => ClientCall.ListSettings x.SchemaId))) := by
  refine ⟨by simp [Download], download_nonempty_eq d env projectName, ?_, ?_⟩
  · intro ts s hs
    cases ts with
    | nil =>
      refine ⟨fun h => absurd rfl h, fun _ => ?_⟩
      have hD : Download d env projectName [] = downloadAll d env projectName := by
        simp [Download]
      rw [hD, downloadAll_calls] at hs
      cases hl : d.client.ListSchemas with
      | error e => rw [hl] at hs; simp at hs
      | ok schemaList =>
        rw [hl] at hs
        refine ⟨schemaList, rfl, ?_⟩
        simp only [List.mem_cons, List.mem_map] at hs
        rcases hs with hs | ⟨x, hx, hxs⟩
        · cases hs
        · cases hxs
          exact List.mem_map_of_mem _ hx
    | cons t ts =>
      refine ⟨fun _ => ?_, fun h => absurd h (List.cons_ne_nil _ _)⟩
      rw [download_nonempty_eq] at hs
      exact downloadSpecific_calls_subset d env projectName _ s hs
  · intro t ts schemaList hlist hall
    rw [download_nonempty_eq]
    have hne : (t :: ts).map (fun x => x.SchemaId) ≠ [] := by simp
    have hu : unknownAmong schemaList ((t :: ts).map (fun x => x.SchemaId)) = [] := by
      apply List.eq_nil_iff_forall_not_mem.mpr
      intro a ha
      obtain ⟨ha1, ha2⟩ := mem_unknownAmong.mp ha
      obtain ⟨x, hx, rfl⟩ := List.mem_map.mp ha1
      exact ha2 (hall x hx)
    refine ⟨(t :: ts).map (fun x => ClientCall.ListSettings x.SchemaId), ?_, List.Perm.refl _⟩
    simp only [downloadSpecific, validateSpecificSchemas_ok d.client _ schemaList hne hlist, hu,
      download_calls]
    simp

/-- The witness of claim C4: a request for the two schemas that the client lists makes the
`ListSchemas` call and then the two `ListSettings` calls of the request, in some order. -/
theorem C4_download_dispatch_witness :
    ∃ settingsCalls : List ClientCall,
      (Download (testDownloader twoObjectsClient) testEnv "project"
        [{ SchemaId := "builtin:some.schema", SchemaVersion := "" },
          { SchemaId := "builtin:broken", SchemaVersion := "" }]).calls
        = ClientCall.ListSchemas :: settingsCalls
      ∧ settingsCalls.Perm
          [ClientCall.ListSettings "builtin:some.schema",
            ClientCall.ListSettings "builtin:broken"] :=
  (C4_download_dispatch (testDownloader twoObjectsClient) testEnv "project").2.2.2
    { SchemaId := "builtin:some.schema", SchemaVersion := "" }
    [{ SchemaId := "builtin:broken", SchemaVersion := "" }]
    [{ SchemaId := "builtin:some.schema" }, { SchemaId := "builtin:broken" }] rfl (by decide)

end settings

/-! ## Go maps -/

namespace GoMap

variable {V : Type}

theorem get?_eq_none_iff (m : GoMap V) (k : String) : get? m k = none ↔ k ∉ keys m := by
  induction m with
  | nil => simp [get?, keys]
  | cons kv rest ih =>
    obtain ⟨k', v⟩ := kv
    by_cases h : k' = k
    · simp [get?, keys, h]
    · have h2 : ¬ k = k' := fun e => h e.symm
      simpa [get?, keys, h, h2] using ih

theorem get?_set_self (m : GoMap V) (k : String) (v : V) : get? (set m k v) k = some v := by
  induction m with
  | nil => simp [set, get?]
  | cons kv rest ih =>
    obtain ⟨k', v'⟩ := kv
    by_cases h : k' = k
    · simp [set, get?, h]
    · simp [set, get?, h, ih]

theorem get?_set_ne (m : GoMap V) (k k2 : String) (v : V) (hne : k ≠ k2) :
    get? (set m k v) k2 = get? m k2 := by
  induction m with
  | nil => simp [set, get?, hne]
  | cons kv rest ih =>
    obtain ⟨k', v'⟩ := kv
    by_cases h : k' = k
    · subst h
      simp [set, get?, hne]
    · by_cases h2 : k' = k2
      · subst h2
        simp [set, get?, h]
      · simp [set, get?, h, h2, ih]

theorem keys_set (m : GoMap V) (k : String) (v : V) :
    keys (set m k v) = if k ∈ keys m then keys m else keys m ++ [k] := by
  induction m with
  | nil => simp [set, keys]
  | cons kv rest ih =>
    obtain ⟨k', v'⟩ := kv
    by_cases h : k' = k
    · subst h
      simp [set, keys]
    · have h2 : ¬ k = k' := fun e => h e.symm
      have ih2 : List.map (fun kv => kv.1) (set rest k v)
          = if k ∈ List.map (fun kv => kv.1) rest then List.map (fun kv => kv.1) rest
            else List.map (fun kv => kv.1) rest ++ [k] := ih
      simp only [set, keys, h, if_false, List.map_cons, List.mem_cons, h2, false_or, ih2]
      split <;> simp

theorem keys_set_nodup (m : GoMap V) (k : String) (v : V) (h : (keys m).Nodup) :
    (keys (set m k v)).Nodup := by
  rw [keys_set]
  split
  · exact h
  · rename_i hk
    rw [List.nodup_append]
    refine ⟨h, List.nodup_singleton k, ?_⟩
    intro a ha hb
    rw [List.mem_singleton] at hb
    subst hb
    exact hk ha

theorem mem_keys_set (m : GoMap V) (k k2 : String) (v : V) :
    k2 ∈ keys (set m k v) ↔ k2 = k ∨ k2 ∈ keys m := by
  rw [keys_set]
  split
  · rename_i hk
    constructor
    · exact fun h => Or.inr h
    · rintro (h | h)
      · subst h; exact hk
      · exact h
  · simp [or_comm]

end GoMap

/-! ## The delete-file loader -/

namespace delete

open pointer persistence

theorem deleteDelimiter_data : deleteDelimiter.data = [delimiterChar] := rfl

theorem delimiterChar_not_mem_of_not_contains {s : String}
    (h : ¬ StrContains s deleteDelimiter) : delimiterChar ∉ s.data := by
  intro hmem
  obtain ⟨l1, l2, hl⟩ := List.append_of_mem hmem
  apply h
  refine ⟨String.mk l1, String.mk l2, ?_⟩
  apply String.ext
  simp [String.data_append, deleteDelimiter_data, hl]

theorem splitAtDelimiter_append (t n : List Char) (ht : delimiterChar ∉ t) :
    splitAtDelimiter (t ++ delimiterChar :: n) = some (t, n) := by
  induction t with
  | nil => simp [splitAtDelimiter]
  | cons c cs ih =>
    have hc : ¬ c = delimiterChar := fun e => ht (by simp [e])
    have hcs : delimiterChar ∉ cs := fun e => ht (List.mem_cons_of_mem _ e)
    simp [splitAtDelimiter, hc, ih hcs]

theorem splitAtDelimiter_eq_none (l : List Char) (hl : delimiterChar ∉ l) :
    splitAtDelimiter l = none := by
  induction l with
  | nil => rfl
  | cons c cs ih =>
    have hc : ¬ c = delimiterChar := fun e => hl (by simp [e])
    have hcs : delimiterChar ∉ cs := fun e => hl (List.mem_cons_of_mem _ e)
    simp [splitAtDelimiter, hc, ih hcs]

/-- Claim C5. For every type string `t` without the delimiter and every identifier `n`,
`parseDeleteEntry` applied to `t + "/" + n` succeeds with the pointer of type `t` and identifier
`n`: the entry is split at the first delimiter only, so `n` may contain the delimiter, and the
known APIs of the context play no role. -/
theorem C5_parseDeleteEntry_splits_at_first_delimiter (ctx : loaderContext) (index : Nat)
    (t n : String) (ht : ¬ StrContains t deleteDelimiter) :
    parseDeleteEntry ctx index (Entry.short (t ++ deleteDelimiter ++ n))
      = Except.ok { Project := "", Type_ := t, Identifier := n } := by
  have hsplit : splitAtDelimiter (t ++ deleteDelimiter ++ n).data = some (t.data, n.data) := by
    have := splitAtDelimiter_append t.data n.data (delimiterChar_not_mem_of_not_contains ht)
    simpa [String.data_append, deleteDelimiter_data] using this
  simp only [parseDeleteEntry, hsplit]

/-- Claim C6. For every short-format entry that does not contain the delimiter "/",
`parseDeleteEntry` returns an error. -/
theorem C6_parseDeleteEntry_without_delimiter_fails (ctx : loaderContext) (index : Nat)
    (entry : String) (h : ¬ StrContains entry deleteDelimiter) :
    ∃ err, parseDeleteEntry ctx index (Entry.short entry) = Except.error err := by
  have hsplit : splitAtDelimiter entry.data = none :=
    splitAtDelimiter_eq_none _ (delimiterChar_not_mem_of_not_contains h)
  refine ⟨deleteEntryParserError index
    ("invalid format. doesn't contain " ++ deleteDelimiter), ?_⟩
  simp only [parseDeleteEntry, hsplit]

theorem not_contains_of_not_mem {s : String} (h : delimiterChar ∉ s.data) :
    ¬ StrContains s deleteDelimiter := by
  rintro ⟨pre, post, hs⟩
  apply h
  rw [hs]
  simp [String.data_append, deleteDelimiter_data]

/-- The witness of claim C5: the entries of `TestParseDeleteEntryWithMultipleSlashesShouldWork`
(a known API) and of `TestParseSettingsDeleteEntry` (a settings schema). -/
theorem C5_parseDeleteEntry_splits_at_first_delimiter_witness :
    parseDeleteEntry testContext 0
        (Entry.short ("auto-tag" ++ deleteDelimiter ++ "test entity/entry"))
      = Except.ok { Project := "", Type_ := "auto-tag", Identifier := "test entity/entry" } ∧
    parseDeleteEntry testContext 0
        (Entry.short ("builtin:tagging.auto" ++ deleteDelimiter ++ "test entity"))
      = Except.ok { Project := "", Type_ := "builtin:tagging.auto",
                    Identifier := "test entity" } :=
  ⟨C5_parseDeleteEntry_splits_at_first_delimiter testContext 0 "auto-tag" "test entity/entry"
      (not_contains_of_not_mem (by decide)),
    C5_parseDeleteEntry_splits_at_first_delimiter testContext 0 "builtin:tagging.auto"
      "test entity" (not_contains_of_not_mem (by decide))⟩

/-- The witness of claim C6: the entry of
`TestParseDeleteEntryInvalidEntryWithoutDelimiterShouldFail`. -/
theorem C6_parseDeleteEntry_without_delimiter_fails_witness :
    ∃ err, parseDeleteEntry testContext 0 (Entry.short "auto-tag") = Except.error err :=
  C6_parseDeleteEntry_without_delimiter_fails testContext 0 "auto-tag"
    (not_contains_of_not_mem (by decide))

theorem parseDeleteEntry_cases (ctx : loaderContext) (index : Nat) (e : Entry) :
    (∃ p, parseDeleteEntry ctx index e = Except.ok p ∧ parsedPointer ctx e = some p) ∨
    (∃ err, parseDeleteEntry ctx index e = Except.error err ∧ parsedPointer ctx e = none) := by
  cases e with
  | short str =>
    simp only [parsedPointer, parseDeleteEntry]
    cases splitAtDelimiter str.data <;> simp
  | full entry =>
    simp only [parsedPointer, parseDeleteEntry]
    split <;> simp

theorem parseLoop_eq (ctx : loaderContext) (entries : List Entry) :
    ∀ (index : Nat) (result : GoMap (List DeletePointer)) (errs : List GoError),
      (parseLoop ctx index result errs entries).1
          = (entries.filterMap (parsedPointer ctx)).foldl
              (fun m p => appendAt m p.Type_ p) result ∧
      (parseLoop ctx index result errs entries).2.length
          = errs.length + (entries.filter (fun e => (parsedPointer ctx e).isNone)).length := by
  induction entries with
  | nil => intro index result errs; simp [parseLoop]
  | cons e rest ih =>
    intro index result errs
    rcases parseDeleteEntry_cases ctx index e with ⟨p, hp, hpp⟩ | ⟨err, herr, hpp⟩
    · have h := ih (index + 1) (appendAt result p.Type_ p) errs
      simp only [parseLoop, hp, List.filterMap_cons, hpp, List.foldl_cons, List.filter_cons,
        Option.isNone_some]
      simpa using h
    · have h := ih (index + 1) result (errs ++ [err])
      simp only [parseLoop, herr, List.filterMap_cons, hpp, List.filter_cons,
        Option.isNone_none, if_true, List.length_cons]
      refine ⟨h.1, ?_⟩
      rw [h.2, List.length_append]
      simp only [List.length_singleton]
      omega

theorem parseDeleteFileDefinition_errs_length (ctx : loaderContext)
    (definition : FileDefinition) :
    (parseDeleteFileDefinition ctx definition).2.length
      = (definition.DeleteEntries.filter (fun e => (parsedPointer ctx e).isNone)).length := by
  have h := (parseLoop_eq ctx definition.DeleteEntries 0 [] []).2
  simp only [List.length_nil, Nat.zero_add] at h
  unfold parseDeleteFileDefinition
  simp only
  split
  · rename_i h0
    rw [← h, h0]
    rfl
  · exact h

/-- Claim C7. `parseDeleteFileDefinition` is all-or-nothing: the error list has one error per
entry that fails to parse; when at least one entry fails the returned map is empty, whatever
the other entries are; when every entry parses the error list is empty. -/
theorem C7_parseDeleteFileDefinition_all_or_nothing (ctx : loaderContext)
    (definition : FileDefinition) :
    (parseDeleteFileDefinition ctx definition).2.length
      = (definition.DeleteEntries.filter (fun e => (parsedPointer ctx e).isNone)).length ∧
    ((∃ e ∈ definition.DeleteEntries, parsedPointer ctx e = none) →
      GoMap.len (parseDeleteFileDefinition ctx definition).1 = 0) ∧
    ((∀ e ∈ definition.DeleteEntries, ∃ p, parsedPointer ctx e = some p) →
      (parseDeleteFileDefinition ctx definition).2 = []) := by
  have hlen := parseDeleteFileDefinition_errs_length ctx definition
  refine ⟨hlen, ?_, ?_⟩
  · rintro ⟨e, he, hnone⟩
    have hmem : e ∈ definition.DeleteEntries.filter (fun e => (parsedPointer ctx e).isNone) := by
      simp [List.mem_filter, he, hnone]
    have hpos : 0 < (parseDeleteFileDefinition ctx definition).2.length := by
      rw [hlen]
      exact List.length_pos_of_mem hmem
    unfold parseDeleteFileDefinition at hpos ⊢
    simp only at hpos ⊢
    split
    · rename_i h0
      rw [if_pos h0] at hpos
      simp at hpos
    · rfl
  · intro hall
    apply List.eq_nil_of_length_eq_zero
    rw [hlen, List.length_eq_zero, List.filter_eq_nil_iff]
    intro e he
    obtain ⟨p, hp⟩ := hall e he
    simp [hp]

/-- The witness of claim C7: the definition of
`TestParseDeleteFileDefinitionsWithInvalidDefinition` gives one error and an empty map. -/
theorem C7_parseDeleteFileDefinition_all_or_nothing_witness :
    GoMap.len (parseDeleteFileDefinition testContext
      { DeleteEntries := [Entry.short "auto-tag/test entity/entry",
          Entry.short "management-zone/test entity/entry",
          Entry.short "invalid-definition"] }).1 = 0 :=
  (C7_parseDeleteFileDefinition_all_or_nothing testContext
    { DeleteEntries := [Entry.short "auto-tag/test entity/entry",
        Entry.short "management-zone/test entity/entry",
        Entry.short "invalid-definition"] }).2.1
    ⟨Entry.short "invalid-definition", by simp, rfl⟩

theorem appendAt_grouped (m : GoMap (List DeletePointer)) (l : List DeletePointer)
    (p : DeletePointer) (hnodup : (GoMap.keys m).Nodup)
    (hget : ∀ k, GoMap.get? m k =
      if k ∈ l.map (fun q => q.Type_) then some (l.filter (fun q => q.Type_ = k)) else none) :
    (GoMap.keys (appendAt m p.Type_ p)).Nodup ∧
    ∀ k, GoMap.get? (appendAt m p.Type_ p) k =
      if k ∈ (l ++ [p]).map (fun q => q.Type_) then
        some ((l ++ [p]).filter (fun q => q.Type_ = k))
      else none := by
  refine ⟨GoMap.keys_set_nodup _ _ _ hnodup, ?_⟩
  intro k
  unfold appendAt
  by_cases hk : p.Type_ = k
  · subst hk
    rw [GoMap.get?_set_self, hget]
    have hin : p.Type_ ∈ (l ++ [p]).map (fun q => q.Type_) := by simp
    rw [if_pos hin]
    by_cases hl : p.Type_ ∈ l.map (fun q => q.Type_)
    · simp [hl, List.filter_append]
    · have hnil : l.filter (fun q => q.Type_ = p.Type_) = [] := by
        rw [List.filter_eq_nil_iff]
        intro q hq hqt
        exact hl (List.mem_map.mpr ⟨q, hq, by simpa using hqt⟩)
      simp [hl, List.filter_append, hnil]
  · rw [GoMap.get?_set_ne _ _ _ _ hk, hget]
    have hk2 : ¬ k = p.Type_ := fun e => hk e.symm
    simp [List.filter_append, hk, hk2]

theorem foldl_appendAt_grouped (ps : List DeletePointer) :
    ∀ (m : GoMap (List DeletePointer)) (l : List DeletePointer),
      (GoMap.keys m).Nodup →
      (∀ k, GoMap.get? m k =
        if k ∈ l.map (fun q => q.Type_) then some (l.filter (fun q => q.Type_ = k))
        else none) →
      (GoMap.keys (ps.foldl (fun m p => appendAt m p.Type_ p) m)).Nodup ∧
      ∀ k, GoMap.get? (ps.foldl (fun m p => appendAt m p.Type_ p) m) k =
        if k ∈ (l ++ ps).map (fun q => q.Type_) then
          some ((l ++ ps).filter (fun q => q.Type_ = k))
        else none := by
  induction ps with
  | nil =>
    intro m l hn hg
    rw [List.append_nil]
    exact ⟨hn, hg⟩
  | cons p rest ih =>
    intro m l hn hg
    obtain ⟨hn2, hg2⟩ := appendAt_grouped m l p hn hg
    have h := ih (appendAt m p.Type_ p) (l ++ [p]) hn2 hg2
    simpa [List.append_assoc] using h

theorem filterMap_parsedPointer_length (ctx : loaderContext) (entries : List Entry)
    (hvalid : ∀ e ∈ entries, ∃ p, parsedPointer ctx e = some p) :
    (entries.filterMap (parsedPointer ctx)).length = entries.length := by
  induction entries with
  | nil => rfl
  | cons e rest ih =>
    obtain ⟨p, hp⟩ := hvalid e (List.mem_cons_self _ _)
    rw [List.filterMap_cons, hp]
    simp only [List.length_cons]
    rw [ih (fun e he => hvalid e (List.mem_cons_of_mem _ he))]

theorem parseDeleteFileDefinition_of_valid (ctx : loaderContext) (definition : FileDefinition)
    (hvalid : ∀ e ∈ definition.DeleteEntries, ∃ p, parsedPointer ctx e = some p) :
    (parseDeleteFileDefinition ctx definition).1
      = (definition.DeleteEntries.filterMap (parsedPointer ctx)).foldl
          (fun m p => appendAt m p.Type_ p) [] := by
  have h1 := (parseLoop_eq ctx definition.DeleteEntries 0 [] []).1
  have h2 := (parseLoop_eq ctx definition.DeleteEntries 0 [] []).2
  have hnil : definition.DeleteEntries.filter (fun e => (parsedPointer ctx e).isNone) = [] := by
    rw [List.filter_eq_nil_iff]
    intro e he
    obtain ⟨p, hp⟩ := hvalid e he
    simp [hp]
  rw [hnil] at h2
  simp only [List.length_nil, Nat.add_zero] at h2
  unfold parseDeleteFileDefinition
  simp only [h2, if_true]
  exact h1

/-- Claim C8. For a list of delete entries that all parse, the map returned by
`parseDeleteFileDefinition` groups the parsed pointers by type: every pointer stored under a
key `k` has type `k`; the slice stored under `k` is exactly the parsed pointers of type `k`, in
input order (so every parsed entry appears under its type exactly once); and the keys are the
types of the input, one key per distinct type. -/
theorem C8_parseDeleteFileDefinition_groups_by_type (ctx : loaderContext)
    (definition : FileDefinition)
    (hvalid : ∀ e ∈ definition.DeleteEntries, ∃ p, parsedPointer ctx e = some p) :
    (definition.DeleteEntries.filterMap (parsedPointer ctx)).length
      = definition.DeleteEntries.length ∧
    (∀ k ps, GoMap.get? (parseDeleteFileDefinition ctx definition).1 k = some ps →
      ∀ p ∈ ps, p.Type_ = k) ∧
    (∀ k, (GoMap.get? (parseDeleteFileDefinition ctx definition).1 k).getD []
      = (definition.DeleteEntries.filterMap (parsedPointer ctx)).filter
          (fun p => p.Type_ = k)) ∧
    (∀ k, k ∈ GoMap.keys (parseDeleteFileDefinition ctx definition).1 ↔
      k ∈ (definition.DeleteEntries.filterMap (parsedPointer ctx)).map (fun p => p.Type_)) ∧
    (GoMap.keys (parseDeleteFileDefinition ctx definition).1).Nodup ∧
    GoMap.len (parseDeleteFileDefinition ctx definition).1
      = ((definition.DeleteEntries.filterMap (parsedPointer ctx)).map
          (fun p => p.Type_)).dedup.length := by
  rw [parseDeleteFileDefinition_of_valid ctx definition hvalid]
  obtain ⟨hn, hg⟩ := foldl_appendAt_grouped
    (definition.DeleteEntries.filterMap (parsedPointer ctx)) [] []
    (by simp [GoMap.keys]) (by intro k; simp [GoMap.get?])
  simp only [List.nil_append] at hg
  have hkeys : ∀ k, k ∈ GoMap.keys
      ((definition.DeleteEntries.filterMap (parsedPointer ctx)).foldl
        (fun m p => appendAt m p.Type_ p) []) ↔
      k ∈ (definition.DeleteEntries.filterMap (parsedPointer ctx)).map (fun p => p.Type_) := by
    intro k
    have h := GoMap.get?_eq_none_iff
      ((definition.DeleteEntries.filterMap (parsedPointer ctx)).foldl
        (fun m p => appendAt m p.Type_ p) []) k
    rw [hg k] at h
    by_cases hk : k ∈ (definition.DeleteEntries.filterMap (parsedPointer ctx)).map
        (fun p => p.Type_)
    · rw [if_pos hk] at h
      simp only [reduceCtorEq, false_iff, not_not] at h
      exact ⟨fun _ => hk, fun _ => h⟩
    · rw [if_neg hk] at h
      simp only [true_iff] at h
      exact ⟨fun h2 => absurd h2 h, fun h2 => absurd h2 hk⟩
  refine ⟨?_, ?_, ?_, hkeys, hn, ?_⟩
  · exact filterMap_parsedPointer_length ctx definition.DeleteEntries hvalid
  · intro k ps hps p hp
    rw [hg k] at hps
    split at hps
    · cases hps
      simpa using (List.mem_filter.mp hp).2
    · cases hps
  · intro k
    rw [hg k]
    split
    · rfl
    · rename_i hk
      symm
      rw [Option.getD_none, List.filter_eq_nil_iff]
      intro q hq hqt
      exact hk (List.mem_map.mpr ⟨q, hq, by simpa using hqt⟩)
  · have hperm := (List.perm_ext_iff_of_nodup hn (List.nodup_dedup _)).mpr
      (fun k => (hkeys k).trans List.mem_dedup.symm)
    simpa [GoMap.len, GoMap.keys] using hperm.length_eq

/-- The witness of claim C8: the definition of `TestParseDeleteFileDefinitions`, whose two
entries parse. -/
theorem C8_parseDeleteFileDefinition_groups_by_type_witness :
    (testDefinition.DeleteEntries.filterMap (parsedPointer testContext)).length
      = testDefinition.DeleteEntries.length ∧
    (∀ k ps, GoMap.get? (parseDeleteFileDefinition testContext testDefinition).1 k = some ps →
      ∀ p ∈ ps, p.Type_ = k) ∧
    (∀ k, (GoMap.get? (parseDeleteFileDefinition testContext testDefinition).1 k).getD []
      = (testDefinition.DeleteEntries.filterMap (parsedPointer testContext)).filter
          (fun p => p.Type_ = k)) ∧
    (∀ k, k ∈ GoMap.keys (parseDeleteFileDefinition testContext testDefinition).1 ↔
      k ∈ (testDefinition.DeleteEntries.filterMap (parsedPointer testContext)).map
        (fun p => p.Type_)) ∧
    (GoMap.keys (parseDeleteFileDefinition testContext testDefinition).1).Nodup ∧
    GoMap.len (parseDeleteFileDefinition testContext testDefinition).1
      = ((testDefinition.DeleteEntries.filterMap (parsedPointer testContext)).map
          (fun p => p.Type_)).dedup.length :=
  C8_parseDeleteFileDefinition_groups_by_type testContext testDefinition
    (by
      intro e he
      simp only [testDefinition, List.mem_cons, List.mem_singleton, List.not_mem_nil,
        or_false] at he
      rcases he with rfl | rfl
      · exact ⟨_, rfl⟩
      · exact ⟨_, rfl⟩)

end delete

/-! ## Duplicate detection in the project loader -/

namespace v2

open config coordinate

theorem findLoop_eq (rest : List Config) :
    ∀ (pre : List Config) (coordinates : List Coordinate) (duplicates : List Config),
      (∀ x, x ∈ coordinates ↔ x ∈ pre.map (fun c => c.Coordinate)) →
      findLoop coordinates duplicates rest
        = duplicates ++
          (((rest.enumFrom pre.length).filter
            (fun ic => decide (ic.2.Coordinate ∈
              ((pre ++ rest).take ic.1).map (fun c => c.Coordinate)))).map (fun ic => ic.2)) := by
  induction rest with
  | nil => intro pre coordinates duplicates _; simp [findLoop]
  | cons c rest ih =>
    intro pre coordinates duplicates hseen
    have hseen2 : ∀ x, x ∈ c.Coordinate :: coordinates ↔
        x ∈ (pre ++ [c]).map (fun c => c.Coordinate) := by
      intro x
      simp only [List.mem_cons, hseen x, List.map_append, List.map_cons, List.map_nil,
        List.mem_append, List.not_mem_nil, or_false]
      exact or_comm
    have htake : (pre ++ c :: rest).take pre.length = pre := by simp
    have happ : pre ++ [c] ++ rest = pre ++ c :: rest := by simp
    have hlen : (pre ++ [c]).length = pre.length + 1 := by simp
    unfold findLoop
    by_cases hc : c.Coordinate ∈ coordinates
    · have hc2 : c.Coordinate ∈ pre.map (fun c => c.Coordinate) := (hseen _).mp hc
      have hcb : coordinates.contains c.Coordinate = true := by simpa using hc
      rw [if_pos hcb, ih (pre ++ [c]) _ _ hseen2, happ, hlen, List.enumFrom_cons,
        List.filter_cons, htake]
      simp [hc2]
    · have hc2 : c.Coordinate ∉ pre.map (fun c => c.Coordinate) := fun h => hc ((hseen _).mpr h)
      have hcb : ¬ coordinates.contains c.Coordinate = true := by simpa using hc
      rw [if_neg hcb, ih (pre ++ [c]) _ _ hseen2, happ, hlen, List.enumFrom_cons,
        List.filter_cons, htake]
      simp [hc2]

theorem findLoop_countP (x : Coordinate) (rest : List Config) :
    ∀ (coordinates : List Coordinate) (duplicates : List Config),
      (findLoop coordinates duplicates rest).countP (fun c => c.Coordinate = x)
        = duplicates.countP (fun c => c.Coordinate = x) +
          (if x ∈ coordinates then rest.countP (fun c => c.Coordinate = x)
            else rest.countP (fun c => c.Coordinate = x) - 1) := by
  induction rest with
  | nil => intro coordinates duplicates; simp [findLoop]
  | cons c rest ih =>
    intro coordinates duplicates
    unfold findLoop
    by_cases hc : c.Coordinate ∈ coordinates
    · have hcb : coordinates.contains c.Coordinate = true := by simpa using hc
      rw [if_pos hcb, ih]
      by_cases hx : c.Coordinate = x
      · subst hx
        simp [hc, List.countP_cons]
        omega
      · have hx2 : ¬ x = c.Coordinate := fun e => hx e.symm
        simp [hx, hx2, List.countP_cons]
    · have hcb : ¬ coordinates.contains c.Coordinate = true := by simpa using hc
      rw [if_neg hcb, ih]
      by_cases hx : c.Coordinate = x
      · subst hx
        simp [hc, List.countP_cons]
      · have hx2 : ¬ x = c.Coordinate := fun e => hx e.symm
        simp [hx, hx2, List.countP_cons]

theorem findLoop_of_fresh (rest : List Config) :
    ∀ (coordinates : List Coordinate) (duplicates : List Config),
      (∀ c ∈ rest, c.Coordinate ∉ coordinates) →
      rest.Pairwise (fun a b => a.Coordinate ≠ b.Coordinate) →
      findLoop coordinates duplicates rest = duplicates := by
  induction rest with
  | nil => intro coordinates duplicates _ _; rfl
  | cons c rest ih =>
    intro coordinates duplicates hfresh hpair
    have hc : c.Coordinate ∉ coordinates := hfresh c (List.mem_cons_self _ _)
    have hcb : ¬ coordinates.contains c.Coordinate = true := by simpa using hc
    rw [List.pairwise_cons] at hpair
    unfold findLoop
    rw [if_neg hcb]
    apply ih _ _ _ hpair.2
    intro c2 hc2 hmem
    rw [List.mem_cons] at hmem
    rcases hmem with h | h
    · exact hpair.1 c2 hc2 h.symm
    · exact hfresh c2 (List.mem_cons_of_mem _ hc2) h

/-- Claim C9. `findDuplicatedConfigIdentifiers` returns exactly, in input order, the configs
whose Coordinate is the Coordinate of a config at an earlier position; hence a Coordinate that
occurs `k` times in the input occurs `k - 1` times in the result, and the result is empty for
an empty input and for an input whose Coordinates are pairwise different. -/
theorem C9_findDuplicatedConfigIdentifiers_exact (configs : List Config) :
    findDuplicatedConfigIdentifiers configs = repeatsOfEarlier configs ∧
    (∀ x : Coordinate,
      (findDuplicatedConfigIdentifiers configs).countP (fun c => c.Coordinate = x)
        = configs.countP (fun c => c.Coordinate = x) - 1) ∧
    findDuplicatedConfigIdentifiers [] = [] ∧
    ((configs.map (fun c => c.Coordinate)).Nodup →
      findDuplicatedConfigIdentifiers configs = []) := by
  refine ⟨?_, ?_, rfl, ?_⟩
  · have h := findLoop_eq configs [] [] [] (by simp)
    simpa [findDuplicatedConfigIdentifiers, repeatsOfEarlier, List.enum] using h
  · intro x
    have h := findLoop_countP x configs [] []
    simpa [findDuplicatedConfigIdentifiers] using h
  · intro hnodup
    apply findLoop_of_fresh configs [] [] (by simp)
    exact (List.pairwise_map.mp hnodup)

/-- The witness of claim C9: the inputs of `Test_findDuplicatedConfigIdentifiers`, "finds each
duplicate" (three equal Coordinates give two entries) and "no duplicates if api differs". -/
theorem C9_findDuplicatedConfigIdentifiers_exact_witness :
    findDuplicatedConfigIdentifiers
        [configAt "project" "api" "id", configAt "project" "api" "id",
          configAt "project" "api" "id", configAt "project" "api" "id1"]
      = [configAt "project" "api" "id", configAt "project" "api" "id"] ∧
    findDuplicatedConfigIdentifiers
        [configAt "project" "aws-credentials" "id", configAt "project" "azure-credentials" "id"]
      = [] :=
  ⟨(C9_findDuplicatedConfigIdentifiers_exact
      [configAt "project" "api" "id", configAt "project" "api" "id",
        configAt "project" "api" "id", configAt "project" "api" "id1"]).1.trans (by decide),
    (C9_findDuplicatedConfigIdentifiers_exact
      [configAt "project" "aws-credentials" "id",
        configAt "project" "azure-credentials" "id"]).2.2.2 (by decide)⟩

/-- Claim C10. When the Coordinates of the input configs are pairwise different as triples
(any two configs differ in project, or in type, or in id), `findDuplicatedConfigIdentifiers`
reports nothing, whatever characters the three fields contain. -/
theorem C10_findDuplicatedConfigIdentifiers_distinct_triples (configs : List Config)
    (hdiff : configs.Pairwise (fun a b =>
      a.Coordinate.Project ≠ b.Coordinate.Project ∨
      a.Coordinate.Type_ ≠ b.Coordinate.Type_ ∨
      a.Coordinate.ConfigId ≠ b.Coordinate.ConfigId)) :
    findDuplicatedConfigIdentifiers configs = [] := by
  apply findLoop_of_fresh configs [] [] (by simp)
  refine hdiff.imp ?_
  intro a b hab heq
  rcases hab with h | h | h
  · exact h (by rw [heq])
  · exact h (by rw [heq])
  · exact h (by rw [heq])

/-- The witness of claim C10: two configs whose fields contain the separator of the Coordinate
string and differ as triples. -/
theorem C10_findDuplicatedConfigIdentifiers_distinct_triples_witness :
    findDuplicatedConfigIdentifiers [configAt "a:b" "c" "d", configAt "a" "b:c" "d"] = [] :=
  C10_findDuplicatedConfigIdentifiers_distinct_triples
    [configAt "a:b" "c" "d", configAt "a" "b:c" "d"] (by decide)

end v2

/-! ## The settings downloader: failing schema listing -/

namespace settings

open config coordinate dtclient

/-- Claim C20. If `ListSchemas` fails, `Download` with no schema ids returns a nil result
together with that same error, and the only client call it makes is the failed `ListSchemas`:
no `ListSettings` call is made. -/
theorem C20_download_all_listSchemas_fails (d : Downloader) (env : Env) (projectName : String)
    (err : GoError) (hfail : d.client.ListSchemas = .error err) :
    (Download d env projectName []).result = none ∧
    (Download d env projectName []).err = some err ∧
    (Download d env projectName []).calls = [ClientCall.ListSchemas] ∧
    (∀ s, ClientCall.ListSettings s ∉ (Download d env projectName []).calls) := by
  have hD : Download d env projectName []
      = { result := none, err := some err, calls := [ClientCall.ListSchemas] } := by
    simp only [Download, List.length_nil, if_true, downloadAll, hfail]
  rw [hD]
  refine ⟨rfl, rfl, rfl, ?_⟩
  intro s hs
  simp at hs

/-- The witness of claim C20: a client whose schema listing fails. -/
theorem C20_download_all_listSchemas_fails_witness :
    (Download (testDownloader failingSchemasClient) testEnv "project" []).result = none ∧
    (Download (testDownloader failingSchemasClient) testEnv "project" []).err
      = some { msg := "listing schemas failed" } ∧
    (Download (testDownloader failingSchemasClient) testEnv "project" []).calls
      = [ClientCall.ListSchemas] ∧
    (∀ s, ClientCall.ListSettings s ∉
      (Download (testDownloader failingSchemasClient) testEnv "project" []).calls) :=
  C20_download_all_listSchemas_fails (testDownloader failingSchemasClient) testEnv "project"
    { msg := "listing schemas failed" } rfl

end settings

/-! ## The delete-file loader: full-format entries -/

namespace delete

open pointer persistence

theorem splitAtDelimiter_of_mem (l : List Char) (hl : delimiterChar ∈ l) :
    ∃ tn, splitAtDelimiter l = some tn := by
  induction l with
  | nil => exact absurd hl (List.not_mem_nil _)
  | cons c cs ih =>
    by_cases hc : c = delimiterChar
    · exact ⟨([], cs), by simp [splitAtDelimiter, hc]⟩
    · have hcs : delimiterChar ∈ cs := by
        rcases List.mem_cons.mp hl with h | h
        · exact absurd h.symm hc
        · exact h
      obtain ⟨tn, htn⟩ := ih hcs
      exact ⟨(c :: tn.1, tn.2), by simp [splitAtDelimiter, hc, htn]⟩

theorem parsedPointer_short_of_contains (ctx : loaderContext) (s : String)
    (hs : StrContains s deleteDelimiter) : ∃ p, parsedPointer ctx (Entry.short s) = some p := by
  have hmem : delimiterChar ∈ s.data := by
    by_contra hnot
    exact not_contains_of_not_mem hnot hs
  obtain ⟨tn, htn⟩ := splitAtDelimiter_of_mem s.data hmem
  exact ⟨{ Project := "", Type_ := String.mk tn.1, Identifier := String.mk tn.2 },
    by simp only [parsedPointer, parseDeleteEntry, htn]⟩

theorem parseDeleteEntry_full (ctx : loaderContext) (index : Nat) (e : DeleteEntry) :
    parseDeleteEntry ctx index (Entry.full e) = Except.ok (fullEntryPointer ctx e) := by
  simp only [parseDeleteEntry, fullEntryPointer]
  split <;> rfl

theorem parsedPointer_full (ctx : loaderContext) (e : DeleteEntry) :
    parsedPointer ctx (Entry.full e) = some (fullEntryPointer ctx e) := by
  simp only [parsedPointer, parseDeleteEntry_full]

theorem getD_get?_of_valid (ctx : loaderContext) (definition : FileDefinition)
    (hvalid : ∀ e ∈ definition.DeleteEntries, ∃ p, parsedPointer ctx e = some p) (k : String) :
    (GoMap.get? (parseDeleteFileDefinition ctx definition).1 k).getD []
      = (definition.DeleteEntries.filterMap (parsedPointer ctx)).filter
          (fun p => p.Type_ = k) := by
  rw [parseDeleteFileDefinition_of_valid ctx definition hvalid]
  obtain ⟨_, hg⟩ := foldl_appendAt_grouped
    (definition.DeleteEntries.filterMap (parsedPointer ctx)) [] []
    (by simp [GoMap.keys]) (by intro k; simp [GoMap.get?])
  simp only [List.nil_append] at hg
  rw [hg k]
  split
  · rfl
  · rename_i hk
    symm
    rw [Option.getD_none, List.filter_eq_nil_iff]
    intro q hq hqt
    exact hk (List.mem_map.mpr ⟨q, hq, by simpa using hqt⟩)

/-- Claim C19. A full-format delete entry of a known classic API gives the pointer of its type
and name with an empty project (the declared project is dropped); any other full-format entry
gives the pointer of its project, type and id. A definition may mix both formats: when every
short-format entry contains the delimiter there is no error, and the pointer of every
full-format entry and of every short-format entry is stored under its type. -/
theorem C19_full_format_entries (ctx : loaderContext) :
    (∀ (index : Nat) (e : DeleteEntry), ctx.knownApis.contains e.Type_ = true →
      parseDeleteEntry ctx index (Entry.full e)
        = Except.ok { Project := "", Type_ := e.Type_, Identifier := e.ConfigName }) ∧
    (∀ (index : Nat) (e : DeleteEntry), ctx.knownApis.contains e.Type_ = false →
      parseDeleteEntry ctx index (Entry.full e)
        = Except.ok { Project := e.Project, Type_ := e.Type_, Identifier := e.ConfigId }) ∧
    (∀ definition : FileDefinition,
      (∀ s, Entry.short s ∈ definition.DeleteEntries → StrContains s deleteDelimiter) →
        (parseDeleteFileDefinition ctx definition).2 = [] ∧
        (∀ e, Entry.full e ∈ definition.DeleteEntries →
          fullEntryPointer ctx e ∈
            (GoMap.get? (parseDeleteFileDefinition ctx definition).1 e.Type_).getD []) ∧
        (∀ s p, Entry.short s ∈ definition.DeleteEntries →
          parsedPointer ctx (Entry.short s) = some p →
          p ∈ (GoMap.get? (parseDeleteFileDefinition ctx definition).1 p.Type_).getD [])) := by
  refine ⟨?_, ?_, ?_⟩
  · intro index e hk
    rw [parseDeleteEntry_full, fullEntryPointer, if_pos hk]
  · intro index e hk
    rw [parseDeleteEntry_full, fullEntryPointer, hk]
    rfl
  · intro definition hshort
    have hvalid : ∀ e ∈ definition.DeleteEntries, ∃ p, parsedPointer ctx e = some p := by
      intro e he
      cases e with
      | short s => exact parsedPointer_short_of_contains ctx s (hshort s he)
      | full e => exact ⟨_, parsedPointer_full ctx e⟩
    have hmem : ∀ e p, e ∈ definition.DeleteEntries → parsedPointer ctx e = some p →
        p ∈ (GoMap.get? (parseDeleteFileDefinition ctx definition).1 p.Type_).getD [] := by
      intro e p he hp
      rw [getD_get?_of_valid ctx definition hvalid, List.mem_filter]
      exact ⟨List.mem_filterMap.mpr ⟨e, he, hp⟩, by simp⟩
    refine ⟨?_, ?_, ?_⟩
    · apply List.eq_nil_of_length_eq_zero
      rw [parseDeleteFileDefinition_errs_length, List.length_eq_zero, List.filter_eq_nil_iff]
      intro e he
      obtain ⟨p, hp⟩ := hvalid e he
      simp [hp]
    · intro e he
      have h := hmem (Entry.full e) (fullEntryPointer ctx e) he (parsedPointer_full ctx e)
      have ht : (fullEntryPointer ctx e).Type_ = e.Type_ := by
        simp only [fullEntryPointer]
        split <;> rfl
      rwa [ht] at h
    · intro s p hs hp
      exact hmem (Entry.short s) p hs hp

/-- The witness of claim C19: the definition of `TestLoadEntriesToDelete`, "Loads Mixed
Format", has no error and stores the pointer of its full-format entry, with its project,
under the schema id. -/
theorem C19_full_format_entries_witness :
    (parseDeleteFileDefinition testContext mixedDefinition).2 = [] ∧
    ({ Project := "some-project", Type_ := "builtin:auto.tagging", Identifier := "my-tag" }
        : DeletePointer) ∈
      (GoMap.get? (parseDeleteFileDefinition testContext mixedDefinition).1
        "builtin:auto.tagging").getD [] :=
  have h := (C19_full_format_entries testContext).2.2 mixedDefinition
    (by
      intro s hs
      simp only [mixedDefinition, List.mem_cons, List.mem_singleton, List.not_mem_nil,
        or_false, Entry.short.injEq, reduceCtorEq] at hs
      subst hs
      exact ⟨"management-zone", "test entity/entities", rfl⟩)
  ⟨h.1, h.2.1 { Project := "some-project", Type_ := "builtin:auto.tagging",
                ConfigName := "", ConfigId := "my-tag" } (by simp [mixedDefinition])⟩

end delete

/-! ## Which downloaders a download runs -/

namespace download

open config

/-- Claim C12. For all download options without `onlyAutomation`, `shouldDownloadSettings` is
true exactly when `onlyAPIs` is false and either no specific API or some specific schema is
named; so it is false when only specific APIs are named and true when specific APIs and
specific schemas are both named. -/
theorem C12_shouldDownloadSettings_iff (opts : downloadConfigsOptions)
    (hauto : opts.onlyAutomation = false) :
    (shouldDownloadSettings opts = true ↔
      opts.onlyAPIs = false ∧ (opts.specificAPIs = [] ∨ opts.specificSchemas ≠ [])) ∧
    (opts.specificAPIs ≠ [] → opts.specificSchemas = [] →
      shouldDownloadSettings opts = false) ∧
    (opts.onlyAPIs = false → opts.specificAPIs ≠ [] → opts.specificSchemas ≠ [] →
      shouldDownloadSettings opts = true) := by
  have hiff : shouldDownloadSettings opts = true ↔
      opts.onlyAPIs = false ∧ (opts.specificAPIs = [] ∨ opts.specificSchemas ≠ []) := by
    simp only [shouldDownloadSettings, hauto, Bool.not_false, Bool.true_and, Bool.and_eq_true,
      Bool.not_eq_true', Bool.or_eq_true, beq_iff_eq, List.length_eq_zero, decide_eq_true_eq,
      List.length_pos]
  refine ⟨hiff, ?_, ?_⟩
  · intro hapis hschemas
    rw [Bool.eq_false_iff]
    intro h
    rcases (hiff.mp h).2 with h1 | h1
    · exact hapis h1
    · exact h1 hschemas
  · intro honly _ hschemas
    exact hiff.mpr ⟨honly, Or.inr hschemas⟩

/-- The witness of claim C12: the rows "false if specificAPIs defined" and "true if
specificAPIs and specificSchemas defined" of `Test_shouldDownloadSettings`. -/
theorem C12_shouldDownloadSettings_iff_witness :
    shouldDownloadSettings { noOptions with specificAPIs := ["some-api", "other-api"] } = false ∧
    shouldDownloadSettings
      { noOptions with specificAPIs := ["some-api", "other-api"],
                       specificSchemas := ["some-schema", "other-schema"] } = true :=
  ⟨(C12_shouldDownloadSettings_iff
      { noOptions with specificAPIs := ["some-api", "other-api"] } rfl).2.1
      (by decide) rfl,
    (C12_shouldDownloadSettings_iff
      { noOptions with specificAPIs := ["some-api", "other-api"],
                       specificSchemas := ["some-schema", "other-schema"] } rfl).2.2
      rfl (by decide) (by decide)⟩

theorem step_called (p : Progress) (kind : DownloaderKind)
    (run : Option (GoMap (List Config)) × Option GoError) :
    (step p kind run).called = p.called ∨ (step p kind run).called = p.called ++ [kind] := by
  unfold step
  cases p.err with
  | some e => exact Or.inl rfl
  | none =>
    cases run.2 with
    | some e => exact Or.inr rfl
    | none => exact Or.inr rfl

theorem step_called_of_ok (p : Progress) (kind : DownloaderKind)
    (run : Option (GoMap (List Config)) × Option GoError) (hp : p.err = none)
    (hrun : run.2 = none) :
    (step p kind run).called = p.called ++ [kind] ∧ (step p kind run).err = none := by
  unfold step
  rw [hp, hrun]
  exact ⟨rfl, rfl⟩

theorem mem_step_called (p : Progress) (kind : DownloaderKind)
    (run : Option (GoMap (List Config)) × Option GoError) (k : DownloaderKind)
    (hk : k ∈ (step p kind run).called) : k ∈ p.called ∨ k = kind := by
  rcases step_called p kind run with h | h
  · rw [h] at hk
    exact Or.inl hk
  · rw [h, List.mem_append, List.mem_singleton] at hk
    exact hk

/-- The downloaders that `downloadConfigs` calls are among those its `shouldDownload...`
functions allow. -/
theorem downloadConfigs_called_allowed (ds : downloaders) (opts : downloadConfigsOptions)
    (k : DownloaderKind) (hk : k ∈ (downloadConfigs ds opts).called) :
    (k = DownloaderKind.classic ∧ shouldDownloadConfigs opts = true) ∨
    (k = DownloaderKind.settings ∧ shouldDownloadSettings opts = true) ∨
    (k = DownloaderKind.automation ∧ shouldDownloadAutomationResources opts = true
      ∧ opts.oAuth = true) ∨
    (k = DownloaderKind.bucket ∧ shouldDownloadBuckets opts = true ∧ opts.oAuth = true) := by
  have h1 : k ∈ (afterClassic ds opts).called →
      k = DownloaderKind.classic ∧ shouldDownloadConfigs opts = true := by
    intro h
    unfold afterClassic at h
    split at h
    · rename_i hc
      rcases mem_step_called _ _ _ _ h with h | h
      · exact absurd h (List.not_mem_nil _)
      · exact ⟨h, hc⟩
    · exact absurd h (List.not_mem_nil _)
  have h2 : k ∈ (afterSettings ds opts).called →
      k ∈ (afterClassic ds opts).called ∨
      (k = DownloaderKind.settings ∧ shouldDownloadSettings opts = true) := by
    intro h
    unfold afterSettings at h
    split at h
    · rename_i hc
      rcases mem_step_called _ _ _ _ h with h | h
      · exact Or.inl h
      · exact Or.inr ⟨h, hc⟩
    · exact Or.inl h
  have h3 : k ∈ (afterAutomation ds opts).called →
      k ∈ (afterSettings ds opts).called ∨
      (k = DownloaderKind.automation ∧ shouldDownloadAutomationResources opts = true
        ∧ opts.oAuth = true) := by
    intro h
    unfold afterAutomation at h
    split at h
    · rename_i hc
      split at h
      · rename_i ho
        rcases mem_step_called _ _ _ _ h with h | h
        · exact Or.inl h
        · exact Or.inr ⟨h, hc, ho⟩
      · split at h
        · split at h
          · exact Or.inl h
          · exact Or.inl h
        · exact Or.inl h
    · exact Or.inl h
  have h4 : k ∈ (afterAutomation ds opts).called ∨
      (k = DownloaderKind.bucket ∧ shouldDownloadBuckets opts = true ∧ opts.oAuth = true) := by
    unfold downloadConfigs at hk
    split at hk
    · rename_i hc
      split at hk
      · rename_i ho
        rcases mem_step_called _ _ _ _ hk with h | h
        · exact Or.inl h
        · exact Or.inr ⟨h, hc, ho⟩
      · exact Or.inl hk
    · exact Or.inl hk
  rcases h4 with h | h
  · rcases h3 h with h | h
    · rcases h2 h with h | h
      · exact Or.inl (h1 h)
      · exact Or.inr (Or.inl h)
    · exact Or.inr (Or.inr (Or.inl h))
  · exact Or.inr (Or.inr (Or.inr h))

end download

namespace download

open config

/-- The downloaders that `downloadConfigs` calls when no downloader returns an error. -/
theorem downloadConfigs_called_of_ok (ds : downloaders) (opts : downloadConfigsOptions)
    (hc : ∀ p a, (ds.Classic p a).2 = none) (hs : ∀ p a, (ds.Settings p a).2 = none)
    (ha : ∀ p, (ds.Automation p).2 = none) (hb : ∀ p, (ds.Bucket p).2 = none) :
    (downloadConfigs ds opts).called
      = (if shouldDownloadConfigs opts then [DownloaderKind.classic] else [])
        ++ (if shouldDownloadSettings opts then [DownloaderKind.settings] else [])
        ++ (if shouldDownloadAutomationResources opts && opts.oAuth
            then [DownloaderKind.automation] else [])
        ++ (if shouldDownloadBuckets opts && opts.oAuth
            then [DownloaderKind.bucket] else []) := by
  have h1 : (afterClassic ds opts).called
      = (if shouldDownloadConfigs opts then [DownloaderKind.classic] else []) ∧
      (afterClassic ds opts).err = none := by
    unfold afterClassic
    split
    · exact step_called_of_ok _ _ _ rfl (hc _ _)
    · exact ⟨rfl, rfl⟩
  have h2 : (afterSettings ds opts).called
      = (if shouldDownloadConfigs opts then [DownloaderKind.classic] else [])
        ++ (if shouldDownloadSettings opts then [DownloaderKind.settings] else []) ∧
      (afterSettings ds opts).err = none := by
    unfold afterSettings
    split
    · have h := step_called_of_ok (afterClassic ds opts) DownloaderKind.settings
        (ds.Settings opts.projectName opts.specificSchemas) h1.2 (hs _ _)
      rw [h1.1] at h
      exact h
    · rw [List.append_nil]
      exact h1
  have h3 : (afterAutomation ds opts).called
      = (if shouldDownloadConfigs opts then [DownloaderKind.classic] else [])
        ++ (if shouldDownloadSettings opts then [DownloaderKind.settings] else [])
        ++ (if shouldDownloadAutomationResources opts && opts.oAuth
            then [DownloaderKind.automation] else []) ∧
      ((afterAutomation ds opts).err = none ∨ opts.onlyAutomation = true) := by
    unfold afterAutomation
    by_cases hx : shouldDownloadAutomationResources opts = true
    · by_cases ho : opts.oAuth = true
      · have h := step_called_of_ok (afterSettings ds opts) DownloaderKind.automation
          (ds.Automation opts.projectName) h2.2 (ha _)
        rw [h2.1] at h
        simp only [hx, ho, if_true, Bool.and_self]
        exact ⟨h.1, Or.inl h.2⟩
      · by_cases hoa : opts.onlyAutomation = true
        · simp only [hx, ho, hoa, if_true, if_false, h2.2, Bool.and_false, Bool.false_eq_true,
            List.append_nil]
          exact ⟨h2.1, Or.inr trivial⟩
        · simp only [hx, ho, hoa, if_true, if_false, Bool.and_false, Bool.false_eq_true,
            List.append_nil]
          exact ⟨h2.1, Or.inl h2.2⟩
    · simp only [hx, if_false, Bool.false_and, Bool.false_eq_true, List.append_nil]
      exact ⟨h2.1, Or.inl h2.2⟩
  unfold downloadConfigs
  by_cases hx : shouldDownloadBuckets opts = true
  · by_cases ho : opts.oAuth = true
    · have hna : opts.onlyAutomation = false := by
        simp only [shouldDownloadBuckets, Bool.and_eq_true, Bool.not_eq_true'] at hx
        exact hx.2
      have herr : (afterAutomation ds opts).err = none := by
        rcases h3.2 with h | h
        · exact h
        · rw [hna] at h
          cases h
      have h := step_called_of_ok (afterAutomation ds opts) DownloaderKind.bucket
        (ds.Bucket opts.projectName) herr (hb _)
      rw [if_pos hx, if_pos ho, h.1, h3.1]
      simp [hx, ho]
    · rw [if_pos hx, if_neg ho, h3.1]
      simp [ho]
  · rw [if_neg hx, h3.1]
    simp [hx]

end download

namespace download

open config

/-- Claim C13. `downloadConfigs` never calls a downloader of a kind the options exclude. With
`onlySettings`, or with specific schemas and no specific API, it calls nothing but the settings
downloader; with `onlyAPIs`, or with specific APIs and no specific schema, nothing but the
classic downloader; with specific APIs and specific schemas nothing but these two; with
`onlyAutomation` nothing but the automation downloader. When no downloader returns an error
and one of these options is the only one set, the downloaders named are indeed called. -/
theorem C13_downloadConfigs_calls_only_requested (ds : downloaders)
    (opts : downloadConfigsOptions) :
    (opts.onlySettings = true →
      ∀ k ∈ (downloadConfigs ds opts).called, k = DownloaderKind.settings) ∧
    (opts.specificSchemas ≠ [] → opts.specificAPIs = [] →
      ∀ k ∈ (downloadConfigs ds opts).called, k = DownloaderKind.settings) ∧
    (opts.onlyAPIs = true →
      ∀ k ∈ (downloadConfigs ds opts).called, k = DownloaderKind.classic) ∧
    (opts.specificAPIs ≠ [] → opts.specificSchemas = [] →
      ∀ k ∈ (downloadConfigs ds opts).called, k = DownloaderKind.classic) ∧
    (opts.specificAPIs ≠ [] → opts.specificSchemas ≠ [] →
      ∀ k ∈ (downloadConfigs ds opts).called,
        k = DownloaderKind.classic ∨ k = DownloaderKind.settings) ∧
    (opts.onlyAutomation = true →
      ∀ k ∈ (downloadConfigs ds opts).called, k = DownloaderKind.automation) ∧
    ((∀ p a, (ds.Classic p a).2 = none) → (∀ p a, (ds.Settings p a).2 = none) →
      (∀ p, (ds.Automation p).2 = none) → (∀ p, (ds.Bucket p).2 = none) →
      (opts.onlySettings = true → opts.onlyAPIs = false → opts.onlyAutomation = false →
        opts.specificAPIs = [] →
        (downloadConfigs ds opts).called = [DownloaderKind.settings]) ∧
      (opts.specificSchemas ≠ [] → opts.specificAPIs = [] → opts.onlyAPIs = false →
        opts.onlyAutomation = false →
        (downloadConfigs ds opts).called = [DownloaderKind.settings]) ∧
      (opts.onlyAPIs = true → opts.onlySettings = false → opts.onlyAutomation = false →
        opts.specificSchemas = [] →
        (downloadConfigs ds opts).called = [DownloaderKind.classic]) ∧
      (opts.specificAPIs ≠ [] → opts.specificSchemas = [] → opts.onlySettings = false →
        opts.onlyAutomation = false →
        (downloadConfigs ds opts).called = [DownloaderKind.classic]) ∧
      (opts.specificAPIs ≠ [] → opts.specificSchemas ≠ [] → opts.onlyAPIs = false →
        opts.onlySettings = false → opts.onlyAutomation = false →
        (downloadConfigs ds opts).called
          = [DownloaderKind.classic, DownloaderKind.settings]) ∧
      (opts.onlyAutomation = true → opts.onlyAPIs = false → opts.onlySettings = false →
        opts.specificAPIs = [] → opts.specificSchemas = [] → opts.oAuth = true →
        (downloadConfigs ds opts).called = [DownloaderKind.automation])) := by
  have hallowed := downloadConfigs_called_allowed ds opts
  refine ⟨?_, ?_, ?_, ?_, ?_, ?_, ?_⟩
  · intro h k hk
    rcases hallowed k hk with ⟨_, hs⟩ | ⟨hk2, _⟩ | ⟨_, hs, _⟩ | ⟨_, hs, _⟩
    · simp [shouldDownloadConfigs, h] at hs
    · exact hk2
    · simp [shouldDownloadAutomationResources, h] at hs
    · simp [shouldDownloadBuckets, h] at hs
  · intro h1 h2 k hk
    rcases hallowed k hk with ⟨_, hs⟩ | ⟨hk2, _⟩ | ⟨_, hs, _⟩ | ⟨_, hs, _⟩
    · simp [shouldDownloadConfigs, h1, h2] at hs
    · exact hk2
    · simp [shouldDownloadAutomationResources, h1] at hs
    · simp [shouldDownloadBuckets, h1] at hs
  · intro h k hk
    rcases hallowed k hk with ⟨hk2, _⟩ | ⟨_, hs⟩ | ⟨_, hs, _⟩ | ⟨_, hs, _⟩
    · exact hk2
    · simp [shouldDownloadSettings, h] at hs
    · simp [shouldDownloadAutomationResources, h] at hs
    · simp [shouldDownloadBuckets, h] at hs
  · intro h1 h2 k hk
    rcases hallowed k hk with ⟨hk2, _⟩ | ⟨_, hs⟩ | ⟨_, hs, _⟩ | ⟨_, hs, _⟩
    · exact hk2
    · simp [shouldDownloadSettings, h1, h2] at hs
    · simp [shouldDownloadAutomationResources, h1] at hs
    · simp [shouldDownloadBuckets, h1] at hs
  · intro h1 _ k hk
    rcases hallowed k hk with ⟨hk2, _⟩ | ⟨hk2, _⟩ | ⟨_, hs, _⟩ | ⟨_, hs, _⟩
    · exact Or.inl hk2
    · exact Or.inr hk2
    · simp [shouldDownloadAutomationResources, h1] at hs
    · simp [shouldDownloadBuckets, h1] at hs
  · intro h k hk
    rcases hallowed k hk with ⟨_, hs⟩ | ⟨_, hs⟩ | ⟨hk2, _⟩ | ⟨_, hs, _⟩
    · simp [shouldDownloadConfigs, h] at hs
    · simp [shouldDownloadSettings, h] at hs
    · exact hk2
    · simp [shouldDownloadBuckets, h] at hs
  · intro hc hs ha hb
    have hcalled := downloadConfigs_called_of_ok ds opts hc hs ha hb
    refine ⟨?_, ?_, ?_, ?_, ?_, ?_⟩
    · intro h1 h2 h3 h4
      rw [hcalled]
      simp [shouldDownloadConfigs, shouldDownloadSettings, shouldDownloadAutomationResources,
        shouldDownloadBuckets, h1, h2, h3, h4]
    · intro h1 h2 h3 h4
      rw [hcalled]
      simp [shouldDownloadConfigs, shouldDownloadSettings, shouldDownloadAutomationResources,
        shouldDownloadBuckets, h1, h2, h3, h4, List.length_pos]
    · intro h1 h2 h3 h4
      rw [hcalled]
      simp [shouldDownloadConfigs, shouldDownloadSettings, shouldDownloadAutomationResources,
        shouldDownloadBuckets, h1, h2, h3, h4]
    · intro h1 h2 h3 h4
      rw [hcalled]
      simp [shouldDownloadConfigs, shouldDownloadSettings, shouldDownloadAutomationResources,
        shouldDownloadBuckets, h1, h2, h3, h4, List.length_pos]
    · intro h1 h2 h3 h4 h5
      rw [hcalled]
      simp [shouldDownloadConfigs, shouldDownloadSettings, shouldDownloadAutomationResources,
        shouldDownloadBuckets, h1, h2, h3, h4, h5, List.length_pos]
    · intro h1 h2 h3 h4 h5 h6
      rw [hcalled]
      simp [shouldDownloadConfigs, shouldDownloadSettings, shouldDownloadAutomationResources,
        shouldDownloadBuckets, h1, h2, h3, h4, h5, h6]

/-- The witness of claim C13: the row "specific APIs and schemas" of `TestDownload_Options`
calls the classic and the settings downloader and no other. -/
theorem C13_downloadConfigs_calls_only_requested_witness :
    (downloadConfigs assertDownloaders
      { noOptions with specificAPIs := ["alerting-profile"],
                       specificSchemas := ["some:schema"] }).called
      = [DownloaderKind.classic, DownloaderKind.settings] :=
  ((C13_downloadConfigs_calls_only_requested assertDownloaders
      { noOptions with specificAPIs := ["alerting-profile"],
                       specificSchemas := ["some:schema"] }).2.2.2.2.2.2
    (fun _ _ => rfl) (fun _ _ => rfl) (fun _ => rfl) (fun _ => rfl)).2.2.2.2.1
    (by decide) (by decide) rfl rfl rfl

end download

/-! ## Reporting duplicates when projects are loaded -/

namespace v2

open config coordinate

theorem LoadProjects_errors (found : List Config) :
    (LoadProjects found).2
      = (findDuplicatedConfigIdentifiers found).map newDuplicateConfigIdentifierError := by
  unfold LoadProjects
  simp only
  split
  · rename_i h
    exact (List.length_eq_zero.mp h).symm
  · rfl

theorem findDuplicatedConfigIdentifiers_countP (configs : List Config) (x : Coordinate) :
    (findDuplicatedConfigIdentifiers configs).countP (fun c => c.Coordinate = x)
      = configs.countP (fun c => c.Coordinate = x) - 1 := by
  have h := findLoop_countP x configs [] []
  simpa [findDuplicatedConfigIdentifiers] using h

theorem newDuplicateConfigIdentifierError_contains (c : Config) :
    StrContains (newDuplicateConfigIdentifierError c).msg (coordinateString c.Coordinate) :=
  ⟨"Config IDs need to be unique to project/type, found duplicate ", "",
    by simp [newDuplicateConfigIdentifierError]⟩

theorem forall₂_map_left {α β : Type} (f : α → β) (R : β → α → Prop) (hR : ∀ a, R (f a) a)
    (l : List α) : List.Forall₂ R (l.map f) l := by
  induction l with
  | nil => exact List.Forall₂.nil
  | cons a rest ih => exact List.Forall₂.cons (hR a) ih

theorem mem_duplicatedCoordinates (configs : List Config) (x : Coordinate) :
    x ∈ duplicatedCoordinates configs ↔ 2 ≤ configs.countP (fun c => c.Coordinate = x) := by
  unfold duplicatedCoordinates
  rw [List.mem_filter, List.mem_dedup, decide_eq_true_eq]
  constructor
  · exact fun h => h.2
  · intro h
    refine ⟨?_, h⟩
    have hpos : 0 < configs.countP (fun c => c.Coordinate = x) := by omega
    obtain ⟨c, hc, hcx⟩ := List.countP_pos_iff.mp hpos
    exact List.mem_map.mpr ⟨c, hc, by simpa using hcx⟩

end v2

namespace v2

open config coordinate

theorem count_map_coordinate (l : List Config) (x : Coordinate) :
    (l.map (fun c => c.Coordinate)).count x = l.countP (fun c => c.Coordinate = x) := by
  induction l with
  | nil => rfl
  | cons c rest ih =>
    by_cases h : c.Coordinate = x
    · simp [List.count_cons, List.countP_cons, h, ih]
    · simp [List.count_cons, List.countP_cons, h, ih]

theorem length_findDuplicated_of_pairs (configs : List Config)
    (hpairs : ∀ x : Coordinate, configs.countP (fun c => c.Coordinate = x) ≤ 2) :
    (findDuplicatedConfigIdentifiers configs).length = (duplicatedCoordinates configs).length := by
  have hcount : ∀ x, ((findDuplicatedConfigIdentifiers configs).map
      (fun c => c.Coordinate)).count x = configs.countP (fun c => c.Coordinate = x) - 1 := by
    intro x
    rw [count_map_coordinate, findDuplicatedConfigIdentifiers_countP]
  have hnodup : ((findDuplicatedConfigIdentifiers configs).map
      (fun c => c.Coordinate)).Nodup := by
    rw [List.nodup_iff_count_le_one]
    intro x
    rw [hcount x]
    have := hpairs x
    omega
  have hnodup2 : (duplicatedCoordinates configs).Nodup :=
    (List.nodup_dedup _).filter _
  have hmem : ∀ x, x ∈ (findDuplicatedConfigIdentifiers configs).map (fun c => c.Coordinate) ↔
      x ∈ duplicatedCoordinates configs := by
    intro x
    rw [mem_duplicatedCoordinates, ← List.count_pos_iff, hcount x]
    omega
  have hperm := (List.perm_ext_iff_of_nodup hnodup hnodup2).mpr hmem
  simpa using hperm.length_eq

/-- Claim C11. `LoadProjects` reports the duplicates that `findDuplicatedConfigIdentifiers`
finds: the errors pair off, in order, with the reported configs, and the message of each
contains the full Coordinate string `project:type:id` of its config. Two configs with the same
Coordinate give at least one error, and then nothing is loaded. When no Coordinate occurs more
than twice (two configs with the same Coordinate, in one file or in two) there is exactly one
error per duplicated Coordinate. -/
theorem C11_LoadProjects_reports_duplicates (found : List Config) :
    List.Forall₂ (fun e c => StrContains e.msg (coordinateString c.Coordinate))
      (LoadProjects found).2 (findDuplicatedConfigIdentifiers found) ∧
    (¬ (found.map (fun c => c.Coordinate)).Nodup →
      (LoadProjects found).2 ≠ [] ∧ (LoadProjects found).1 = []) ∧
    ((∀ x : Coordinate, found.countP (fun c => c.Coordinate = x) ≤ 2) →
      (LoadProjects found).2.length = (duplicatedCoordinates found).length) := by
  refine ⟨?_, ?_, ?_⟩
  · rw [LoadProjects_errors]
    exact forall₂_map_left _ _ newDuplicateConfigIdentifierError_contains _
  · intro hdup
    have hne : (LoadProjects found).2 ≠ [] := by
      rw [LoadProjects_errors]
      intro hnil
      rw [List.map_eq_nil_iff] at hnil
      apply hdup
      rw [List.nodup_iff_count_le_one]
      intro x
      have h := findDuplicatedConfigIdentifiers_countP found x
      rw [hnil] at h
      rw [count_map_coordinate]
      simp only [List.countP_nil] at h
      omega
    refine ⟨hne, ?_⟩
    unfold LoadProjects at hne ⊢
    simp only at hne ⊢
    split
    · rename_i h0
      rw [if_pos h0] at hne
      exact absurd rfl hne
    · rfl
  · intro hpairs
    rw [LoadProjects_errors, List.length_map]
    exact length_findDuplicated_of_pairs found hpairs

/-- The witness of claim C11: the configs of
`TestLoadProjects_ContainsCoordinateWhenReturningErrorForDuplicates` give two errors, one per
duplicated Coordinate. -/
theorem C11_LoadProjects_reports_duplicates_witness :
    (LoadProjects overlappingConfigs).2.length = (duplicatedCoordinates overlappingConfigs).length :=
  (C11_LoadProjects_reports_duplicates overlappingConfigs).2.2 (by
    intro x
    by_cases h1 : (configAt "project" "dashboard" "DASH_OVERLAP").Coordinate = x
    · subst h1
      decide
    · by_cases h2 : (configAt "project" "alerting-profile" "OVERLAP").Coordinate = x
      · subst h2
        decide
      · simp only [configAt] at h1 h2
        simp [overlappingConfigs, configAt, List.countP_cons, h1, h2])

end v2

/-! ## The dependency graph builder -/

namespace graph

open config coordinate

theorem buildDependencyGraph_eq (configs : List Config) :
    buildDependencyGraph configs =
      if (configs.flatMap (undefinedReferences (configs.map (fun c => c.Coordinate)))
          ++ (match findCycle (configs.map (fun c => c.Coordinate))
                (configs.flatMap (configEdges (configs.map (fun c => c.Coordinate)))) with
              | some loop => [GraphError.cycle loop]
              | none => [])).length = 0 then
        Except.ok { vertices := configs.map (fun c => c.Coordinate)
                    edges := configs.flatMap (configEdges (configs.map (fun c => c.Coordinate)))
                    configs := configs }
      else
        Except.error
          (configs.flatMap (undefinedReferences (configs.map (fun c => c.Coordinate)))
            ++ (match findCycle (configs.map (fun c => c.Coordinate))
                  (configs.flatMap (configEdges (configs.map (fun c => c.Coordinate)))) with
                | some loop => [GraphError.cycle loop]
                | none => [])) := rfl

/-- A graph construction error makes the construction fail with all the errors collected. -/
theorem buildDependencyGraph_error_of_mem (configs : List Config) (e : GraphError)
    (he : e ∈ configs.flatMap (undefinedReferences (configs.map (fun c => c.Coordinate)))
      ++ (match findCycle (configs.map (fun c => c.Coordinate))
            (configs.flatMap (configEdges (configs.map (fun c => c.Coordinate)))) with
          | some loop => [GraphError.cycle loop]
          | none => [])) :
    ∃ errs, buildDependencyGraph configs = Except.error errs ∧ e ∈ errs := by
  rw [buildDependencyGraph_eq]
  refine ⟨_, ?_, he⟩
  rw [if_neg]
  intro hlen
  rw [List.length_eq_zero] at hlen
  rw [hlen] at he
  exact List.not_mem_nil _ he

theorem buildDependencyGraph_ok (configs : List Config) (g : DependencyGraph)
    (hok : buildDependencyGraph configs = Except.ok g) :
    g.vertices = configs.map (fun c => c.Coordinate) ∧
    g.edges = configs.flatMap (configEdges (configs.map (fun c => c.Coordinate))) ∧
    g.configs = configs ∧
    configs.flatMap (undefinedReferences (configs.map (fun c => c.Coordinate))) = [] ∧
    findCycle (configs.map (fun c => c.Coordinate))
      (configs.flatMap (configEdges (configs.map (fun c => c.Coordinate)))) = none := by
  rw [buildDependencyGraph_eq] at hok
  split at hok
  · rename_i hlen
    rw [List.length_eq_zero, List.append_eq_nil] at hlen
    cases hok
    refine ⟨rfl, rfl, rfl, hlen.1, ?_⟩
    cases hf : findCycle (configs.map (fun c => c.Coordinate))
      (configs.flatMap (configEdges (configs.map (fun c => c.Coordinate)))) with
    | none => rfl
    | some loop =>
      have h2 := hlen.2
      rw [hf] at h2
      cases h2
  · cases hok

theorem message_undefinedReference (source target : Coordinate) :
    StrContains (GraphError.undefinedReference source target).message "undefined reference" ∧
    StrContains (GraphError.undefinedReference source target).message
      (coordinateString source) ∧
    StrContains (GraphError.undefinedReference source target).message
      (coordinateString target) := by
  refine ⟨⟨"", ": " ++ coordinateString source ++ " references " ++ coordinateString target, ?_⟩,
    ⟨"undefined reference: ", " references " ++ coordinateString target, ?_⟩,
    ⟨"undefined reference: " ++ coordinateString source ++ " references ", "", ?_⟩⟩
  · simp only [GraphError.message, String.append_assoc]
    rfl
  · simp only [GraphError.message, String.append_assoc]
  · simp only [GraphError.message, String.append_assoc, String.append_empty]

/-- Claim C17. For every Config of the Config Set that has a Reference to a Coordinate absent
from the set, graph construction fails, and its errors contain the "undefined reference" error
of this source and this target, whose message names both Coordinates. No reference is dropped:
when construction succeeds every Reference of every Config is an edge of the graph. -/
theorem C17_undefined_reference_is_reported (configs : List Config) :
    (∀ (c : Config) (r : Reference), c ∈ configs → r ∈ References c →
      r.Coordinate ∉ configs.map (fun c => c.Coordinate) →
      ∃ errs, buildDependencyGraph configs = Except.error errs ∧
        GraphError.undefinedReference c.Coordinate r.Coordinate ∈ errs ∧
        StrContains (GraphError.undefinedReference c.Coordinate r.Coordinate).message
          "undefined reference" ∧
        StrContains (GraphError.undefinedReference c.Coordinate r.Coordinate).message
          (coordinateString c.Coordinate) ∧
        StrContains (GraphError.undefinedReference c.Coordinate r.Coordinate).message
          (coordinateString r.Coordinate)) ∧
    (∀ g : DependencyGraph, buildDependencyGraph configs = Except.ok g →
      ∀ (c : Config) (r : Reference), c ∈ configs → r ∈ References c →
        r.Coordinate ∈ g.vertices ∧ (r.Coordinate, c.Coordinate) ∈ g.edges) := by
  have hundef : ∀ (c : Config) (r : Reference), c ∈ configs → r ∈ References c →
      r.Coordinate ∉ configs.map (fun c => c.Coordinate) →
      GraphError.undefinedReference c.Coordinate r.Coordinate ∈
        configs.flatMap (undefinedReferences (configs.map (fun c => c.Coordinate))) := by
    intro c r hc hr habs
    rw [List.mem_flatMap]
    refine ⟨c, hc, ?_⟩
    unfold undefinedReferences
    rw [List.mem_filterMap]
    refine ⟨r, hr, ?_⟩
    have hcont : (configs.map (fun c => c.Coordinate)).contains r.Coordinate = false := by
      simpa using habs
    rw [hcont]
    rfl
  refine ⟨?_, ?_⟩
  · intro c r hc hr habs
    obtain ⟨errs, herrs, hmem⟩ := buildDependencyGraph_error_of_mem configs _
      (List.mem_append_left _ (hundef c r hc hr habs))
    exact ⟨errs, herrs, hmem, message_undefinedReference _ _⟩
  · intro g hok c r hc hr
    obtain ⟨hv, he, _, hnone, _⟩ := buildDependencyGraph_ok configs g hok
    have hin : r.Coordinate ∈ configs.map (fun c => c.Coordinate) := by
      by_contra habs
      have := hundef c r hc hr habs
      rw [hnone] at this
      exact List.not_mem_nil _ this
    rw [hv, he]
    refine ⟨hin, ?_⟩
    rw [List.mem_flatMap]
    refine ⟨c, hc, ?_⟩
    unfold configEdges
    rw [List.mem_filterMap]
    refine ⟨r, hr, ?_⟩
    have hcont : (configs.map (fun c => c.Coordinate)).contains r.Coordinate = true := by
      simpa using hin
    rw [hcont]
    rfl

end graph

namespace graph

open config coordinate

/-- The witness of claim C17: a policy that references a management zone which is not in the
Config Set. -/
theorem C17_undefined_reference_is_reported_witness :
    ∃ errs, buildDependencyGraph danglingExample = Except.error errs ∧
      GraphError.undefinedReference { Project := "p", Type_ := "policy", ConfigId := "pol1" }
        { Project := "p", Type_ := "management-zone", ConfigId := "mz1" } ∈ errs :=
  have h := (C17_undefined_reference_is_reported danglingExample).1
    (configWithReferences "p" "policy" "pol1"
      [{ Project := "p", Type_ := "management-zone", ConfigId := "mz1" }])
    { Coordinate := { Project := "p", Type_ := "management-zone", ConfigId := "mz1" }
      Property := "id" }
    (by simp [danglingExample]) (by simp [References, configWithReferences, parameterReferences])
    (by decide)
  ⟨h.choose, h.choose_spec.1, h.choose_spec.2.1⟩

theorem mem_dependencies (edges : List (Coordinate × Coordinate)) (v w : Coordinate) :
    w ∈ dependencies edges v ↔ (w, v) ∈ edges := by
  unfold dependencies
  rw [List.mem_map]
  constructor
  · rintro ⟨e, he, rfl⟩
    rw [List.mem_filter] at he
    have h2 : e.2 = v := by simpa using he.2
    rw [← h2]
    exact he.1
  · intro h
    exact ⟨(w, v), List.mem_filter.mpr ⟨h, by simp⟩, rfl⟩

theorem takeWhile_ne_append (v : Coordinate) (path : List Coordinate) (hv : v ∈ path) :
    ∃ rest, path = path.takeWhile (fun u => u ≠ v) ++ v :: rest := by
  induction path with
  | nil => exact absurd hv (List.not_mem_nil _)
  | cons u us ih =>
    by_cases hu : u = v
    · subst hu
      exact ⟨us, by simp [List.takeWhile]⟩
    · have hvus : v ∈ us := by
        rcases List.mem_cons.mp hv with h | h
        · exact absurd h.symm hu
        · exact h
      obtain ⟨rest, hrest⟩ := ih hvus
      refine ⟨rest, ?_⟩
      have : (u :: us).takeWhile (fun u => u ≠ v) = u :: us.takeWhile (fun u => u ≠ v) := by
        simp [List.takeWhile, hu]
      rw [this, List.cons_append, ← hrest]

/-- The loop reported when the traversal meets an in-progress vertex again is a loop. -/
theorem cycleOf_isLoop (edges : List (Coordinate × Coordinate)) (path : List Coordinate)
    (v : Coordinate) (hchain : List.Chain' (flip (dependsOn edges)) path)
    (htop : ∀ u ∈ path.head?, dependsOn edges u v) (hv : v ∈ path) :
    IsLoop (dependsOn edges) (cycleOf path v) := by
  obtain ⟨rest, hrest⟩ := takeWhile_ne_append v path hv
  generalize htw : path.takeWhile (fun u => u ≠ v) = tw at hrest
  have hloop : cycleOf path v = (tw ++ [v]).reverse := by
    unfold cycleOf
    rw [htw]
    simp
  refine ⟨by simp [cycleOf], ?_, ?_⟩
  · rw [hloop, List.chain'_reverse]
    have hpre : List.Chain' (flip (dependsOn edges)) ((tw ++ [v]) ++ rest) := by
      rw [List.append_assoc]
      simpa [← hrest] using hchain
    exact hpre.left_of_append
  · intro a ha b hb
    have hb2 : b = v := by
      simp [cycleOf] at hb
      exact hb.symm
    subst hb2
    apply htop
    rw [hloop, List.getLast?_reverse] at ha
    rw [hrest]
    cases tw with
    | nil => simpa using ha
    | cons u tw2 => simpa using ha

end graph

namespace graph

open config coordinate

/-- Going through a list of vertices with a traversal step that is correct is correct. -/
theorem foldlM_step_spec (edges : List (Coordinate × Coordinate))
    (f : List Coordinate → Coordinate → Except (List Coordinate) (List Coordinate))
    (P : Coordinate → Prop)
    (hf : ∀ done w, Finished edges done → P w →
      (∀ d, f done w = Except.ok d → Finished edges d ∧ w ∈ d ∧ ∀ x ∈ done, x ∈ d) ∧
      (∀ loop, f done w = Except.error loop → IsLoop (dependsOn edges) loop)) :
    ∀ (ws done : List Coordinate), Finished edges done → (∀ w ∈ ws, P w) →
      (∀ d, ws.foldlM f done = Except.ok d →
        Finished edges d ∧ (∀ w ∈ ws, w ∈ d) ∧ ∀ x ∈ done, x ∈ d) ∧
      (∀ loop, ws.foldlM f done = Except.error loop → IsLoop (dependsOn edges) loop) := by
  intro ws
  induction ws with
  | nil =>
    intro done hdone _
    refine ⟨?_, ?_⟩
    · intro d hd
      have : d = done := by
        simp only [List.foldlM_nil, pure, Except.pure, Except.ok.injEq] at hd
        exact hd.symm
      subst this
      exact ⟨hdone, fun w hw => absurd hw (List.not_mem_nil _), fun x hx => hx⟩
    · intro loop hl
      simp only [List.foldlM_nil, pure, Except.pure, reduceCtorEq] at hl
  | cons w ws ih =>
    intro done hdone hP
    have hw := hf done w hdone (hP w (List.mem_cons_self _ _))
    cases hfw : f done w with
    | error loop0 =>
      refine ⟨?_, ?_⟩
      · intro d hd
        simp only [List.foldlM_cons, hfw, bind, Except.bind, reduceCtorEq] at hd
      · intro loop hl
        simp only [List.foldlM_cons, hfw, bind, Except.bind, Except.error.injEq] at hl
        subst hl
        exact hw.2 _ hfw
    | ok d0 =>
      obtain ⟨hfin0, hw0, hsub0⟩ := hw.1 d0 hfw
      have hrest := ih d0 hfin0 (fun x hx => hP x (List.mem_cons_of_mem _ hx))
      refine ⟨?_, ?_⟩
      · intro d hd
        simp only [List.foldlM_cons, hfw, bind, Except.bind] at hd
        obtain ⟨hfin, hall, hsub⟩ := hrest.1 d hd
        refine ⟨hfin, ?_, fun x hx => hsub x (hsub0 x hx)⟩
        intro x hx
        rcases List.mem_cons.mp hx with h | h
        · subst h
          exact hsub x hw0
        · exact hall x h
      · intro loop hl
        simp only [List.foldlM_cons, hfw, bind, Except.bind] at hl
        exact hrest.2 loop hl

end graph

namespace graph

open config coordinate

theorem length_lt_of_not_mem (vertices path : List Coordinate) (v : Coordinate)
    (hnodup : path.Nodup) (hsub : ∀ u ∈ path, u ∈ vertices) (hv : v ∈ vertices)
    (hnot : v ∉ path) : path.length < vertices.length := by
  have hnodup2 : (v :: path).Nodup := List.nodup_cons.mpr ⟨hnot, hnodup⟩
  have hsub2 : (v :: path) ⊆ vertices := by
    intro x hx
    rcases List.mem_cons.mp hx with h | h
    · subst h; exact hv
    · exact hsub x h
  have := (List.subperm_of_subset hnodup2 hsub2).length_le
  simp only [List.length_cons] at this
  omega

/-- The traversal from one vertex is correct: it finishes the vertex after all its
dependencies, or reports a loop; it does not run out of fuel. -/
theorem visit_spec (edges : List (Coordinate × Coordinate)) (vertices : List Coordinate)
    (hedges : ∀ e ∈ edges, e.1 ∈ vertices) :
    ∀ (fuel : Nat) (path done : List Coordinate) (v : Coordinate),
      Finished edges done → List.Chain' (flip (dependsOn edges)) path →
      (∀ u ∈ path.head?, dependsOn edges u v) → path.Nodup →
      (∀ u ∈ path, u ∈ vertices) → v ∈ vertices → vertices.length ≤ fuel + path.length →
      (∀ d, visit edges fuel path done v = Except.ok d →
        Finished edges d ∧ v ∈ d ∧ ∀ x ∈ done, x ∈ d) ∧
      (∀ loop, visit edges fuel path done v = Except.error loop →
        IsLoop (dependsOn edges) loop) := by
  intro fuel
  induction fuel with
  | zero =>
    intro path done v hdone hchain htop hnodup hsub hv hfuel
    rw [visit]
    by_cases h1 : done.contains v = true
    · simp only [h1, if_true]
      refine ⟨?_, ?_⟩
      · intro d hd
        cases hd
        exact ⟨hdone, by simpa using h1, fun x hx => hx⟩
      · intro loop hl
        cases hl
    · by_cases h2 : path.contains v = true
      · simp only [h1, h2, if_true, if_false]
        refine ⟨?_, ?_⟩
        · intro d hd
          cases hd
        · intro loop hl
          cases hl
          exact cycleOf_isLoop edges path v hchain htop (by simpa using h2)
      · exfalso
        have hlt := length_lt_of_not_mem vertices path v hnodup hsub hv (by simpa using h2)
        omega
  | succ n ih =>
    intro path done v hdone hchain htop hnodup hsub hv hfuel
    rw [visit]
    by_cases h1 : done.contains v = true
    · simp only [h1, if_true]
      refine ⟨?_, ?_⟩
      · intro d hd
        cases hd
        exact ⟨hdone, by simpa using h1, fun x hx => hx⟩
      · intro loop hl
        cases hl
    · by_cases h2 : path.contains v = true
      · simp only [h1, h2, if_true, if_false]
        refine ⟨?_, ?_⟩
        · intro d hd
          cases hd
        · intro loop hl
          cases hl
          exact cycleOf_isLoop edges path v hchain htop (by simpa using h2)
      · have hnot : v ∉ path := by simpa using h2
        have hchain2 : List.Chain' (flip (dependsOn edges)) (v :: path) := by
          cases path with
          | nil => exact List.chain'_singleton v
          | cons u us =>
            rw [List.chain'_cons]
            exact ⟨htop u (by simp), hchain⟩
        have hstep := foldlM_step_spec edges
          (fun d w => visit edges n (v :: path) d w)
          (fun w => (w, v) ∈ edges)
          (by
            intro d w hd hw
            apply ih (v :: path) d w hd hchain2
            · intro u hu
              simp only [List.head?_cons, Option.mem_def, Option.some.injEq] at hu
              subst hu
              exact hw
            · exact List.nodup_cons.mpr ⟨hnot, hnodup⟩
            · intro u hu
              rcases List.mem_cons.mp hu with h | h
              · subst h; exact hv
              · exact hsub u h
            · exact hedges (w, v) hw
            · simp only [List.length_cons]
              omega)
          (dependencies edges v) done hdone
          (fun w hw => (mem_dependencies edges v w).mp hw)
        simp only [h1, h2, if_false, Bool.false_eq_true]
        cases hfold : (dependencies edges v).foldlM
            (fun d w => visit edges n (v :: path) d w) done with
        | error loop0 =>
          refine ⟨?_, ?_⟩
          · intro d hd
            cases hd
          · intro loop hl
            cases hl
            exact hstep.2 _ hfold
        | ok finished =>
          obtain ⟨hfin, hall, hsub2⟩ := hstep.1 finished hfold
          refine ⟨?_, ?_⟩
          · intro d hd
            cases hd
            refine ⟨⟨?_, hfin⟩, List.mem_cons_self _ _, fun x hx => List.mem_cons_of_mem _ (hsub2 x hx)⟩
            intro w hw
            exact hall w ((mem_dependencies edges v w).mpr hw)
          · intro loop hl
            cases hl

end graph

namespace graph

open config coordinate

/-- Cycle detection is correct: a reported loop is a loop, and without a report there is a
list of finished vertices that holds every vertex. -/
theorem findCycle_spec (edges : List (Coordinate × Coordinate)) (vertices : List Coordinate)
    (hedges : ∀ e ∈ edges, e.1 ∈ vertices) :
    (∀ loop, findCycle vertices edges = some loop → IsLoop (dependsOn edges) loop) ∧
    (findCycle vertices edges = none →
      ∃ d, Finished edges d ∧ ∀ v ∈ vertices, v ∈ d) := by
  have hstep := foldlM_step_spec edges
    (fun d v => visit edges vertices.length [] d v) (fun v => v ∈ vertices)
    (by
      intro d w hd hw
      exact visit_spec edges vertices hedges vertices.length [] d w hd List.chain'_nil
        (by intro u hu; simp at hu) List.nodup_nil (by intro u hu; simp at hu) hw
        (by simp))
    vertices [] trivial (fun w hw => hw)
  unfold findCycle
  cases hfold : vertices.foldlM (fun d v => visit edges vertices.length [] d v) [] with
  | error loop0 =>
    refine ⟨?_, ?_⟩
    · intro loop hl
      cases hl
      exact hstep.2 _ hfold
    · intro hl
      cases hl
  | ok d =>
    refine ⟨?_, ?_⟩
    · intro loop hl
      cases hl
    · intro _
      obtain ⟨hfin, hall, _⟩ := hstep.1 d hfold
      exact ⟨d, hfin, hall⟩

theorem finished_closed (edges : List (Coordinate × Coordinate)) :
    ∀ (l : List Coordinate), Finished edges l →
      ∀ a b, a ∈ l → dependsOn edges a b → b ∈ l := by
  intro l
  induction l with
  | nil => intro _ a b ha _; exact absurd ha (List.not_mem_nil _)
  | cons x rest ih =>
    intro hfin a b ha hab
    rcases List.mem_cons.mp ha with h | h
    · subst h
      exact List.mem_cons_of_mem _ (hfin.1 b hab)
    · exact List.mem_cons_of_mem _ (ih hfin.2 a b h hab)

theorem finished_closed_star (edges : List (Coordinate × Coordinate)) (l : List Coordinate)
    (hfin : Finished edges l) (a b : Coordinate) (ha : a ∈ l)
    (hab : Relation.ReflTransGen (dependsOn edges) a b) : b ∈ l := by
  induction hab with
  | refl => exact ha
  | tail _ hbc ih => exact finished_closed edges l hfin _ _ ih hbc

/-- No finished vertex lies on a cycle. -/
theorem finished_acyclic (edges : List (Coordinate × Coordinate)) :
    ∀ (l : List Coordinate), Finished edges l →
      ∀ a ∈ l, ¬ Relation.TransGen (dependsOn edges) a a := by
  intro l
  induction l with
  | nil => intro _ a ha; exact absurd ha (List.not_mem_nil _)
  | cons x rest ih =>
    intro hfin a ha hcyc
    by_cases harest : a ∈ rest
    · exact ih hfin.2 a harest hcyc
    · have hax : a = x := by
        rcases List.mem_cons.mp ha with h | h
        · exact h
        · exact absurd h harest
      subst hax
      obtain ⟨w, haw, hwa⟩ := Relation.TransGen.head'_iff.mp hcyc
      have hw : w ∈ rest := hfin.1 w haw
      exact harest (finished_closed_star edges rest hfin.2 w a hw hwa)

theorem mem_configEdges (configs : List Config) (a b : Coordinate) :
    (b, a) ∈ configs.flatMap (configEdges (configs.map (fun c => c.Coordinate))) ↔
      refersTo configs a b := by
  unfold refersTo
  rw [List.mem_flatMap]
  constructor
  · rintro ⟨c, hc, hmem⟩
    unfold configEdges at hmem
    rw [List.mem_filterMap] at hmem
    obtain ⟨r, hr, hrc⟩ := hmem
    by_cases hcont : (configs.map (fun c => c.Coordinate)).contains r.Coordinate = true
    · rw [if_pos hcont] at hrc
      simp only [Option.some.injEq, Prod.mk.injEq] at hrc
      obtain ⟨h1, h2⟩ := hrc
      refine ⟨c, hc, h2, ?_, r, hr, h1⟩
      rw [← h1]
      simpa using hcont
    · rw [if_neg hcont] at hrc
      cases hrc
  · rintro ⟨c, hc, hca, hb, r, hr, hrb⟩
    refine ⟨c, hc, ?_⟩
    unfold configEdges
    rw [List.mem_filterMap]
    refine ⟨r, hr, ?_⟩
    have hcont : (configs.map (fun c => c.Coordinate)).contains r.Coordinate = true := by
      rw [hrb]
      simpa using hb
    rw [if_pos hcont, hrb, hca]

theorem dependsOn_configEdges (configs : List Config) :
    dependsOn (configs.flatMap (configEdges (configs.map (fun c => c.Coordinate))))
      = refersTo configs := by
  funext a b
  exact propext (mem_configEdges configs a b)

theorem configEdges_source_mem (configs : List Config) :
    ∀ e ∈ configs.flatMap (configEdges (configs.map (fun c => c.Coordinate))),
      e.1 ∈ configs.map (fun c => c.Coordinate) := by
  intro e he
  obtain ⟨_, _, _, hb, _⟩ := (mem_configEdges configs e.2 e.1).mp he
  exact hb

end graph

/-! ## Strings joined with a separator -/

theorem strContains_append_right {s x : String} (t : String) (h : StrContains s x) :
    StrContains (s ++ t) x := by
  obtain ⟨pre, post, hs⟩ := h
  exact ⟨pre, post ++ t, by rw [hs]; simp only [String.append_assoc]⟩

theorem strContains_append_left {s x : String} (t : String) (h : StrContains s x) :
    StrContains (t ++ s) x := by
  obtain ⟨pre, post, hs⟩ := h
  exact ⟨t ++ pre, post, by rw [hs]; simp only [String.append_assoc]⟩

theorem strContains_self_append (s t : String) : StrContains (s ++ t) t :=
  ⟨s, "", by simp⟩

theorem intercalate_go_contains (sep x : String) :
    ∀ (l : List String) (acc : String), StrContains acc x ∨ x ∈ l →
      StrContains (String.intercalate.go acc sep l) x := by
  intro l
  induction l with
  | nil =>
    intro acc h
    rcases h with h | h
    · exact h
    · exact absurd h (List.not_mem_nil _)
  | cons a rest ih =>
    intro acc h
    rw [String.intercalate.go]
    apply ih
    rcases h with h | h
    · exact Or.inl (strContains_append_right _ (strContains_append_right _ h))
    · rcases List.mem_cons.mp h with h2 | h2
      · subst h2
        exact Or.inl (strContains_self_append _ _)
      · exact Or.inr h2

theorem intercalate_contains (sep x : String) (l : List String) (hx : x ∈ l) :
    StrContains (sep.intercalate l) x := by
  cases l with
  | nil => exact absurd hx (List.not_mem_nil _)
  | cons a rest =>
    rw [String.intercalate]
    apply intercalate_go_contains
    rcases List.mem_cons.mp hx with h | h
    · subst h
      exact Or.inl ⟨"", "", by simp⟩
    · exact Or.inr h

namespace graph

open config coordinate

theorem message_cycle_names (loop : List Coordinate) (x : Coordinate) (hx : x ∈ loop) :
    StrContains (GraphError.cycle loop).message (coordinateString x) := by
  unfold GraphError.message
  exact strContains_append_left _
    (intercalate_contains _ _ _ (List.mem_map_of_mem coordinateString hx))

/-- Claim C16. For every Config Set with a reference cycle, graph construction fails and its
errors contain a cycle error whose list of Coordinates is a loop of the Config Set (each
Config references the next and the last one the first); the message names every Coordinate
on that loop. -/
theorem C16_reference_cycle_is_reported (configs : List Config)
    (hcycle : ∃ v, Relation.TransGen (refersTo configs) v v) :
    ∃ errs loop, buildDependencyGraph configs = Except.error errs ∧
      GraphError.cycle loop ∈ errs ∧
      IsLoop (refersTo configs) loop ∧
      ∀ x ∈ loop, StrContains (GraphError.cycle loop).message (coordinateString x) := by
  obtain ⟨v, hv⟩ := hcycle
  have hspec := findCycle_spec
    (configs.flatMap (configEdges (configs.map (fun c => c.Coordinate))))
    (configs.map (fun c => c.Coordinate)) (configEdges_source_mem configs)
  rw [dependsOn_configEdges] at hspec
  cases hfind : findCycle (configs.map (fun c => c.Coordinate))
      (configs.flatMap (configEdges (configs.map (fun c => c.Coordinate)))) with
  | none =>
    exfalso
    obtain ⟨d, hfin, hall⟩ := hspec.2 hfind
    have hvmem : v ∈ configs.map (fun c => c.Coordinate) := by
      obtain ⟨w, hvw, _⟩ := Relation.TransGen.head'_iff.mp hv
      obtain ⟨c, hc, hca, _⟩ := hvw
      exact List.mem_map.mpr ⟨c, hc, hca⟩
    have hacyc := finished_acyclic _ d hfin v (hall v hvmem)
    rw [dependsOn_configEdges] at hacyc
    exact hacyc hv
  | some loop =>
    have hloop := hspec.1 loop hfind
    obtain ⟨errs, herrs, hmem⟩ := buildDependencyGraph_error_of_mem configs
      (GraphError.cycle loop) (by
        apply List.mem_append_right
        rw [hfind]
        exact List.mem_singleton.mpr rfl)
    exact ⟨errs, loop, herrs, hmem, hloop, fun x hx => message_cycle_names loop x hx⟩

/-- The witness of claim C16: the example of section 8, `A` references `B` and `B` references
`A`. -/
theorem C16_reference_cycle_is_reported_witness :
    ∃ errs loop, buildDependencyGraph cycleExample = Except.error errs ∧
      GraphError.cycle loop ∈ errs ∧
      IsLoop (refersTo cycleExample) loop ∧
      ∀ x ∈ loop, StrContains (GraphError.cycle loop).message (coordinateString x) :=
  C16_reference_cycle_is_reported cycleExample
    ⟨{ Project := "p", Type_ := "management-zone", ConfigId := "A" },
      Relation.TransGen.tail
        (Relation.TransGen.single
          (b := { Project := "p", Type_ := "policy", ConfigId := "B" })
          ⟨configWithReferences "p" "management-zone" "A"
              [{ Project := "p", Type_ := "policy", ConfigId := "B" }],
            by simp [cycleExample], rfl, by decide,
            { Coordinate := { Project := "p", Type_ := "policy", ConfigId := "B" }
              Property := "id" },
            by simp [References, configWithReferences, parameterReferences], rfl⟩)
        ⟨configWithReferences "p" "policy" "B"
            [{ Project := "p", Type_ := "management-zone", ConfigId := "A" }],
          by simp [cycleExample], rfl, by decide,
          { Coordinate := { Project := "p", Type_ := "management-zone", ConfigId := "A" }
            Property := "id" },
          by simp [References, configWithReferences, parameterReferences], rfl⟩⟩

end graph

/-! ## The deployment sorter -/

namespace sorter

open config coordinate graph

theorem lexLe_total : ∀ (a b : List Nat), lexLe a b = true ∨ lexLe b a = true := by
  intro a
  induction a with
  | nil => intro b; exact Or.inl (by cases b <;> rfl)
  | cons x xs ih =>
    intro b
    cases b with
    | nil => exact Or.inr rfl
    | cons y ys =>
      rcases Nat.lt_trichotomy x y with h | h | h
      · exact Or.inl (by simp [lexLe, h])
      · subst h
        simpa [lexLe] using ih ys
      · exact Or.inr (by simp [lexLe, h])

theorem lexLe_trans : ∀ (a b c : List Nat), lexLe a b = true → lexLe b c = true →
    lexLe a c = true := by
  intro a
  induction a with
  | nil => intro b c _ _; cases c <;> rfl
  | cons x xs ih =>
    intro b c hab hbc
    cases b with
    | nil => simp [lexLe] at hab
    | cons y ys =>
      cases c with
      | nil => simp [lexLe] at hbc
      | cons z zs =>
        rcases Nat.lt_trichotomy x y with h1 | h1 | h1
        · rcases Nat.lt_trichotomy y z with h2 | h2 | h2
          · have : x < z := Nat.lt_trans h1 h2
            simp [lexLe, this]
          · subst h2
            simp [lexLe, h1]
          · have h3 : ¬ y < z := Nat.lt_asymm h2
            simp [lexLe, h2, h3] at hbc
        · subst h1
          rcases Nat.lt_trichotomy x z with h2 | h2 | h2
          · simp [lexLe, h2]
          · subst h2
            simp only [lexLe, Nat.lt_irrefl, if_false] at hab hbc ⊢
            exact ih ys zs hab hbc
          · have h3 : ¬ x < z := Nat.lt_asymm h2
            simp [lexLe, h2, h3] at hbc
        · have h3 : ¬ x < y := Nat.lt_asymm h1
          simp [lexLe, h1, h3] at hab

theorem lexLe_antisymm : ∀ (a b : List Nat), lexLe a b = true → lexLe b a = true → a = b := by
  intro a
  induction a with
  | nil =>
    intro b _ hba
    cases b with
    | nil => rfl
    | cons y ys => simp [lexLe] at hba
  | cons x xs ih =>
    intro b hab hba
    cases b with
    | nil => simp [lexLe] at hab
    | cons y ys =>
      rcases Nat.lt_trichotomy x y with h | h | h
      · have h3 : ¬ y < x := Nat.lt_asymm h
        simp [lexLe, h, h3] at hba
      · subst h
        simp only [lexLe, Nat.lt_irrefl, if_false] at hab hba
        rw [ih ys hab hba]
      · have h3 : ¬ x < y := Nat.lt_asymm h
        simp [lexLe, h, h3] at hab

theorem sortKey_injective (a b : Coordinate) (h : sortKey a = sortKey b) :
    coordinateString a = coordinateString b := by
  unfold sortKey at h
  have hinj : Function.Injective Char.toNat := by
    intro c d hcd
    rw [← Char.ofNat_toNat c, ← Char.ofNat_toNat d, hcd]
  exact String.ext (List.map_injective_iff.mpr hinj h)

theorem stringLe_isTotal : IsTotal Coordinate stringLe :=
  ⟨fun a b => lexLe_total (sortKey a) (sortKey b)⟩

theorem stringLe_isTrans : IsTrans Coordinate stringLe :=
  ⟨fun a b c hab hbc => lexLe_trans (sortKey a) (sortKey b) (sortKey c) hab hbc⟩

theorem sorted_insertionSort_stringLe (l : List Coordinate) :
    (l.insertionSort stringLe).Sorted stringLe :=
  haveI := stringLe_isTotal
  haveI := stringLe_isTrans
  List.sorted_insertionSort stringLe l

/-- Two sorted lists with the same elements are equal when the order is antisymmetric on
them. -/
theorem eq_of_perm_of_sorted_on (r : Coordinate → Coordinate → Prop) :
    ∀ (l₁ l₂ : List Coordinate), l₁.Perm l₂ → l₁.Sorted r → l₂.Sorted r →
      (∀ a ∈ l₁, ∀ b ∈ l₁, r a b → r b a → a = b) → l₁ = l₂ := by
  intro l₁
  induction l₁ with
  | nil => intro l₂ hp _ _ _; exact hp.nil_eq
  | cons a t₁ ih =>
    intro l₂ hp hs₁ hs₂ hanti
    cases l₂ with
    | nil => exact absurd hp.symm.nil_eq (fun h => List.cons_ne_nil _ _ h.symm)
    | cons b t₂ =>
      have hab : a = b := by
        by_contra hne
        have ha : a ∈ t₂ := by
          rcases List.mem_cons.mp (hp.subset (List.mem_cons_self a t₁)) with h | h
          · exact absurd h hne
          · exact h
        have hb : b ∈ t₁ := by
          rcases List.mem_cons.mp (hp.symm.subset (List.mem_cons_self b t₂)) with h | h
          · exact absurd h.symm hne
          · exact h
        have h1 : r a b := List.rel_of_sorted_cons hs₁ b hb
        have h2 : r b a := List.rel_of_sorted_cons hs₂ a ha
        exact hne (hanti a (List.mem_cons_self _ _) b (List.mem_cons_of_mem _ hb) h1 h2)
      subst hab
      have hp2 : t₁.Perm t₂ := List.Perm.cons_inv hp
      rw [ih t₂ hp2 hs₁.of_cons hs₂.of_cons
        (fun x hx y hy => hanti x (List.mem_cons_of_mem _ hx) y (List.mem_cons_of_mem _ hy))]

end sorter

namespace sorter

open config coordinate graph

theorem zeroIndegree_iff (edges : List (Coordinate × Coordinate)) (remaining : List Coordinate)
    (v : Coordinate) :
    zeroIndegree edges remaining v = true ↔ ∀ a ∈ remaining, (a, v) ∉ edges := by
  unfold zeroIndegree
  rw [List.all_eq_true]
  constructor
  · intro h a ha hav
    have := h (a, v) hav
    simp [ha] at this
  · intro h e he
    by_cases h2 : e.2 = v
    · by_cases h1 : e.1 ∈ remaining
      · exfalso
        apply h e.1 h1
        rw [← h2]
        exact he
      · simp [h1]
    · simp [h2]

theorem mem_nextWave (edges : List (Coordinate × Coordinate)) (remaining : List Coordinate)
    (v : Coordinate) :
    v ∈ nextWave edges remaining ↔ v ∈ remaining ∧ ∀ a ∈ remaining, (a, v) ∉ edges := by
  unfold nextWave
  rw [List.mem_filter, zeroIndegree_iff]

/-- Among finitely many vertices of an acyclic relation there is one that no other reaches. -/
theorem exists_unreached (r : Coordinate → Coordinate → Prop)
    (hacyclic : ∀ v, ¬ Relation.TransGen r v v) :
    ∀ (l : List Coordinate), l ≠ [] → ∃ m ∈ l, ∀ a ∈ l, ¬ Relation.TransGen r a m := by
  intro l
  induction l with
  | nil => intro h; exact absurd rfl h
  | cons x rest ih =>
    intro _
    by_cases hrest : rest = []
    · subst hrest
      refine ⟨x, List.mem_cons_self _ _, ?_⟩
      intro a ha
      rw [List.mem_singleton] at ha
      subst ha
      exact hacyclic a
    · obtain ⟨m, hm, hmin⟩ := ih hrest
      by_cases hxm : Relation.TransGen r x m
      · refine ⟨x, List.mem_cons_self _ _, ?_⟩
        intro a ha hax
        rcases List.mem_cons.mp ha with h | h
        · subst h
          exact hacyclic a hax
        · exact hmin a h (Relation.TransGen.trans hax hxm)
      · refine ⟨m, List.mem_cons_of_mem _ hm, ?_⟩
        intro a ha
        rcases List.mem_cons.mp ha with h | h
        · subst h
          exact hxm
        · exact hmin a h

theorem nextWave_ne_nil (edges : List (Coordinate × Coordinate))
    (hacyclic : ∀ v, ¬ Relation.TransGen (fun a b => (a, b) ∈ edges) v v)
    (remaining : List Coordinate) (hne : remaining ≠ []) : nextWave edges remaining ≠ [] := by
  obtain ⟨m, hm, hmin⟩ := exists_unreached _ hacyclic remaining hne
  have : m ∈ nextWave edges remaining := by
    rw [mem_nextWave]
    exact ⟨hm, fun a ha hav => hmin a ha (Relation.TransGen.single hav)⟩
  exact List.ne_nil_of_mem this

theorem rest_eq_filter (edges : List (Coordinate × Coordinate)) (remaining : List Coordinate) :
    remaining.filter (fun v => !(nextWave edges remaining).contains v)
      = remaining.filter (fun v => !zeroIndegree edges remaining v) := by
  apply List.filter_congr
  intro v hv
  have : (nextWave edges remaining).contains v = zeroIndegree edges remaining v := by
    rw [Bool.eq_iff_iff]
    have hc : (nextWave edges remaining).contains v = true ↔ v ∈ nextWave edges remaining := by
      simp
    rw [hc]
    unfold nextWave
    rw [List.mem_filter]
    exact ⟨fun h => h.2, fun h => ⟨hv, h⟩⟩
  rw [this]

theorem wave_append_rest_perm (edges : List (Coordinate × Coordinate))
    (remaining : List Coordinate) :
    (nextWave edges remaining
      ++ remaining.filter (fun v => !(nextWave edges remaining).contains v)).Perm remaining := by
  rw [rest_eq_filter]
  exact List.filter_append_perm _ _

theorem waveIndex_lt_length :
    ∀ (waves : List (List Coordinate)) (v : Coordinate), v ∈ waves.flatten →
      waveIndex waves v < waves.length ∧ ∃ w, waves.get? (waveIndex waves v) = some w ∧ v ∈ w := by
  intro waves
  induction waves with
  | nil => intro v hv; simp at hv
  | cons w ws ih =>
    intro v hv
    by_cases hw : w.contains v = true
    · simp only [waveIndex, hw, if_true, List.length_cons, Nat.zero_lt_succ, true_and]
      exact ⟨w, rfl, by simpa using hw⟩
    · have hv2 : v ∈ ws.flatten := by
        rw [List.flatten_cons, List.mem_append] at hv
        rcases hv with h | h
        · exact absurd (by simpa using h) hw
        · exact h
      obtain ⟨hlt, w2, hget, hmem⟩ := ih v hv2
      simp only [waveIndex, hw, if_false, List.length_cons, Bool.false_eq_true]
      exact ⟨Nat.succ_lt_succ hlt, w2, by simpa using hget, hmem⟩

end sorter

namespace sorter

open config coordinate graph

/-- The rounds of the sorter on an acyclic relation: they succeed, every remaining vertex ends
up in a wave, every edge between remaining vertices leads to a later wave, and every wave is
sorted by the tie-break order. -/
theorem sortWaves_spec (edges : List (Coordinate × Coordinate))
    (hacyclic : ∀ v, ¬ Relation.TransGen (fun a b => (a, b) ∈ edges) v v) :
    ∀ (fuel : Nat) (remaining : List Coordinate), remaining.length ≤ fuel →
      ∃ waves, sortWaves edges fuel remaining = Except.ok waves ∧
        waves.flatten.Perm remaining ∧
        (∀ a b, (a, b) ∈ edges → a ∈ remaining → b ∈ remaining →
          waveIndex waves a < waveIndex waves b) ∧
        (∀ w ∈ waves, w.Sorted stringLe) := by
  intro fuel
  induction fuel with
  | zero =>
    intro remaining hlen
    have hnil : remaining = [] := List.length_eq_zero.mp (Nat.le_zero.mp hlen)
    subst hnil
    exact ⟨[], rfl, List.Perm.refl _, fun a b _ ha => absurd ha (List.not_mem_nil _),
      fun w hw => absurd hw (List.not_mem_nil _)⟩
  | succ n ih =>
    intro remaining hlen
    cases remaining with
    | nil =>
      exact ⟨[], rfl, List.Perm.refl _, fun a b _ ha => absurd ha (List.not_mem_nil _),
        fun w hw => absurd hw (List.not_mem_nil _)⟩
    | cons r rs =>
      have hwave : nextWave edges (r :: rs) ≠ [] :=
        nextWave_ne_nil edges hacyclic (r :: rs) (List.cons_ne_nil _ _)
      have hperm := wave_append_rest_perm edges (r :: rs)
      have hrestlen : ((r :: rs).filter
          (fun v => !(nextWave edges (r :: rs)).contains v)).length ≤ n := by
        have h1 := hperm.length_eq
        rw [List.length_append] at h1
        have h2 : 0 < (nextWave edges (r :: rs)).length := List.length_pos.mpr hwave
        omega
      obtain ⟨waves, hwaves, hflat, horder, hsorted⟩ := ih _ hrestlen
      have hempty : (nextWave edges (r :: rs)).isEmpty = false := by
        cases hw : nextWave edges (r :: rs) with
        | nil => exact absurd hw hwave
        | cons _ _ => rfl
      have hsortmem : ∀ x, x ∈ (nextWave edges (r :: rs)).insertionSort stringLe ↔
          x ∈ nextWave edges (r :: rs) :=
        fun x => (List.perm_insertionSort stringLe _).mem_iff
      refine ⟨(nextWave edges (r :: rs)).insertionSort stringLe :: waves, ?_, ?_, ?_, ?_⟩
      · rw [sortWaves]
        simp only [hempty, Bool.false_eq_true, if_false, hwaves]
      · rw [List.flatten_cons]
        exact ((List.perm_insertionSort stringLe _).append hflat).trans hperm
      · intro a b hab ha hb
        have hbwave : b ∉ nextWave edges (r :: rs) := by
          intro h
          exact ((mem_nextWave edges _ b).mp h).2 a ha hab
        have hbrest : b ∈ (r :: rs).filter
            (fun v => !(nextWave edges (r :: rs)).contains v) := by
          rw [List.mem_filter]
          exact ⟨hb, by simpa using hbwave⟩
        have hbc : ((nextWave edges (r :: rs)).insertionSort stringLe).contains b = false := by
          rw [Bool.eq_false_iff]
          intro h
          exact hbwave ((hsortmem b).mp (by simpa using h))
        by_cases hawave : a ∈ nextWave edges (r :: rs)
        · have hac : ((nextWave edges (r :: rs)).insertionSort stringLe).contains a = true := by
            simpa using (hsortmem a).mpr hawave
          simp only [waveIndex, hac, hbc, if_true, if_false, Bool.false_eq_true]
          omega
        · have harest : a ∈ (r :: rs).filter
              (fun v => !(nextWave edges (r :: rs)).contains v) := by
            rw [List.mem_filter]
            exact ⟨ha, by simpa using hawave⟩
          have hac : ((nextWave edges (r :: rs)).insertionSort stringLe).contains a = false := by
            rw [Bool.eq_false_iff]
            intro h
            exact hawave ((hsortmem a).mp (by simpa using h))
          simp only [waveIndex, hac, hbc, if_false, Bool.false_eq_true]
          exact Nat.succ_lt_succ (horder a b hab harest hbrest)
      · intro w hw
        rcases List.mem_cons.mp hw with h | h
        · subst h
          exact sorted_insertionSort_stringLe _
        · exact hsorted w h

end sorter

namespace sorter

open config coordinate graph

/-- Claim C14. For every acyclic dependency graph the sorter produces waves: the waves hold
exactly the vertices of the graph, and for every edge `(A, B)` between vertices (`B` references
`A`) the wave index of `A` is strictly smaller than the wave index of `B`, both being indices
of waves that hold them. -/
theorem C14_waves_respect_edges (g : DependencyGraph) (hacyclic : Acyclic g) :
    ∃ waves, sortIntoWaves g = Except.ok waves ∧
      waves.flatten.Perm g.vertices ∧
      ∀ a b, (a, b) ∈ g.edges → a ∈ g.vertices → b ∈ g.vertices →
        waveIndex waves a < waveIndex waves b ∧
        (∃ w, waves.get? (waveIndex waves a) = some w ∧ a ∈ w) ∧
        (∃ w, waves.get? (waveIndex waves b) = some w ∧ b ∈ w) := by
  obtain ⟨waves, hwaves, hflat, horder, _⟩ :=
    sortWaves_spec g.edges hacyclic g.vertices.length g.vertices (Nat.le_refl _)
  refine ⟨waves, hwaves, hflat, ?_⟩
  intro a b hab ha hb
  exact ⟨horder a b hab ha hb,
    (waveIndex_lt_length waves a (hflat.mem_iff.mpr ha)).2,
    (waveIndex_lt_length waves b (hflat.mem_iff.mpr hb)).2⟩

theorem policyGraph_acyclic : Acyclic policyGraph := by
  intro v hv
  have hstep : ∀ a b, Relation.TransGen (fun a b => (a, b) ∈ policyGraph.edges) a b →
      a = { Project := "p", Type_ := "management-zone", ConfigId := "mz1" } ∧
      b = { Project := "p", Type_ := "policy", ConfigId := "pol1" } := by
    intro a b hab
    induction hab with
    | single h =>
      simp only [policyGraph, List.mem_singleton, Prod.mk.injEq] at h
      exact h
    | tail _ h ih =>
      simp only [policyGraph, List.mem_singleton, Prod.mk.injEq] at h
      have := ih.2
      rw [h.1] at this
      exact absurd this (by decide)
  have h := hstep v v hv
  rw [h.1] at h
  exact absurd h.2 (by decide)

/-- The witness of claim C14: the example of section 8 gives the wave of `mz1` and then the
wave of `pol1`. -/
theorem C14_waves_respect_edges_witness :
    ∃ waves, sortIntoWaves policyGraph = Except.ok waves ∧
      waves.flatten.Perm policyGraph.vertices ∧
      ∀ a b, (a, b) ∈ policyGraph.edges → a ∈ policyGraph.vertices →
        b ∈ policyGraph.vertices →
        waveIndex waves a < waveIndex waves b ∧
        (∃ w, waves.get? (waveIndex waves a) = some w ∧ a ∈ w) ∧
        (∃ w, waves.get? (waveIndex waves b) = some w ∧ b ∈ w) :=
  C14_waves_respect_edges policyGraph policyGraph_acyclic

end sorter

namespace sorter

open config coordinate graph

theorem sortWaves_sorted (edges : List (Coordinate × Coordinate)) :
    ∀ (fuel : Nat) (remaining : List Coordinate) (waves : List (List Coordinate)),
      sortWaves edges fuel remaining = Except.ok waves → ∀ w ∈ waves, w.Sorted stringLe := by
  intro fuel
  induction fuel with
  | zero =>
    intro remaining waves h
    cases remaining with
    | nil =>
      rw [sortWaves] at h
      cases h
      intro w hw
      exact absurd hw (List.not_mem_nil _)
    | cons r rs =>
      rw [sortWaves] at h
      cases h
  | succ n ih =>
    intro remaining waves h
    cases remaining with
    | nil =>
      rw [sortWaves] at h
      cases h
      intro w hw
      exact absurd hw (List.not_mem_nil _)
    | cons r rs =>
      rw [sortWaves] at h
      split at h
      · cases h
      · split at h
        · cases h
        · rename_i waves2 hrec
          cases h
          intro w hw
          rcases List.mem_cons.mp hw with h2 | h2
          · subst h2
            exact sorted_insertionSort_stringLe _
          · exact ih _ waves2 hrec w h2

theorem zeroIndegree_congr (edges edges2 : List (Coordinate × Coordinate))
    (remaining remaining2 : List Coordinate) (he : ∀ e, e ∈ edges ↔ e ∈ edges2)
    (hr : ∀ v, v ∈ remaining ↔ v ∈ remaining2) :
    zeroIndegree edges remaining = zeroIndegree edges2 remaining2 := by
  funext v
  rw [Bool.eq_iff_iff, zeroIndegree_iff, zeroIndegree_iff]
  constructor
  · intro h a ha hav
    exact h a ((hr a).mpr ha) ((he _).mpr hav)
  · intro h a ha hav
    exact h a ((hr a).mp ha) ((he _).mp hav)

theorem nextWave_perm (edges edges2 : List (Coordinate × Coordinate))
    (remaining remaining2 : List Coordinate) (he : ∀ e, e ∈ edges ↔ e ∈ edges2)
    (hp : remaining.Perm remaining2) :
    (nextWave edges remaining).Perm (nextWave edges2 remaining2) := by
  unfold nextWave
  rw [zeroIndegree_congr edges edges2 remaining remaining2 he (fun v => hp.mem_iff)]
  exact hp.filter _

theorem insertionSort_eq_of_perm (l l2 : List Coordinate) (hp : l.Perm l2)
    (hinj : ∀ a ∈ l, ∀ b ∈ l, coordinateString a = coordinateString b → a = b) :
    l.insertionSort stringLe = l2.insertionSort stringLe := by
  apply eq_of_perm_of_sorted_on stringLe
  · exact ((List.perm_insertionSort stringLe l).trans hp).trans
      (List.perm_insertionSort stringLe l2).symm
  · exact sorted_insertionSort_stringLe l
  · exact sorted_insertionSort_stringLe l2
  · intro a ha b hb hab hba
    have ha2 : a ∈ l := (List.perm_insertionSort stringLe l).mem_iff.mp ha
    have hb2 : b ∈ l := (List.perm_insertionSort stringLe l).mem_iff.mp hb
    exact hinj a ha2 b hb2 (sortKey_injective a b (lexLe_antisymm _ _ hab hba))

end sorter

namespace sorter

open config coordinate graph

/-- The waves of the sorter do not depend on the order in which vertices and edges are
listed, when the string forms of the vertices are pairwise different. -/
theorem sortWaves_perm (edges edges2 : List (Coordinate × Coordinate))
    (he : ∀ e, e ∈ edges ↔ e ∈ edges2) :
    ∀ (fuel : Nat) (remaining remaining2 : List Coordinate), remaining.Perm remaining2 →
      (∀ a ∈ remaining, ∀ b ∈ remaining, coordinateString a = coordinateString b → a = b) →
      ∀ waves, sortWaves edges fuel remaining = Except.ok waves →
        sortWaves edges2 fuel remaining2 = Except.ok waves := by
  intro fuel
  induction fuel with
  | zero =>
    intro remaining remaining2 hp _ waves h
    cases remaining with
    | nil =>
      have := hp.nil_eq
      subst this
      exact h
    | cons r rs =>
      rw [sortWaves] at h
      cases h
  | succ n ih =>
    intro remaining remaining2 hp hinj waves h
    cases remaining with
    | nil =>
      have := hp.nil_eq
      subst this
      exact h
    | cons r rs =>
      cases remaining2 with
      | nil => exact absurd hp.symm.nil_eq (fun h => List.cons_ne_nil _ _ h.symm)
      | cons r2 rs2 =>
        have hwave := nextWave_perm edges edges2 (r :: rs) (r2 :: rs2) he hp
        have hsort : (nextWave edges (r :: rs)).insertionSort stringLe
            = (nextWave edges2 (r2 :: rs2)).insertionSort stringLe := by
          apply insertionSort_eq_of_perm _ _ hwave
          intro a ha b hb
          exact hinj a ((mem_nextWave edges _ a).mp ha).1 b ((mem_nextWave edges _ b).mp hb).1
        have hempty : (nextWave edges (r :: rs)).isEmpty
            = (nextWave edges2 (r2 :: rs2)).isEmpty := by
          rw [Bool.eq_iff_iff, List.isEmpty_iff, List.isEmpty_iff]
          exact ⟨fun h => (by rw [h] at hwave; exact hwave.nil_eq.symm),
            fun h => (by rw [h] at hwave; exact hwave.symm.nil_eq.symm)⟩
        have hpred : (fun v => !(nextWave edges (r :: rs)).contains v)
            = (fun v => !(nextWave edges2 (r2 :: rs2)).contains v) := by
          funext v
          have h1 : ∀ l : List Coordinate, l.contains v = true ↔ v ∈ l := fun l => by simp
          have h2 : (nextWave edges (r :: rs)).contains v
              = (nextWave edges2 (r2 :: rs2)).contains v := by
            rw [Bool.eq_iff_iff, h1, h1]
            exact hwave.mem_iff
          rw [h2]
        have hrest : ((r :: rs).filter (fun v => !(nextWave edges (r :: rs)).contains v)).Perm
            ((r2 :: rs2).filter (fun v => !(nextWave edges2 (r2 :: rs2)).contains v)) := by
          rw [hpred]
          exact hp.filter _
        have hrec := ih _ _ hrest (by
          intro a ha b hb
          exact hinj a (List.mem_filter.mp ha).1 b (List.mem_filter.mp hb).1)
        rw [sortWaves] at h ⊢
        rw [← hempty, ← hsort]
        by_cases hemp : (nextWave edges (r :: rs)).isEmpty = true
        · rw [if_pos hemp] at h
          cases h
        · rw [if_neg hemp] at h ⊢
          cases hrecv : sortWaves edges n
              ((r :: rs).filter (fun v => !(nextWave edges (r :: rs)).contains v)) with
          | error residual =>
            rw [hrecv] at h
            cases h
          | ok waves2 =>
            rw [hrecv] at h
            rw [hrec waves2 hrecv]
            exact h

/-- In this model of the sorter the order of two Coordinates with the same string form is
the order in which they are listed: the two graphs below have the same content (the same
vertices, listed in a different order, and no edges), two of their Coordinates have the string
form `a:b:c:d`, and the waves differ in the order of these two. -/
theorem sortIntoWaves_equal_strings_keep_listing_order :
    collidingGraph.vertices.Perm collidingGraphReordered.vertices ∧
    collidingGraph.edges = collidingGraphReordered.edges ∧
    sortIntoWaves collidingGraph ≠ sortIntoWaves collidingGraphReordered := by
  refine ⟨?_, rfl, ?_⟩
  · exact List.Perm.swap _ _ _
  · have h1 : sortIntoWaves collidingGraph
        = Except.ok [[{ Project := "a", Type_ := "a", ConfigId := "a" },
            { Project := "a:b", Type_ := "c", ConfigId := "d" },
            { Project := "a", Type_ := "b:c", ConfigId := "d" }]] := by rfl
    have h2 : sortIntoWaves collidingGraphReordered
        = Except.ok [[{ Project := "a", Type_ := "a", ConfigId := "a" },
            { Project := "a", Type_ := "b:c", ConfigId := "d" },
            { Project := "a:b", Type_ := "c", ConfigId := "d" }]] := by rfl
    rw [h1, h2]
    intro h
    injection h with h
    revert h
    decide

/-- When the string forms `project:type:id` of the vertices are pairwise different, the waves
of the sorter do not depend on the order in which the vertices and the edges of the graph are
listed: two graphs with the same content get the same waves, in the same order inside every
wave. In every case each wave is ascending by the Coordinate's string form. -/
theorem sortIntoWaves_deterministic_of_distinct_strings (g g2 : DependencyGraph)
    (hvertices : g.vertices.Perm g2.vertices) (hedges : ∀ e, e ∈ g.edges ↔ e ∈ g2.edges)
    (hdistinct : ∀ a ∈ g.vertices, ∀ b ∈ g.vertices,
      coordinateString a = coordinateString b → a = b) :
    (∀ waves, sortIntoWaves g = Except.ok waves ↔ sortIntoWaves g2 = Except.ok waves) ∧
    (∀ waves, sortIntoWaves g = Except.ok waves → ∀ w ∈ waves, w.Sorted stringLe) := by
  refine ⟨?_, ?_⟩
  · intro waves
    unfold sortIntoWaves
    constructor
    · intro h
      rw [← hvertices.length_eq]
      exact sortWaves_perm g.edges g2.edges hedges _ _ _ hvertices hdistinct waves h
    · intro h
      rw [hvertices.length_eq]
      exact sortWaves_perm g2.edges g.edges (fun e => (hedges e).symm) _ _ _ hvertices.symm
        (fun a ha b hb => hdistinct a (hvertices.mem_iff.mpr ha) b (hvertices.mem_iff.mpr hb))
        waves h
  · intro waves h
    exact sortWaves_sorted g.edges _ _ waves h

/-- The example of section 8 gets the same waves with its two Configs listed in either
order. -/
theorem sortIntoWaves_deterministic_policyGraph :
    (∀ waves, sortIntoWaves policyGraph = Except.ok waves ↔
      sortIntoWaves policyGraphReordered = Except.ok waves) ∧
    (∀ waves, sortIntoWaves policyGraph = Except.ok waves →
      ∀ w ∈ waves, w.Sorted stringLe) :=
  sortIntoWaves_deterministic_of_distinct_strings policyGraph policyGraphReordered
    (List.Perm.swap _ _ _)
    (fun _ => Iff.rfl) (by decide)

end sorter

/-! ## The deployment executor -/

namespace deploy

open config coordinate graph sorter

theorem resultOf_append_of_some (l l2 : List (Coordinate × DeployResult)) (x : Coordinate)
    (r : DeployResult) (h : resultOf l x = some r) : resultOf (l ++ l2) x = some r := by
  induction l with
  | nil => simp [resultOf] at h
  | cons kv rest ih =>
    obtain ⟨k, v⟩ := kv
    by_cases hk : k = x
    · simp only [List.cons_append, resultOf, hk, if_true] at h ⊢
      exact h
    · simp only [List.cons_append, resultOf, hk, if_false] at h ⊢
      exact ih h

theorem resultOf_append_of_none (l l2 : List (Coordinate × DeployResult)) (x : Coordinate)
    (h : resultOf l x = none) : resultOf (l ++ l2) x = resultOf l2 x := by
  induction l with
  | nil => rfl
  | cons kv rest ih =>
    obtain ⟨k, v⟩ := kv
    by_cases hk : k = x
    · simp [resultOf, hk] at h
    · simp only [List.cons_append, resultOf, hk, if_false] at h ⊢
      exact ih h

theorem resultOf_eq_none_iff (l : List (Coordinate × DeployResult)) (x : Coordinate) :
    resultOf l x = none ↔ x ∉ l.map (fun kv => kv.1) := by
  induction l with
  | nil => simp [resultOf]
  | cons kv rest ih =>
    obtain ⟨k, v⟩ := kv
    by_cases hk : k = x
    · simp [resultOf, hk]
    · have hk2 : ¬ x = k := fun e => hk e.symm
      simpa [resultOf, hk, hk2] using ih

/-- The outcomes a wave adds. -/
theorem deployWave_results (env : String → Option String) (client : Client)
    (configs : List Config) (st : State) (wave : List Coordinate) :
    (deployWave env client configs st wave).results
      = st.results ++ wave.filterMap
          (fun x => (findConfig configs x).map
            (fun c => (x, (deployConfig env client st c).1))) := by
  unfold deployWave
  simp only [List.map_filterMap]
  congr 1
  apply List.filterMap_congr
  intro x _
  cases findConfig configs x <;> rfl

theorem resultOf_wave_of_mem (env : String → Option String) (client : Client)
    (configs : List Config) (st : State) :
    ∀ (wave : List Coordinate) (x : Coordinate) (c : Config), x ∈ wave →
      findConfig configs x = some c →
      resultOf (wave.filterMap
          (fun x => (findConfig configs x).map
            (fun c => (x, (deployConfig env client st c).1)))) x
        = some (deployConfig env client st c).1 := by
  intro wave
  induction wave with
  | nil => intro x c hx; exact absurd hx (List.not_mem_nil _)
  | cons y ys ih =>
    intro x c hx hc
    by_cases hyx : y = x
    · subst hyx
      simp [List.filterMap_cons, hc, resultOf]
    · have hx2 : x ∈ ys := by
        rcases List.mem_cons.mp hx with h | h
        · exact absurd h.symm hyx
        · exact h
      cases hy : findConfig configs y with
      | none =>
        simp only [List.filterMap_cons, hy, Option.map_none']
        exact ih x c hx2 hc
      | some cy =>
        simp only [List.filterMap_cons, hy, Option.map_some', resultOf, hyx, if_false]
        exact ih x c hx2 hc

theorem resultOf_wave_of_not_mem (env : String → Option String) (client : Client)
    (configs : List Config) (st : State) (wave : List Coordinate) (x : Coordinate)
    (hx : x ∉ wave) :
    resultOf (wave.filterMap
        (fun x => (findConfig configs x).map
          (fun c => (x, (deployConfig env client st c).1)))) x = none := by
  rw [resultOf_eq_none_iff]
  intro hmem
  rw [List.mem_map] at hmem
  obtain ⟨kv, hkv, hkx⟩ := hmem
  rw [List.mem_filterMap] at hkv
  obtain ⟨y, hy, hyk⟩ := hkv
  cases hf : findConfig configs y with
  | none => rw [hf] at hyk; cases hyk
  | some cy =>
    rw [hf] at hyk
    simp only [Option.map_some', Option.some.injEq] at hyk
    rw [← hyk] at hkx
    simp only at hkx
    rw [hkx] at hy
    exact hx hy

/-- Outcomes are never overwritten by later waves. -/
theorem resultOf_deployWaves_of_some (env : String → Option String) (client : Client)
    (configs : List Config) :
    ∀ (waves : List (List Coordinate)) (st : State) (x : Coordinate) (r : DeployResult),
      resultOf st.results x = some r →
      resultOf (waves.foldl (deployWave env client configs) st).results x = some r := by
  intro waves
  induction waves with
  | nil => intro st x r h; exact h
  | cons w ws ih =>
    intro st x r h
    rw [List.foldl_cons]
    apply ih
    rw [deployWave_results]
    exact resultOf_append_of_some _ _ _ _ h

end deploy

namespace deploy

open config coordinate graph sorter

theorem dependenciesDeployed_eq_false_iff (results : List (Coordinate × DeployResult))
    (c : Config) :
    dependenciesDeployed results c = false ↔
      ∃ r ∈ References c, isDeployed (resultOf results r.Coordinate) = false := by
  unfold dependenciesDeployed
  rw [← Bool.not_eq_true, List.all_eq_true]
  constructor
  · intro h
    by_contra hno
    apply h
    intro r hr
    by_contra hd
    exact hno ⟨r, hr, by simpa using hd⟩
  · rintro ⟨r, hr, hd⟩ hall
    rw [hall r hr] at hd
    cases hd

/-- A Config is skipped exactly for its own Skip flag or a dependency that was not deployed;
otherwise it is deployed or failed. -/
theorem deployConfig_skipped_iff (env : String → Option String) (client : Client) (st : State)
    (c : Config) :
    ((deployConfig env client st c).1 = DeployResult.skipped ↔
      (c.Skip = true ∨ dependenciesDeployed st.results c = false)) := by
  unfold deployConfig
  by_cases hs : c.Skip = true
  · simp [hs]
  · by_cases hd : dependenciesDeployed st.results c = true
    · simp only [hs, hd, if_false, Bool.not_true, Bool.false_eq_true, false_or]
      split
      · simp
      · split <;> simp
    · have hd2 : dependenciesDeployed st.results c = false := by simpa using hd
      simp [hs, hd2]

theorem isDeployed_congr (a b : Option DeployResult) (h : a = b) :
    isDeployed a = isDeployed b := by rw [h]

/-- The executor on the remaining waves, started in a state that holds an outcome for every
dependency not in a remaining wave: every remaining Config gets an outcome, and it is skipped
exactly for its own Skip flag or for a dependency whose final outcome is not `deployed`. -/
theorem deployWaves_spec (env : String → Option String) (client : Client)
    (configs : List Config) :
    ∀ (waves : List (List Coordinate)) (st : State),
      waves.flatten.Nodup →
      (∀ x ∈ waves.flatten, resultOf st.results x = none) →
      (∀ x ∈ waves.flatten, ∃ c, findConfig configs x = some c) →
      (∀ x ∈ waves.flatten, ∀ c, findConfig configs x = some c → ∀ r ∈ References c,
        resultOf st.results r.Coordinate ≠ none ∨
        (r.Coordinate ∈ waves.flatten ∧ waveIndex waves r.Coordinate < waveIndex waves x)) →
      ∀ x ∈ waves.flatten, ∀ c, findConfig configs x = some c →
        ∃ res, resultOf (waves.foldl (deployWave env client configs) st).results x = some res ∧
          (res = DeployResult.skipped ↔
            (c.Skip = true ∨ ∃ r ∈ References c,
              isDeployed (resultOf (waves.foldl (deployWave env client configs) st).results
                r.Coordinate) = false)) := by
  intro waves
  induction waves with
  | nil => intro st _ _ _ _ x hx; simp at hx
  | cons w ws ih =>
    intro st hnodup hfresh hconfig hready x hx c hc
    rw [List.flatten_cons] at hnodup hx
    have hdisj := (List.nodup_append.mp hnodup).2.2
    rw [List.foldl_cons]
    by_cases hxw : x ∈ w
    · -- the Config is in the first wave
      have hidx : waveIndex (w :: ws) x = 0 := by
        have : w.contains x = true := by simpa using hxw
        rw [waveIndex, if_pos this]
      have hdeps : ∀ r ∈ References c, ∃ rr, resultOf st.results r.Coordinate = some rr := by
        intro r hr
        rcases hready x (by rw [List.flatten_cons]; exact hx) c hc r hr with h | h
        · exact Option.ne_none_iff_exists'.mp h
        · rw [hidx] at h
          exact absurd h.2 (Nat.not_lt_zero _)
      have hres : resultOf (deployWave env client configs st w).results x
          = some (deployConfig env client st c).1 := by
        rw [deployWave_results,
          resultOf_append_of_none _ _ _ (hfresh x (by rw [List.flatten_cons]; exact hx))]
        exact resultOf_wave_of_mem env client configs st w x c hxw hc
      refine ⟨(deployConfig env client st c).1,
        resultOf_deployWaves_of_some env client configs ws _ x _ hres, ?_⟩
      rw [deployConfig_skipped_iff, dependenciesDeployed_eq_false_iff]
      have hsame : ∀ r ∈ References c,
          isDeployed (resultOf
            (ws.foldl (deployWave env client configs)
              (deployWave env client configs st w)).results r.Coordinate)
            = isDeployed (resultOf st.results r.Coordinate) := by
        intro r hr
        obtain ⟨rr, hrr⟩ := hdeps r hr
        apply isDeployed_congr
        rw [hrr]
        apply resultOf_deployWaves_of_some
        rw [deployWave_results]
        exact resultOf_append_of_some _ _ _ _ hrr
      constructor
      · rintro (h | ⟨r, hr, hd⟩)
        · exact Or.inl h
        · exact Or.inr ⟨r, hr, by rw [hsame r hr]; exact hd⟩
      · rintro (h | ⟨r, hr, hd⟩)
        · exact Or.inl h
        · exact Or.inr ⟨r, hr, by rw [← hsame r hr]; exact hd⟩
    · -- the Config is in a later wave
      have hxws : x ∈ ws.flatten := by
        rcases List.mem_append.mp hx with h | h
        · exact absurd h hxw
        · exact h
      apply ih (deployWave env client configs st w) (List.nodup_append.mp hnodup).2.1
      · intro y hy
        rw [deployWave_results, resultOf_append_of_none _ _ _
          (hfresh y (by rw [List.flatten_cons]; exact List.mem_append_right _ hy))]
        apply resultOf_wave_of_not_mem
        intro hyw
        exact hdisj hyw hy
      · intro y hy
        exact hconfig y (by rw [List.flatten_cons]; exact List.mem_append_right _ hy)
      · intro y hy cy hcy r hr
        have hyw : y ∉ w := fun hyw => hdisj hyw hy
        have hidxy : waveIndex (w :: ws) y = waveIndex ws y + 1 := by
          have : ¬ w.contains y = true := by simpa using hyw
          rw [waveIndex, if_neg this]
        rcases hready y (by rw [List.flatten_cons]; exact List.mem_append_right _ hy)
          cy hcy r hr with h | h
        · left
          obtain ⟨rr, hrr⟩ := Option.ne_none_iff_exists'.mp h
          rw [deployWave_results, resultOf_append_of_some _ _ _ _ hrr]
          exact Option.some_ne_none _
        · by_cases hrw : r.Coordinate ∈ w
          · left
            obtain ⟨cr, hcr⟩ := hconfig r.Coordinate h.1
            rw [deployWave_results]
            cases hst : resultOf st.results r.Coordinate with
            | some rr =>
              rw [resultOf_append_of_some _ _ _ _ hst]
              exact Option.some_ne_none _
            | none =>
              rw [resultOf_append_of_none _ _ _ hst,
                resultOf_wave_of_mem env client configs st w r.Coordinate cr hrw hcr]
              exact Option.some_ne_none _
          · right
            have hrws : r.Coordinate ∈ ws.flatten := by
              have := h.1
              rw [List.flatten_cons] at this
              rcases List.mem_append.mp this with h2 | h2
              · exact absurd h2 hrw
              · exact h2
            have hidxr : waveIndex (w :: ws) r.Coordinate = waveIndex ws r.Coordinate + 1 := by
              have : ¬ w.contains r.Coordinate = true := by simpa using hrw
              rw [waveIndex, if_neg this]
            have := h.2
            rw [hidxr, hidxy] at this
            exact ⟨hrws, by omega⟩
      · exact hxws
      · exact hc

end deploy

namespace deploy

open config coordinate graph sorter

theorem findConfig_some (configs : List Config) (x : Coordinate) (c : Config)
    (h : findConfig configs x = some c) : c ∈ configs ∧ c.Coordinate = x := by
  induction configs with
  | nil => simp [findConfig] at h
  | cons d rest ih =>
    by_cases hd : d.Coordinate = x
    · simp only [findConfig, hd, if_true, Option.some.injEq] at h
      subst h
      exact ⟨List.mem_cons_self _ _, hd⟩
    · simp only [findConfig, hd, if_false] at h
      exact ⟨List.mem_cons_of_mem _ (ih h).1, (ih h).2⟩

theorem findConfig_of_mem (configs : List Config)
    (hnodup : (configs.map (fun c => c.Coordinate)).Nodup) (c : Config) (hc : c ∈ configs) :
    findConfig configs c.Coordinate = some c := by
  induction configs with
  | nil => exact absurd hc (List.not_mem_nil _)
  | cons d rest ih =>
    rw [List.map_cons, List.nodup_cons] at hnodup
    rcases List.mem_cons.mp hc with h | h
    · subst h
      simp [findConfig]
    · have hd : ¬ d.Coordinate = c.Coordinate := by
        intro heq
        apply hnodup.1
        rw [heq]
        exact List.mem_map_of_mem _ h
      simp only [findConfig, hd, if_false]
      exact ih hnodup.2 h

/-- A graph that was built is acyclic. -/
theorem buildDependencyGraph_acyclic (configs : List Config) (g : DependencyGraph)
    (hok : buildDependencyGraph configs = Except.ok g) : Acyclic g := by
  obtain ⟨hv, he, _, _, hnone⟩ := buildDependencyGraph_ok configs g hok
  obtain ⟨d, hfin, hall⟩ := (findCycle_spec _ _ (configEdges_source_mem configs)).2 hnone
  intro v hcyc
  rw [he] at hcyc
  have hswap : Relation.TransGen
      (dependsOn (configs.flatMap (configEdges (configs.map (fun c => c.Coordinate))))) v v :=
    Relation.transGen_swap.mp hcyc
  have hvmem : v ∈ configs.map (fun c => c.Coordinate) := by
    obtain ⟨w, hvw, _⟩ := Relation.TransGen.head'_iff.mp hswap
    obtain ⟨c, hc, hca, _⟩ := (mem_configEdges configs v w).mp hvw
    exact List.mem_map.mpr ⟨c, hc, hca⟩
  exact finished_acyclic _ d hfin v (hall v hvmem) hswap

/-- What a deployment guarantees for every Config: it has an outcome, and the outcome is
`skipped` exactly for its own Skip flag or for a dependency whose outcome is not `deployed`.
The Configs it references are Configs of the set and lie in earlier waves. -/
theorem deployConfigs_spec (env : String → Option String) (client : Client)
    (configs : List Config) (st : State)
    (hok : deployConfigs env client configs = Except.ok st)
    (hnodup : (configs.map (fun c => c.Coordinate)).Nodup) :
    ∃ waves : List (List Coordinate),
      (∀ c ∈ configs, ∃ res, resultOf st.results c.Coordinate = some res ∧
        (res = DeployResult.skipped ↔
          (c.Skip = true ∨
            ∃ r ∈ References c, isDeployed (resultOf st.results r.Coordinate) = false))) ∧
      (∀ c ∈ configs, ∀ r ∈ References c,
        (∃ cr ∈ configs, cr.Coordinate = r.Coordinate) ∧
        waveIndex waves r.Coordinate < waveIndex waves c.Coordinate) := by
  unfold deployConfigs at hok
  cases hbuild : buildDependencyGraph configs with
  | error errs => rw [hbuild] at hok; cases hok
  | ok g =>
    rw [hbuild] at hok
    simp only at hok
    cases hsort : sortIntoWaves g with
    | error residual => rw [hsort] at hok; cases hok
    | ok waves =>
      rw [hsort] at hok
      simp only [Except.ok.injEq] at hok
      obtain ⟨hv, he, hcfg, hundef, _⟩ := buildDependencyGraph_ok configs g hbuild
      have hacyclic := buildDependencyGraph_acyclic configs g hbuild
      obtain ⟨waves2, hwaves2, hflat, horder, _⟩ :=
        sortWaves_spec g.edges hacyclic g.vertices.length g.vertices (Nat.le_refl _)
      have hsame : waves2 = waves := by
        unfold sortIntoWaves at hsort
        rw [hwaves2] at hsort
        exact Except.ok.inj hsort
      subst hsame
      rw [hv] at hflat horder
      rw [hcfg] at hok
      have htarget : ∀ c ∈ configs, ∀ r ∈ References c,
          r.Coordinate ∈ configs.map (fun c => c.Coordinate) := by
        intro c hc r hr
        by_contra habs
        have hmem : GraphError.undefinedReference c.Coordinate r.Coordinate ∈
            configs.flatMap (undefinedReferences (configs.map (fun c => c.Coordinate))) := by
          rw [List.mem_flatMap]
          refine ⟨c, hc, ?_⟩
          unfold undefinedReferences
          rw [List.mem_filterMap]
          refine ⟨r, hr, ?_⟩
          have hcont : (configs.map (fun c => c.Coordinate)).contains r.Coordinate = false := by
            simpa using habs
          rw [hcont]
          rfl
        rw [hundef] at hmem
        exact List.not_mem_nil _ hmem
      have hearlier : ∀ c ∈ configs, ∀ r ∈ References c,
          waveIndex waves2 r.Coordinate < waveIndex waves2 c.Coordinate := by
        intro c hc r hr
        apply horder
        · rw [he]
          exact (mem_configEdges configs c.Coordinate r.Coordinate).mpr
            ⟨c, hc, rfl, htarget c hc r hr, r, hr, rfl⟩
        · exact htarget c hc r hr
        · exact List.mem_map_of_mem _ hc
      refine ⟨waves2, ?_, ?_⟩
      · intro c hc
        have hspec := deployWaves_spec env client configs waves2
          { results := [], context := [] }
          (hflat.nodup_iff.mpr hnodup)
          (fun x _ => rfl)
          (by
            intro x hx
            obtain ⟨cx, hcx, hcxx⟩ := List.mem_map.mp (hflat.mem_iff.mp hx)
            exact ⟨cx, by rw [← hcxx]; exact findConfig_of_mem configs hnodup cx hcx⟩)
          (by
            intro x hx cx hcx r hr
            obtain ⟨hcxmem, hcxx⟩ := findConfig_some configs x cx hcx
            right
            refine ⟨hflat.mem_iff.mpr (htarget cx hcxmem r hr), ?_⟩
            rw [← hcxx]
            exact hearlier cx hcxmem r hr)
          c.Coordinate (hflat.mem_iff.mpr (List.mem_map_of_mem _ hc)) c
          (findConfig_of_mem configs hnodup c hc)
        rw [← hok]
        exact hspec
      · intro c hc r hr
        obtain ⟨cr, hcr, hcrr⟩ := List.mem_map.mp (htarget c hc r hr)
        exact ⟨⟨cr, hcr, hcrr⟩, hearlier c hc r hr⟩

end deploy

namespace deploy

open config coordinate graph sorter

/-- Claim C18. In the result of a deployment: if Config `A` failed and Config `B` depends on
`A`, directly or transitively, then the outcome of `B` is `skipped`. A Config without the Skip
flag whose direct dependencies were all deployed is applied (its outcome is not `skipped`);
and when `A` is the only Config that failed and no Config has the Skip flag, every Config
that does not depend on `A` is deployed. -/
theorem C18_failure_skips_dependents_only (env : String → Option String) (client : Client)
    (configs : List Config) (st : State)
    (hok : deployConfigs env client configs = Except.ok st)
    (hnodup : (configs.map (fun c => c.Coordinate)).Nodup) :
    (∀ (a b : Coordinate) (err : GoError),
      resultOf st.results a = some (DeployResult.failed err) →
      Relation.TransGen (refersTo configs) b a →
      resultOf st.results b = some DeployResult.skipped) ∧
    (∀ c ∈ configs, c.Skip = false →
      (∀ r ∈ References c, isDeployed (resultOf st.results r.Coordinate) = true) →
      ∃ res, resultOf st.results c.Coordinate = some res ∧ res ≠ DeployResult.skipped) ∧
    (∀ a : Coordinate, (∀ c ∈ configs, c.Skip = false) →
      (∀ (x : Coordinate) (err : GoError),
        resultOf st.results x = some (DeployResult.failed err) → x = a) →
      ∀ c ∈ configs, c.Coordinate ≠ a →
        ¬ Relation.TransGen (refersTo configs) c.Coordinate a →
        ∃ id, resultOf st.results c.Coordinate = some (DeployResult.deployed id)) := by
  obtain ⟨waves, hlocal, hdeps⟩ := deployConfigs_spec env client configs st hok hnodup
  have hprop : ∀ a b, refersTo configs b a → isDeployed (resultOf st.results a) = false →
      resultOf st.results b = some DeployResult.skipped := by
    intro a b hba ha
    obtain ⟨cb, hcb, hcbb, _, r, hr, hra⟩ := hba
    obtain ⟨res, hres, hiff⟩ := hlocal cb hcb
    have hskip : res = DeployResult.skipped :=
      hiff.mpr (Or.inr ⟨r, hr, by rw [hra]; exact ha⟩)
    rw [← hcbb, hres, hskip]
  refine ⟨?_, ?_, ?_⟩
  · intro a b err ha hba
    have hnot : isDeployed (resultOf st.results a) = false := by rw [ha]; rfl
    refine Relation.TransGen.head_induction_on
      (P := fun x _ => resultOf st.results x = some DeployResult.skipped) hba ?_ ?_
    · intro x hxa
      exact hprop a x hxa hnot
    · intro x y hxy _ hy
      exact hprop y x hxy (by rw [hy]; rfl)
  · intro c hc hskip hall
    obtain ⟨res, hres, hiff⟩ := hlocal c hc
    refine ⟨res, hres, ?_⟩
    intro hs
    rcases hiff.mp hs with h | ⟨r, hr, hd⟩
    · rw [hskip] at h
      cases h
    · rw [hall r hr] at hd
      cases hd
  · intro a hnoskip honly
    have key : ∀ n, ∀ c ∈ configs, waveIndex waves c.Coordinate = n → c.Coordinate ≠ a →
        ¬ Relation.TransGen (refersTo configs) c.Coordinate a →
        ∃ id, resultOf st.results c.Coordinate = some (DeployResult.deployed id) := by
      intro n
      induction n using Nat.strong_induction_on with
      | _ n ih =>
        intro c hc hn hca hnot
        obtain ⟨res, hres, hiff⟩ := hlocal c hc
        have hall : ∀ r ∈ References c, isDeployed (resultOf st.results r.Coordinate) = true := by
          intro r hr
          obtain ⟨⟨cr, hcr, hcrr⟩, hlt⟩ := hdeps c hc r hr
          have hrefers : refersTo configs c.Coordinate r.Coordinate :=
            ⟨c, hc, rfl, List.mem_map.mpr ⟨cr, hcr, hcrr⟩, r, hr, rfl⟩
          have hra : cr.Coordinate ≠ a := by
            intro h
            apply hnot
            rw [← h, hcrr]
            exact Relation.TransGen.single hrefers
          have hrnot : ¬ Relation.TransGen (refersTo configs) cr.Coordinate a := by
            intro h
            apply hnot
            rw [hcrr] at h
            exact Relation.TransGen.head hrefers h
          obtain ⟨id, hid⟩ := ih (waveIndex waves cr.Coordinate)
            (by rw [hcrr, ← hn]; exact hlt) cr hcr rfl hra hrnot
          rw [← hcrr, hid]
          rfl
        cases res with
        | deployed id => exact ⟨id, hres⟩
        | failed err => exact absurd (honly c.Coordinate err hres) hca
        | skipped =>
          exfalso
          rcases hiff.mp rfl with h | ⟨r, hr, hd⟩
          · rw [hnoskip c hc] at h
            cases h
          · rw [hall r hr] at hd
            cases hd
    intro c hc hca hnot
    exact key _ c hc rfl hca hnot

/-- The witness of claim C18: the example of section 8 with a client that fails for `mz1`:
the outcome of `pol1`, which references `mz1`, is `skipped`. -/
theorem C18_failure_skips_dependents_only_witness :
    resultOf
      [(({ Project := "p", Type_ := "management-zone", ConfigId := "mz1" } : Coordinate),
          DeployResult.failed { msg := "remote call failed" }),
        (({ Project := "p", Type_ := "policy", ConfigId := "pol1" } : Coordinate),
          DeployResult.skipped)]
      { Project := "p", Type_ := "policy", ConfigId := "pol1" }
      = some DeployResult.skipped :=
  (C18_failure_skips_dependents_only (fun _ => none) failingForMz1 policyExample
    { results :=
        [({ Project := "p", Type_ := "management-zone", ConfigId := "mz1" },
            DeployResult.failed { msg := "remote call failed" }),
          ({ Project := "p", Type_ := "policy", ConfigId := "pol1" }, DeployResult.skipped)]
      context := [] }
    rfl (by decide)).1
    { Project := "p", Type_ := "management-zone", ConfigId := "mz1" }
    { Project := "p", Type_ := "policy", ConfigId := "pol1" }
    { msg := "remote call failed" } rfl
    (Relation.TransGen.single
      ⟨configWithReferences "p" "policy" "pol1"
          [{ Project := "p", Type_ := "management-zone", ConfigId := "mz1" }],
        by simp [policyExample], rfl, by decide,
        { Coordinate := { Project := "p", Type_ := "management-zone", ConfigId := "mz1" }
          Property := "id" },
        by simp [References, configWithReferences, parameterReferences], rfl⟩)

end deploy

/-! ## `convertAllObjects`, object by object -/

namespace settings

open config coordinate dtclient

theorem discardedAsUnmodifiable_eq (env : Env) (o : DownloadSettingsObject) :
    (shouldFilterUnmodifiableSettings env
        && (match o.ModificationInfo with
            | none => false
            | some mi => !mi.Modifiable && mi.ModifiablePaths.length == 0))
      = discardedAsUnmodifiable env o := by
  unfold discardedAsUnmodifiable shouldFilterUnmodifiableSettings shouldFilterSettings
  cases o.ModificationInfo with
  | none => rfl
  | some mi =>
    have h : (mi.ModifiablePaths.length == 0) = mi.ModifiablePaths.isEmpty := by
      cases mi.ModifiablePaths <;> rfl
    simp only [h]

theorem discardedAsUnmodifiable_iff (env : Env) (o : DownloadSettingsObject) :
    discardedAsUnmodifiable env o = true ↔
      (env.DownloadFilter = true ∧ env.DownloadFilterSettings = true
        ∧ env.DownloadFilterSettingsUnmodifiable = true)
      ∧ ∃ mi, o.ModificationInfo = some mi ∧ mi.Modifiable = false
          ∧ mi.ModifiablePaths = [] := by
  unfold discardedAsUnmodifiable
  cases o.ModificationInfo with
  | none => simp
  | some mi => simp [and_assoc]

theorem convertLoop_cons (d : Downloader) (env : Env) (projectName : String)
    (result : List Config) (o : DownloadSettingsObject) (rest : List DownloadSettingsObject) :
    convertLoop d env projectName result (o :: rest) =
      if discardedAsUnmodifiable env o then convertLoop d env projectName result rest
      else
        match env.Unmarshal o.Value with
        | none => result
        | some content =>
          if shouldFilterSettings env && (d.filters o.SchemaId content).1 then
            convertLoop d env projectName result rest
          else convertLoop d env projectName (result ++ [newConfig env projectName o]) rest := by
  rw [convertLoop, discardedAsUnmodifiable_eq]

theorem unmodifiableSkips_cons (env : Env) (o : DownloadSettingsObject)
    (rest : List DownloadSettingsObject) :
    unmodifiableSkips env (o :: rest) =
      if discardedAsUnmodifiable env o then unmodifiableSkips env rest + 1
      else
        match env.Unmarshal o.Value with
        | none => 0
        | some _ => unmodifiableSkips env rest := by
  rw [unmodifiableSkips, discardedAsUnmodifiable_eq]

theorem filterSkips_cons (d : Downloader) (env : Env) (o : DownloadSettingsObject)
    (rest : List DownloadSettingsObject) :
    filterSkips d env (o :: rest) =
      if discardedAsUnmodifiable env o then filterSkips d env rest
      else
        match env.Unmarshal o.Value with
        | none => 0
        | some content =>
          if shouldFilterSettings env && (d.filters o.SchemaId content).1 then
            filterSkips d env rest + 1
          else filterSkips d env rest := by
  rw [filterSkips, discardedAsUnmodifiable_eq]

theorem droppedAtError_cons (env : Env) (o : DownloadSettingsObject)
    (rest : List DownloadSettingsObject) :
    droppedAtError env (o :: rest) =
      if discardedAsUnmodifiable env o then droppedAtError env rest
      else
        match env.Unmarshal o.Value with
        | none => (o :: rest).length
        | some _ => droppedAtError env rest := by
  rw [droppedAtError, discardedAsUnmodifiable_eq]

theorem survivors_cons_unmodifiable (d : Downloader) (env : Env) (o : DownloadSettingsObject)
    (rest : List DownloadSettingsObject) (hu : discardedAsUnmodifiable env o = true) :
    survivors d env (o :: rest) = survivors d env rest := by
  simp [survivors, beforeFirstFailure, List.takeWhile_cons, hu]

theorem survivors_cons_failure (d : Downloader) (env : Env) (o : DownloadSettingsObject)
    (rest : List DownloadSettingsObject) (hu : discardedAsUnmodifiable env o = false)
    (hm : env.Unmarshal o.Value = none) :
    survivors d env (o :: rest) = [] := by
  simp [survivors, beforeFirstFailure, List.takeWhile_cons, hu, failsToUnmarshal, hm]

theorem survivors_cons_filtered (d : Downloader) (env : Env) (o : DownloadSettingsObject)
    (rest : List DownloadSettingsObject) (content : JsonObject)
    (hu : discardedAsUnmodifiable env o = false) (hm : env.Unmarshal o.Value = some content)
    (hf : (shouldFilterSettings env && (d.filters o.SchemaId content).1) = true) :
    survivors d env (o :: rest) = survivors d env rest := by
  have hf2 : discardedByFilter d env o = true := by simp [discardedByFilter, hm, hf]
  simp [survivors, beforeFirstFailure, List.takeWhile_cons, hu, failsToUnmarshal, hm, hf2]

theorem survivors_cons_kept (d : Downloader) (env : Env) (o : DownloadSettingsObject)
    (rest : List DownloadSettingsObject) (content : JsonObject)
    (hu : discardedAsUnmodifiable env o = false) (hm : env.Unmarshal o.Value = some content)
    (hf : ¬ (shouldFilterSettings env && (d.filters o.SchemaId content).1) = true) :
    survivors d env (o :: rest) = o :: survivors d env rest := by
  have hf2 : discardedByFilter d env o = false := by
    simpa [discardedByFilter, hm] using hf
  simp [survivors, beforeFirstFailure, List.takeWhile_cons, hu, failsToUnmarshal, hm, hf2]

theorem convertLoop_eq_survivors (d : Downloader) (env : Env) (projectName : String)
    (objects : List DownloadSettingsObject) :
    ∀ result : List Config,
      convertLoop d env projectName result objects
        = result ++ (survivors d env objects).map (newConfig env projectName) := by
  induction objects with
  | nil => intro result; simp [convertLoop, survivors, beforeFirstFailure]
  | cons o rest ih =>
    intro result
    rw [convertLoop_cons]
    by_cases hu : discardedAsUnmodifiable env o = true
    · rw [if_pos hu, ih, survivors_cons_unmodifiable d env o rest hu]
    · rw [if_neg hu]
      have hu2 : discardedAsUnmodifiable env o = false := by simpa using hu
      cases hm : env.Unmarshal o.Value with
      | none => simp [survivors_cons_failure d env o rest hu2 hm]
      | some content =>
        by_cases hf : (shouldFilterSettings env && (d.filters o.SchemaId content).1) = true
        · simp only [if_pos hf]
          rw [ih, survivors_cons_filtered d env o rest content hu2 hm hf]
        · simp only [if_neg hf]
          rw [ih, survivors_cons_kept d env o rest content hu2 hm hf]
          simp

theorem convertAllObjects_eq_survivors (d : Downloader) (env : Env)
    (objects : List DownloadSettingsObject) (projectName : String) :
    convertAllObjects d env objects projectName
      = (survivors d env objects).map (newConfig env projectName) := by
  simp [convertAllObjects, convertLoop_eq_survivors]

theorem survivors_sublist (d : Downloader) (env : Env)
    (objects : List DownloadSettingsObject) : (survivors d env objects).Sublist objects :=
  (List.filter_sublist _).trans (List.takeWhile_sublist _)

theorem loop_accounts_for_every_object (d : Downloader) (env : Env) (projectName : String)
    (objects : List DownloadSettingsObject) :
    objects.length =
      (convertAllObjects d env objects projectName).length + unmodifiableSkips env objects
        + filterSkips d env objects + droppedAtError env objects := by
  rw [convertAllObjects_eq_survivors, List.length_map]
  induction objects with
  | nil => simp [survivors, beforeFirstFailure, unmodifiableSkips, filterSkips, droppedAtError]
  | cons o rest ih =>
    rw [unmodifiableSkips_cons, filterSkips_cons, droppedAtError_cons]
    by_cases hu : discardedAsUnmodifiable env o = true
    · rw [if_pos hu, if_pos hu, if_pos hu, survivors_cons_unmodifiable d env o rest hu,
        List.length_cons]
      omega
    · rw [if_neg hu, if_neg hu, if_neg hu]
      have hu2 : discardedAsUnmodifiable env o = false := by simpa using hu
      cases hm : env.Unmarshal o.Value with
      | none => simp [survivors_cons_failure d env o rest hu2 hm]
      | some content =>
        by_cases hf : (shouldFilterSettings env && (d.filters o.SchemaId content).1) = true
        · simp only [if_pos hf]
          rw [survivors_cons_filtered d env o rest content hu2 hm hf, List.length_cons]
          omega
        · simp only [if_neg hf]
          rw [survivors_cons_kept d env o rest content hu2 hm hf, List.length_cons,
            List.length_cons]
          omega

end settings

/-! ## Claims C21, C22: the unmodifiable rule and the logged number of skipped objects -/

namespace settings

open config coordinate dtclient

theorem unmodifiableSkips_of_rule_off (env : Env)
    (hoff : ∀ o, discardedAsUnmodifiable env o = false)
    (objects : List DownloadSettingsObject) : unmodifiableSkips env objects = 0 := by
  induction objects with
  | nil => rfl
  | cons o rest ih =>
    rw [unmodifiableSkips_cons, hoff o]
    cases env.Unmarshal o.Value <;> simp [ih]

/-- Claim C21. The loop of `convertAllObjects` leaves an object `o` at the `continue` of the
unmodifiable rule exactly when the three flags are on, `o.ModificationInfo` is present, its
`Modifiable` is false and its `ModifiablePaths` is empty. In that case `o` yields no config and
the loop goes on with the next object, whatever the `Value` of `o` and the filters are.
Otherwise this rule does not discard `o`: if the `Value` of `o` unmarshals and the filter of its
schema does not discard it, the config of `o` is appended. When one of the three flags is off,
the rule discards no object of any list. -/
theorem C21_unmodifiable_rule (d : Downloader) (env : Env) (projectName : String)
    (o : DownloadSettingsObject) :
    (unmodifiableSkips env [o] = 1 ↔
      (env.DownloadFilter = true ∧ env.DownloadFilterSettings = true
        ∧ env.DownloadFilterSettingsUnmodifiable = true)
      ∧ ∃ mi, o.ModificationInfo = some mi ∧ mi.Modifiable = false
          ∧ mi.ModifiablePaths = []) ∧
    (((env.DownloadFilter = true ∧ env.DownloadFilterSettings = true
        ∧ env.DownloadFilterSettingsUnmodifiable = true)
      ∧ ∃ mi, o.ModificationInfo = some mi ∧ mi.Modifiable = false
          ∧ mi.ModifiablePaths = []) →
      ∀ (result : List Config) (rest : List DownloadSettingsObject),
        convertLoop d env projectName result (o :: rest)
          = convertLoop d env projectName result rest
        ∧ unmodifiableSkips env (o :: rest) = unmodifiableSkips env rest + 1) ∧
    (¬ ((env.DownloadFilter = true ∧ env.DownloadFilterSettings = true
        ∧ env.DownloadFilterSettingsUnmodifiable = true)
      ∧ ∃ mi, o.ModificationInfo = some mi ∧ mi.Modifiable = false
          ∧ mi.ModifiablePaths = []) →
      unmodifiableSkips env [o] = 0 ∧
      ∀ content, env.Unmarshal o.Value = some content →
        (shouldFilterSettings env && (d.filters o.SchemaId content).1) = false →
        ∀ (result : List Config) (rest : List DownloadSettingsObject),
          convertLoop d env projectName result (o :: rest)
            = convertLoop d env projectName (result ++ [newConfig env projectName o]) rest) ∧
    (¬ (env.DownloadFilter = true ∧ env.DownloadFilterSettings = true
        ∧ env.DownloadFilterSettingsUnmodifiable = true) →
      ∀ objects : List DownloadSettingsObject, unmodifiableSkips env objects = 0) := by
  have hone : unmodifiableSkips env [o] = if discardedAsUnmodifiable env o then 1 else 0 := by
    rw [unmodifiableSkips_cons]
    by_cases hu : discardedAsUnmodifiable env o = true
    · simp [hu, unmodifiableSkips]
    · simp only [if_neg hu]
      cases env.Unmarshal o.Value <;> simp [unmodifiableSkips]
  refine ⟨?_, ?_, ?_, ?_⟩
  · rw [← discardedAsUnmodifiable_iff, hone]
    by_cases hu : discardedAsUnmodifiable env o = true <;> simp [hu]
  · intro h result rest
    have hu := (discardedAsUnmodifiable_iff env o).mpr h
    rw [convertLoop_cons, unmodifiableSkips_cons, if_pos hu, if_pos hu]
    exact ⟨rfl, rfl⟩
  · intro h
    have hu : ¬ discardedAsUnmodifiable env o = true :=
      fun hu => h ((discardedAsUnmodifiable_iff env o).mp hu)
    refine ⟨by rw [hone, if_neg hu], ?_⟩
    intro content hm hf result rest
    rw [convertLoop_cons, if_neg hu, hm]
    simp only [hf]
    rfl
  · intro h objects
    refine unmodifiableSkips_of_rule_off env (fun x => ?_) objects
    cases hx : discardedAsUnmodifiable env x with
    | false => rfl
    | true => exact absurd ((discardedAsUnmodifiable_iff env x).mp hx).1 h

theorem C21_unmodifiable_rule_witness :
    unmodifiableSkips testEnv [settingsObject "oid1" "{}" (some unmodifiableInfo)] = 1
    ∧ convertAllObjects (testDownloader someSchemaClient) testEnv
        [settingsObject "oid1" "{}" (some unmodifiableInfo), settingsObject "oid2" "{}" none]
        "project"
      = convertAllObjects (testDownloader someSchemaClient) testEnv
        [settingsObject "oid2" "{}" none] "project"
    ∧ unmodifiableSkips testEnv
        [settingsObject "oid3" "{}" (some { Modifiable := true, ModifiablePaths := [] })] = 0 :=
  ⟨(C21_unmodifiable_rule (testDownloader someSchemaClient) testEnv "project"
      (settingsObject "oid1" "{}" (some unmodifiableInfo))).1.mpr
      ⟨⟨rfl, rfl, rfl⟩, unmodifiableInfo, rfl, rfl, rfl⟩,
    ((C21_unmodifiable_rule (testDownloader someSchemaClient) testEnv "project"
      (settingsObject "oid1" "{}" (some unmodifiableInfo))).2.1
      ⟨⟨rfl, rfl, rfl⟩, unmodifiableInfo, rfl, rfl, rfl⟩ []
      [settingsObject "oid2" "{}" none]).1,
    ((C21_unmodifiable_rule (testDownloader someSchemaClient) testEnv "project"
      (settingsObject "oid3" "{}" (some { Modifiable := true, ModifiablePaths := [] }))).2.2.1
      (by
        rintro ⟨-, mi, hmi, hmod, -⟩
        have hmi2 : mi = { Modifiable := true, ModifiablePaths := [] } :=
          (Option.some.inj hmi).symm
        rw [hmi2] at hmod
        exact Bool.noConfusion hmod)).1⟩

/-- Claim C22. The number that `download` logs as the unmodifiable settings it skipped,
`len(objects)-len(cfgs)`, is not the number of objects the unmodifiable rule skipped. With the
flags on and a filter that discards the one listed object, which is modifiable, no config is
produced and 1 is logged, while the unmodifiable rule skipped no object and the filter skipped
one. With a first object whose value does not unmarshal, 2 is logged for two listed objects,
while no rule skipped any object and both were dropped at the error. -/
theorem C22_logged_number_counts_every_lost_object :
    ((convertAllObjects (discardingDownloader someSchemaClient) testEnv
        [settingsObject "oid1" "{}" none] "project").length
        ≠ [settingsObject "oid1" "{}" none].length
      ∧ skippedLogged (discardingDownloader someSchemaClient) testEnv
          [settingsObject "oid1" "{}" none] "project" = 1
      ∧ unmodifiableSkips testEnv [settingsObject "oid1" "{}" none] = 0
      ∧ filterSkips (discardingDownloader someSchemaClient) testEnv
          [settingsObject "oid1" "{}" none] = 1)
    ∧ ((convertAllObjects (testDownloader someSchemaClient) testEnv
        [settingsObject "oid1" "[]" none, settingsObject "oid2" "{}" none] "project").length
        ≠ [settingsObject "oid1" "[]" none, settingsObject "oid2" "{}" none].length
      ∧ skippedLogged (testDownloader someSchemaClient) testEnv
          [settingsObject "oid1" "[]" none, settingsObject "oid2" "{}" none] "project" = 2
      ∧ unmodifiableSkips testEnv
          [settingsObject "oid1" "[]" none, settingsObject "oid2" "{}" none] = 0
      ∧ droppedAtError testEnv
          [settingsObject "oid1" "[]" none, settingsObject "oid2" "{}" none] = 2) := by
  refine ⟨⟨?_, ?_, ?_, ?_⟩, ⟨?_, ?_, ?_, ?_⟩⟩ <;> decide

end settings

/-! ## Claims C24, C25: what `convertAllObjects` returns -/

namespace settings

open config coordinate dtclient

theorem beforeFirstFailure_append (env : Env) (pre post : List DownloadSettingsObject)
    (o : DownloadSettingsObject)
    (hpre : ∀ x ∈ pre, discardedAsUnmodifiable env x = true ∨ failsToUnmarshal env x = false)
    (hu : discardedAsUnmodifiable env o = false) (hm : failsToUnmarshal env o = true) :
    beforeFirstFailure env (pre ++ o :: post) = pre := by
  induction pre with
  | nil => simp [beforeFirstFailure, List.takeWhile_cons, hu, hm]
  | cons x rest ih =>
    have hx : (discardedAsUnmodifiable env x || !failsToUnmarshal env x) = true := by
      rcases hpre x (List.mem_cons_self _ _) with h | h <;> simp [h]
    have ih2 := ih (fun y hy => hpre y (List.mem_cons_of_mem _ hy))
    unfold beforeFirstFailure at ih2 ⊢
    rw [List.cons_append, List.takeWhile_cons, if_pos hx, ih2]

theorem beforeFirstFailure_self (env : Env) (objects : List DownloadSettingsObject)
    (h : ∀ x ∈ objects, discardedAsUnmodifiable env x = true ∨ failsToUnmarshal env x = false) :
    beforeFirstFailure env objects = objects := by
  unfold beforeFirstFailure
  rw [List.takeWhile_eq_self_iff]
  intro x hx
  rcases h x hx with h2 | h2 <;> simp [h2]

/-- Claim C24. The result of `convertAllObjects` is the conversion, in input order, of the
objects that precede the first object not discarded as unmodifiable whose `Value` fails to
unmarshal, less the objects that the unmodifiable rule or the filter of their schema discards.
When `o` is that first object, the result for `pre ++ o :: post` is the result for `pre`
alone, whatever `post` holds. The `OriginObjectId`s of the result are a subsequence of the
`ObjectId`s of the input. -/
theorem C24_convertAllObjects_stops_at_first_failure (d : Downloader) (env : Env)
    (objects : List DownloadSettingsObject) (projectName : String) :
    convertAllObjects d env objects projectName
      = ((beforeFirstFailure env objects).filter
          (fun o => !discardedAsUnmodifiable env o && !discardedByFilter d env o)).map
          (newConfig env projectName)
    ∧ (∀ (pre post : List DownloadSettingsObject) (o : DownloadSettingsObject),
        objects = pre ++ o :: post →
        (∀ x ∈ pre, discardedAsUnmodifiable env x = true ∨ failsToUnmarshal env x = false) →
        discardedAsUnmodifiable env o = false → failsToUnmarshal env o = true →
        convertAllObjects d env objects projectName
          = convertAllObjects d env pre projectName)
    ∧ ((convertAllObjects d env objects projectName).map (fun c => c.OriginObjectId)).Sublist
        (objects.map (fun o => o.ObjectId)) := by
  refine ⟨convertAllObjects_eq_survivors d env objects projectName, ?_, ?_⟩
  · intro pre post o hobj hpre hu hm
    rw [convertAllObjects_eq_survivors, convertAllObjects_eq_survivors, hobj]
    unfold survivors
    rw [beforeFirstFailure_append env pre post o hpre hu hm, beforeFirstFailure_self env pre hpre]
  · rw [convertAllObjects_eq_survivors, List.map_map]
    exact (survivors_sublist d env objects).map (fun o => o.ObjectId)

theorem C24_convertAllObjects_stops_at_first_failure_witness :
    convertAllObjects (testDownloader someSchemaClient) testEnv
        [settingsObject "oid1" "{}" none, settingsObject "oid2" "[]" none,
          settingsObject "oid3" "{}" none] "project"
      = convertAllObjects (testDownloader someSchemaClient) testEnv
          [settingsObject "oid1" "{}" none] "project"
    ∧ (convertAllObjects (testDownloader someSchemaClient) testEnv
        [settingsObject "oid1" "{}" none, settingsObject "oid2" "[]" none,
          settingsObject "oid3" "{}" none] "project").map (fun c => c.OriginObjectId)
      = ["oid1"] :=
  ⟨(C24_convertAllObjects_stops_at_first_failure (testDownloader someSchemaClient) testEnv
      [settingsObject "oid1" "{}" none, settingsObject "oid2" "[]" none,
        settingsObject "oid3" "{}" none] "project").2.1
      [settingsObject "oid1" "{}" none] [settingsObject "oid3" "{}" none]
      (settingsObject "oid2" "[]" none) rfl (by decide) (by decide) (by decide),
    by decide⟩

theorem survivors_of_filter_off (d : Downloader) (env : Env)
    (objects : List DownloadSettingsObject) (hoff : shouldFilterSettings env = false)
    (hvalid : ∀ o ∈ objects, ∃ content, env.Unmarshal o.Value = some content) :
    survivors d env objects = objects := by
  have hflags : (env.DownloadFilter && env.DownloadFilterSettings) = false := hoff
  have hu : ∀ o, discardedAsUnmodifiable env o = false := by
    intro o
    simp [discardedAsUnmodifiable, hflags]
  have hf : ∀ o, discardedByFilter d env o = false := by
    intro o
    simp [discardedByFilter, hoff]
  have hm : ∀ o ∈ objects, failsToUnmarshal env o = false := by
    intro o ho
    obtain ⟨content, hc⟩ := hvalid o ho
    simp [failsToUnmarshal, hc]
  unfold survivors
  rw [beforeFirstFailure_self env objects (fun x hx => Or.inr (hm x hx)), List.filter_eq_self]
  intro o _
  simp [hu o, hf o]

/-- Claim C25. When `shouldFilterSettings` is false and the `Value` of every object unmarshals,
`convertAllObjects` returns the config of every input object, one per object and in input
order, for every filter of the downloader. -/
theorem C25_convertAllObjects_all_kept_when_filter_off (d : Downloader) (env : Env)
    (objects : List DownloadSettingsObject) (projectName : String)
    (hoff : shouldFilterSettings env = false)
    (hvalid : ∀ o ∈ objects, ∃ content, env.Unmarshal o.Value = some content) :
    convertAllObjects d env objects projectName = objects.map (newConfig env projectName)
    ∧ (convertAllObjects d env objects projectName).length = objects.length := by
  rw [convertAllObjects_eq_survivors, survivors_of_filter_off d env objects hoff hvalid]
  exact ⟨rfl, List.length_map _ _⟩

end settings

/-! ## Claims C26, C27: validation of the requested schemas -/

namespace settings

open config coordinate dtclient

theorem C25_convertAllObjects_all_kept_when_filter_off_witness :
    (convertAllObjects (discardingDownloader someSchemaClient) filterOffEnv
      [settingsObject "oid1" "{}" (some unmodifiableInfo), settingsObject "oid2" "{}" none]
      "project").length = 2 :=
  (C25_convertAllObjects_all_kept_when_filter_off (discardingDownloader someSchemaClient)
    filterOffEnv
    [settingsObject "oid1" "{}" (some unmodifiableInfo), settingsObject "oid2" "{}" none]
    "project" rfl
    (by
      intro o ho
      simp only [List.mem_cons, List.mem_singleton, List.not_mem_nil, or_false] at ho
      rcases ho with rfl | rfl <;> exact ⟨[], rfl⟩)).2

theorem unknownAmong_eq_filter (schemaList : List Schema) (schemas : List String) :
    unknownAmong schemaList schemas
      = schemas.filter (fun s => decide (s ∉ schemaList.map (fun x => x.SchemaId))) := by
  unfold unknownAmong
  apply List.filter_congr
  intro s _
  have h1 : (schemaList.map (fun x => x.SchemaId)).contains s = true
      ↔ s ∈ schemaList.map (fun x => x.SchemaId) := by simp
  by_cases h : s ∈ schemaList.map (fun x => x.SchemaId)
  · rw [h1.mpr h, decide_eq_false (not_not.mpr h)]
    rfl
  · have h2 : (schemaList.map (fun x => x.SchemaId)).contains s = false := by
      cases hc : (schemaList.map (fun x => x.SchemaId)).contains s with
      | false => rfl
      | true => exact absurd (h1.mp hc) h
    rw [h2, decide_eq_true h]
    rfl

/-- Claim C26. When `ListSchemas` succeeds, the `unknownSchemas` that `validateSpecificSchemas`
returns are the requested schema ids that are not among the `SchemaId`s of the listed schemas,
in request order and as often as requested, and `valid` is true exactly when that list is
empty; a non-empty request costs one `ListSchemas` call. For an empty request and any client
the function returns `(true, nil)` and calls nothing. -/
theorem C26_validateSpecificSchemas_unknown (c : SettingsClient) (schemas : List String)
    (schemaList : List Schema) (hlist : c.ListSchemas = .ok schemaList) :
    (validateSpecificSchemas c schemas).1.2
      = schemas.filter (fun s => decide (s ∉ schemaList.map (fun x => x.SchemaId)))
    ∧ ((validateSpecificSchemas c schemas).1.1 = true
        ↔ (validateSpecificSchemas c schemas).1.2 = [])
    ∧ (schemas ≠ [] → (validateSpecificSchemas c schemas).2 = [ClientCall.ListSchemas])
    ∧ (∀ c2 : SettingsClient, validateSpecificSchemas c2 [] = ((true, []), [])) := by
  have hempty : ∀ c2 : SettingsClient, validateSpecificSchemas c2 [] = ((true, []), []) :=
    fun c2 => by simp [validateSpecificSchemas]
  by_cases hne : schemas = []
  · subst hne
    rw [hempty c]
    exact ⟨by simp, by simp, fun h => absurd rfl h, hempty⟩
  · rw [validateSpecificSchemas_ok c schemas schemaList hne hlist, unknownAmong_eq_filter]
    refine ⟨rfl, ?_, fun _ => rfl, hempty⟩
    simp only [beq_iff_eq, List.length_eq_zero]

theorem C26_validateSpecificSchemas_unknown_witness :
    (validateSpecificSchemas someSchemaClient
      ["builtin:x", "builtin:some.schema", "builtin:y", "builtin:x"]).1.2
      = ["builtin:x", "builtin:y", "builtin:x"] :=
  (C26_validateSpecificSchemas_unknown someSchemaClient
    ["builtin:x", "builtin:some.schema", "builtin:y", "builtin:x"]
    [{ SchemaId := "builtin:some.schema" }] rfl).1.trans (by decide)

/-- Claim C27. When `ListSchemas` fails and schemas are requested, `validateSpecificSchemas`
returns `false` and all requested schema ids, and `Download` returns a nil result and the
error of `downloadSpecific` over all requested ids, which does not depend on the listing
error: its message contains "not known" and every requested schema id. The only client call
is the `ListSchemas` call, so nothing is downloaded. -/
theorem C27_download_specific_listSchemas_fails (d : Downloader) (env : Env)
    (projectName : String) (schemaIDs : List SettingsType) (e : GoError)
    (hne : schemaIDs ≠ []) (hfail : d.client.ListSchemas = .error e) :
    validateSpecificSchemas d.client (schemaIDs.map (fun s => s.SchemaId))
      = ((false, schemaIDs.map (fun s => s.SchemaId)), [ClientCall.ListSchemas])
    ∧ Download d env projectName schemaIDs
      = { result := none,
          err := some (unknownSchemasError (schemaIDs.map (fun s => s.SchemaId))),
          calls := [ClientCall.ListSchemas] }
    ∧ StrContains (unknownSchemasError (schemaIDs.map (fun s => s.SchemaId))).msg "not known"
    ∧ (∀ s ∈ schemaIDs,
        StrContains (unknownSchemasError (schemaIDs.map (fun s => s.SchemaId))).msg
          s.SchemaId) := by
  have hlen : ¬ schemaIDs.length = 0 := fun h => hne (List.length_eq_zero.mp h)
  have hlen2 : ¬ (schemaIDs.map (fun s => s.SchemaId)).length = 0 := by
    rw [List.length_map]
    exact hlen
  have hv : validateSpecificSchemas d.client (schemaIDs.map (fun s => s.SchemaId))
      = ((false, schemaIDs.map (fun s => s.SchemaId)), [ClientCall.ListSchemas]) := by
    simp only [validateSpecificSchemas, hlen2, if_false, hfail]
  refine ⟨hv, ?_, unknownSchemasError_msg_not_known _, ?_⟩
  · simp only [Download, hlen, if_false, downloadSpecific, hv]
    rfl
  · intro s hs
    have hmem : s.SchemaId ∈ schemaIDs.map (fun s => s.SchemaId) :=
      List.mem_map_of_mem (fun s => s.SchemaId) hs
    exact strContains_append_right _
      (strContains_append_left _ (intercalate_contains "," _ _ hmem))

theorem C27_download_specific_listSchemas_fails_witness :
    Download (testDownloader failingSchemasClient) testEnv "project"
        [{ SchemaId := "builtin:a", SchemaVersion := "" },
          { SchemaId := "builtin:b", SchemaVersion := "" }]
      = { result := none,
          err := some { msg := "requested settings-schema(s) 'builtin:a,builtin:b' are not known" },
          calls := [ClientCall.ListSchemas] } :=
  (C27_download_specific_listSchemas_fails (testDownloader failingSchemasClient) testEnv
    "project"
    [{ SchemaId := "builtin:a", SchemaVersion := "" },
      { SchemaId := "builtin:b", SchemaVersion := "" }]
    { msg := "listing schemas failed" } (by simp) rfl).2.1.trans (by decide)

end settings

/-! ## Claim C23: the result map of `download` -/

namespace settings

open config coordinate dtclient

theorem download_fold_get? (d : Downloader) (env : Env) (projectName : String)
    (schemas : List String) :
    ∀ (acc : GoMap (List Config) × List ClientCall) (s : String),
      GoMap.get? (schemas.foldl
        (fun acc s =>
          match d.client.ListSettings s with
          | .error _ => (acc.1, acc.2 ++ [ClientCall.ListSettings s])
          | .ok objects =>
            (GoMap.set acc.1 s (convertAllObjects d env objects projectName),
              acc.2 ++ [ClientCall.ListSettings s]))
        acc).1 s
      = if s ∈ schemas then
          (match d.client.ListSettings s with
            | .error _ => GoMap.get? acc.1 s
            | .ok objects => some (convertAllObjects d env objects projectName))
        else GoMap.get? acc.1 s := by
  induction schemas with
  | nil => intro acc s; simp
  | cons t rest ih =>
    intro acc s
    rw [List.foldl_cons, ih]
    by_cases hts : t = s
    · subst hts
      cases hl : d.client.ListSettings t with
      | error e => simp
      | ok objects => simp [GoMap.get?_set_self]
    · have hst : ¬ s = t := fun h => hts h.symm
      cases hl : d.client.ListSettings t with
      | error e => simp [hst]
      | ok objects => simp [hst, GoMap.get?_set_ne _ _ _ _ hts]

theorem download_get? (d : Downloader) (env : Env) (schemas : List String)
    (projectName : String) (s : String) :
    GoMap.get? (download d env schemas projectName).1 s
      = if s ∈ schemas then
          (match d.client.ListSettings s with
            | .error _ => none
            | .ok objects => some (convertAllObjects d env objects projectName))
        else none := by
  unfold download
  rw [download_fold_get?]
  rfl

theorem download_fold_keys_nodup (d : Downloader) (env : Env) (projectName : String)
    (schemas : List String) :
    ∀ (acc : GoMap (List Config) × List ClientCall), (GoMap.keys acc.1).Nodup →
      (GoMap.keys (schemas.foldl
        (fun acc s =>
          match d.client.ListSettings s with
          | .error _ => (acc.1, acc.2 ++ [ClientCall.ListSettings s])
          | .ok objects =>
            (GoMap.set acc.1 s (convertAllObjects d env objects projectName),
              acc.2 ++ [ClientCall.ListSettings s]))
        acc).1).Nodup := by
  induction schemas with
  | nil => intro acc h; simpa using h
  | cons t rest ih =>
    intro acc h
    rw [List.foldl_cons]
    apply ih
    cases d.client.ListSettings t with
    | error e => exact h
    | ok objects => exact GoMap.keys_set_nodup _ _ _ h

theorem download_fold_without_failed (d : Downloader) (env : Env) (projectName : String)
    (s : String) (e : GoError) (hfail : d.client.ListSettings s = .error e)
    (schemas : List String) :
    ∀ (acc acc2 : GoMap (List Config) × List ClientCall), acc.1 = acc2.1 →
      (schemas.foldl
        (fun acc s =>
          match d.client.ListSettings s with
          | .error _ => (acc.1, acc.2 ++ [ClientCall.ListSettings s])
          | .ok objects =>
            (GoMap.set acc.1 s (convertAllObjects d env objects projectName),
              acc.2 ++ [ClientCall.ListSettings s]))
        acc).1
      = ((schemas.filter (fun t => decide (t ≠ s))).foldl
        (fun acc s =>
          match d.client.ListSettings s with
          | .error _ => (acc.1, acc.2 ++ [ClientCall.ListSettings s])
          | .ok objects =>
            (GoMap.set acc.1 s (convertAllObjects d env objects projectName),
              acc.2 ++ [ClientCall.ListSettings s]))
        acc2).1 := by
  induction schemas with
  | nil => intro acc acc2 h; simpa using h
  | cons t rest ih =>
    intro acc acc2 h
    rw [List.foldl_cons]
    by_cases hts : t = s
    · subst hts
      rw [List.filter_cons_of_neg (by simp)]
      apply ih
      rw [hfail]
      exact h
    · rw [List.filter_cons_of_pos (by simpa using hts), List.foldl_cons]
      apply ih
      cases d.client.ListSettings t with
      | error e2 => exact h
      | ok objects =>
        show GoMap.set acc.1 t _ = GoMap.set acc2.1 t _
        rw [h]

/-- Claim C23. The map that `download` returns (there is no error to return) has as keys,
each once, the requested schema ids whose `ListSettings` call succeeded. Such a schema is
mapped to `convertAllObjects` of its listed objects, to a present empty list when nothing is
listed. A schema whose listing failed has no entry, and the map is the one `download` returns
when that schema is left out of the request. -/
theorem C23_download_result_map (d : Downloader) (env : Env) (schemas : List String)
    (projectName : String) :
    (∀ s, s ∈ GoMap.keys (download d env schemas projectName).1
        ↔ s ∈ schemas ∧ ∃ objects, d.client.ListSettings s = .ok objects)
    ∧ (GoMap.keys (download d env schemas projectName).1).Nodup
    ∧ (∀ s objects, s ∈ schemas → d.client.ListSettings s = .ok objects →
        GoMap.get? (download d env schemas projectName).1 s
          = some (convertAllObjects d env objects projectName))
    ∧ (∀ s, s ∈ schemas → d.client.ListSettings s = .ok [] →
        GoMap.get? (download d env schemas projectName).1 s = some [])
    ∧ (∀ s e, d.client.ListSettings s = .error e →
        GoMap.get? (download d env schemas projectName).1 s = none
        ∧ (download d env schemas projectName).1
          = (download d env (schemas.filter (fun t => decide (t ≠ s))) projectName).1) := by
  have hget : ∀ s objects, s ∈ schemas → d.client.ListSettings s = .ok objects →
      GoMap.get? (download d env schemas projectName).1 s
        = some (convertAllObjects d env objects projectName) := by
    intro s objects hs hl
    rw [download_get?, if_pos hs, hl]
  refine ⟨?_, ?_, hget, ?_, ?_⟩
  · intro s
    constructor
    · intro hk
      have hne : GoMap.get? (download d env schemas projectName).1 s ≠ none :=
        fun h => (GoMap.get?_eq_none_iff _ _).mp h hk
      rw [download_get?] at hne
      by_cases hs : s ∈ schemas
      · rw [if_pos hs] at hne
        cases hl : d.client.ListSettings s with
        | error e => rw [hl] at hne; exact absurd rfl hne
        | ok objects => exact ⟨hs, objects, rfl⟩
      · rw [if_neg hs] at hne
        exact absurd rfl hne
    · rintro ⟨hs, objects, hl⟩
      by_contra hk
      have h := (GoMap.get?_eq_none_iff _ _).mpr hk
      rw [hget s objects hs hl] at h
      cases h
  · unfold download
    exact download_fold_keys_nodup d env projectName schemas ([], []) List.nodup_nil
  · intro s hs hl
    rw [hget s [] hs hl]
    rfl
  · intro s e hl
    refine ⟨?_, ?_⟩
    · rw [download_get?, hl]
      simp
    · unfold download
      exact download_fold_without_failed d env projectName s e hl schemas _ _ rfl

theorem C23_download_result_map_witness :
    GoMap.get? (download (testDownloader twoObjectsClient) testEnv
        ["builtin:broken", "builtin:some.schema"] "project").1 "builtin:some.schema"
      = some [newConfig testEnv "project" (settingsObject "oid1" "{}" none),
          newConfig testEnv "project" (settingsObject "oid2" "{}" none)]
    ∧ GoMap.get? (download (testDownloader twoObjectsClient) testEnv
        ["builtin:broken", "builtin:some.schema"] "project").1 "builtin:broken" = none :=
  ⟨((C23_download_result_map (testDownloader twoObjectsClient) testEnv
      ["builtin:broken", "builtin:some.schema"] "project").2.2.1 "builtin:some.schema"
      [settingsObject "oid1" "{}" none, settingsObject "oid2" "{}" none]
      (by decide) rfl).trans (by decide),
    ((C23_download_result_map (testDownloader twoObjectsClient) testEnv
      ["builtin:broken", "builtin:some.schema"] "project").2.2.2.2 "builtin:broken"
      { msg := "listing settings failed" } rfl).1⟩

end settings

/-! ## Claims C28, C29, C30: the configs of downloaded settings -/

namespace settings

open config coordinate dtclient

theorem mem_convertAllObjects (d : Downloader) (env : Env)
    (objects : List DownloadSettingsObject) (projectName : String) (c : Config)
    (hc : c ∈ convertAllObjects d env objects projectName) :
    ∃ o ∈ objects, c = newConfig env projectName o := by
  rw [convertAllObjects_eq_survivors] at hc
  obtain ⟨o, ho, hoc⟩ := List.mem_map.mp hc
  exact ⟨o, (survivors_sublist d env objects).subset ho, hoc.symm⟩

/-- Claim C28. When `ListSettings` for a requested schema `s` returns only objects whose
`SchemaId` is `s`, the result of `download` has an entry under the key `s`, and every config
of that entry has `s` as the `Type` of its Coordinate and a settings type with `SchemaId`
`s`. -/
theorem C28_download_entry_has_schema_type (d : Downloader) (env : Env)
    (schemas : List String) (projectName : String) (s : String)
    (objects : List DownloadSettingsObject) (hs : s ∈ schemas)
    (hlist : d.client.ListSettings s = .ok objects)
    (hschema : ∀ o ∈ objects, o.SchemaId = s) :
    ∃ cfgs, GoMap.get? (download d env schemas projectName).1 s = some cfgs
      ∧ ∀ c ∈ cfgs, c.Coordinate.Type_ = s
          ∧ ∃ version, c.Type_
              = ConfigType.Settings { SchemaId := s, SchemaVersion := version } := by
  refine ⟨convertAllObjects d env objects projectName, ?_, ?_⟩
  · rw [download_get?, if_pos hs, hlist]
  · intro c hc
    obtain ⟨o, ho, rfl⟩ := mem_convertAllObjects d env objects projectName c hc
    have h := hschema o ho
    refine ⟨h, o.SchemaVersion, ?_⟩
    simp only [newConfig, h]

theorem C28_download_entry_has_schema_type_witness :
    ∃ cfgs, GoMap.get? (download (testDownloader twoObjectsClient) testEnv
        ["builtin:some.schema"] "project").1 "builtin:some.schema" = some cfgs
      ∧ ∀ c ∈ cfgs, c.Coordinate.Type_ = "builtin:some.schema"
          ∧ ∃ version, c.Type_ = ConfigType.Settings
              { SchemaId := "builtin:some.schema", SchemaVersion := version } :=
  C28_download_entry_has_schema_type (testDownloader twoObjectsClient) testEnv
    ["builtin:some.schema"] "project" "builtin:some.schema"
    [settingsObject "oid1" "{}" none, settingsObject "oid2" "{}" none]
    (by decide) rfl (by decide)

/-- Claim C29. When the `ObjectId`s of the input objects are pairwise distinct and
`GenerateUUIDFromString` is injective on them, the Coordinates of the configs that
`convertAllObjects` returns are pairwise distinct. Nothing is de-duplicated: two surviving
objects with the same `ObjectId` and `SchemaId` yield two configs of the result, and these
have the same Coordinate. -/
theorem C29_convertAllObjects_coordinates_distinct (d : Downloader) (env : Env)
    (objects : List DownloadSettingsObject) (projectName : String) :
    ((objects.map (fun o => o.ObjectId)).Nodup →
      (∀ a ∈ objects, ∀ b ∈ objects,
        env.GenerateUUIDFromString a.ObjectId = env.GenerateUUIDFromString b.ObjectId →
        a.ObjectId = b.ObjectId) →
      ((convertAllObjects d env objects projectName).map (fun c => c.Coordinate)).Pairwise
        (fun x y => x ≠ y))
    ∧ (∀ a b : DownloadSettingsObject, [a, b].Sublist (survivors d env objects) →
        a.ObjectId = b.ObjectId → a.SchemaId = b.SchemaId →
        [newConfig env projectName a, newConfig env projectName b].Sublist
            (convertAllObjects d env objects projectName)
          ∧ (newConfig env projectName a).Coordinate
            = (newConfig env projectName b).Coordinate) := by
  refine ⟨?_, ?_⟩
  · intro hnodup hinj
    rw [convertAllObjects_eq_survivors, List.map_map]
    have hsub := survivors_sublist d env objects
    have hobj : objects.Nodup := List.Nodup.of_map _ hnodup
    have hsurv : (survivors d env objects).Nodup := hobj.sublist hsub
    refine List.Nodup.map_on ?_ hsurv
    intro x hx y hy hxy
    have hx2 := hsub.subset hx
    have hy2 := hsub.subset hy
    have hid : env.GenerateUUIDFromString x.ObjectId = env.GenerateUUIDFromString y.ObjectId :=
      congrArg (fun c => c.ConfigId) hxy
    exact List.inj_on_of_nodup_map hnodup hx2 hy2 (hinj x hx2 y hy2 hid)
  · intro a b hab hid hschema
    refine ⟨?_, ?_⟩
    · rw [convertAllObjects_eq_survivors]
      exact hab.map (newConfig env projectName)
    · simp only [newConfig, hid, hschema]

theorem C29_convertAllObjects_coordinates_distinct_witness :
    ((convertAllObjects (testDownloader someSchemaClient) testEnv
        [settingsObject "oid1" "{}" none, settingsObject "oid2" "{}" none] "project").map
        (fun c => c.Coordinate)).Pairwise (fun x y => x ≠ y)
    ∧ [newConfig testEnv "project" (settingsObject "oid1" "{}" none),
        newConfig testEnv "project" (settingsObject "oid1" "{}" none)].Sublist
        (convertAllObjects (testDownloader someSchemaClient) testEnv
          [settingsObject "oid1" "{}" none, settingsObject "oid1" "{}" none] "project") :=
  ⟨(C29_convertAllObjects_coordinates_distinct (testDownloader someSchemaClient) testEnv
      [settingsObject "oid1" "{}" none, settingsObject "oid2" "{}" none] "project").1
      (by decide) (by decide),
    ((C29_convertAllObjects_coordinates_distinct (testDownloader someSchemaClient) testEnv
      [settingsObject "oid1" "{}" none, settingsObject "oid1" "{}" none] "project").2
      (settingsObject "oid1" "{}" none) (settingsObject "oid1" "{}" none)
      (by decide) rfl rfl).1⟩

/-- Claim C30. The configs that `convertAllObjects` returns pair off, in order, with the
surviving objects, and the config of object `o` has `Skip` false and exactly one parameter: it
is named `ScopeParameter` and is the value parameter holding `o.Scope`. Such a config has no
outgoing References, and it contributes no edge to the dependency graph, whatever the
Coordinates of the Config Set are. -/
theorem C30_downloaded_config_has_scope_only (d : Downloader) (env : Env)
    (objects : List DownloadSettingsObject) (projectName : String) :
    ∃ kept : List DownloadSettingsObject, kept.Sublist objects ∧
      List.Forall₂
        (fun c o =>
          c.Skip = false
          ∧ c.Parameters = [(env.ScopeParameter, Parameter.value { Value := o.Scope })]
          ∧ GoMap.len c.Parameters = 1
          ∧ graph.References c = []
          ∧ ∀ coordinates : List Coordinate, graph.configEdges coordinates c = [])
        (convertAllObjects d env objects projectName) kept := by
  refine ⟨survivors d env objects, survivors_sublist d env objects, ?_⟩
  rw [convertAllObjects_eq_survivors]
  exact forall₂_map_newConfig env projectName _
    (fun o => ⟨rfl, rfl, rfl, rfl, fun _ => rfl⟩) _

end settings

/-! ## The interleaving of the goroutines of `download` -/

namespace settings

open config coordinate dtclient

/-- Starting the goroutines of `download` in another order changes no entry of the result map
and makes the same `ListSettings` calls, up to order. -/
theorem download_start_order_irrelevant (d : Downloader) (env : Env) (projectName : String)
    (schemas started : List String) (h : started.Perm schemas) :
    (∀ s, GoMap.get? (download d env started projectName).1 s
        = GoMap.get? (download d env schemas projectName).1 s)
    ∧ (download d env started projectName).2.Perm (download d env schemas projectName).2 := by
  refine ⟨?_, ?_⟩
  · intro s
    rw [download_get?, download_get?]
    by_cases hs : s ∈ schemas
    · rw [if_pos hs, if_pos (h.mem_iff.mpr hs)]
    · rw [if_neg hs, if_neg (fun hm => hs (h.mem_iff.mp hm))]
  · rw [download_calls, download_calls]
    exact h.map _

end settings

end Monaco
